import Mathlib

/-!
# Lime2D script host: sandbox store, fused archive, module resolver, profiler, dispatch

A shallow embedding of the script-hosting core of `lime2d-jit`
(`src/LuaHost.cpp`, `src/FusedArchive.cpp`, and the activation of the script
screen in `src/Screen.cpp` and `src/ScreenLua.cpp`) together with theorems about
it.

Conventions of the embedding:

* `std::string` and `fs::path` values are lists of characters (`Str`); a path is
  its native pathname, exactly as `std::filesystem::path` stores it.
* The C++ standard library's lexical path operations (`is_absolute`,
  `lexically_normal`, `operator/`, iteration) are modelled once, for both
  pathname grammars the program is built for: POSIX and Windows (the release
  build is a Visual Studio build, see `src/main.cpp`).
* Operating-system services (file system, environment) are parameters.
* Profiler times are exact rational seconds, and every reading of the clock is
  an argument of the function that takes it.
* The script engine is a parameter as far as compiling goes; a compiled body is
  a tree of the host calls it makes, and the callback dispatchers work on an
  explicit engine stack.
-/

namespace Lime

/-- A byte string (`std::string`) or a native pathname. -/
abbrev Str := List Char

/-- The two pathname grammars of `std::filesystem`. -/
inductive Platform where
  | posix
  | windows
deriving DecidableEq, Repr

/-! ## `std::filesystem::path`: lexical operations -/

/-- A directory separator character: `/`, and on Windows also the backslash. -/
def isSlash (pf : Platform) (c : Char) : Bool :=
  c == '/' || (pf == Platform.windows && c == '\\')

/-- The value of `fs::path::preferred_separator`. -/
def preferredSeparator : Platform → Char
  | Platform.posix => '/'
  | Platform.windows => '\\'

/-- An ASCII letter. -/
def isAsciiLetter (c : Char) : Bool :=
  (97 ≤ c.toNat && c.toNat ≤ 122) || (65 ≤ c.toNat && c.toNat ≤ 90)

/-- A pathname that starts with a drive designator such as `C:`. -/
def hasDriveLetter (s : Str) : Bool :=
  match s with
  | c0 :: c1 :: _ => isAsciiLetter c0 && c1 == ':'
  | _ => false

/-- Length of the root-name at the start of a pathname. POSIX pathnames have no
root-name; on Windows it is a drive designator (`C:`), a device prefix
(`\\?\`, `\\.\`, `\??\`, three characters) or a server name (`\\server`). -/
def rootNameEnd (pf : Platform) (s : Str) : Nat :=
  match pf with
  | Platform.posix => 0
  | Platform.windows =>
    if s.length < 2 then 0
    else if hasDriveLetter s then 2
    else if !isSlash pf (s.getD 0 ' ') then 0
    else if decide (4 ≤ s.length) && isSlash pf (s.getD 3 ' ')
        && (s.length == 4 || !isSlash pf (s.getD 4 ' '))
        && ((isSlash pf (s.getD 1 ' ') && (s.getD 2 ' ' == '?' || s.getD 2 ' ' == '.'))
            || (s.getD 1 ' ' == '?' && s.getD 2 ' ' == '?')) then 3
    else if decide (3 ≤ s.length) && isSlash pf (s.getD 1 ' ') && !isSlash pf (s.getD 2 ' ') then
      3 + ((s.drop 3).takeWhile (fun c => !isSlash pf c)).length
    else 0

/-- The C++ `path::is_absolute`: on POSIX a pathname with a root directory; on
Windows a drive designator followed by a separator, or any other root-name. -/
def is_absolute (pf : Platform) (s : Str) : Bool :=
  match pf with
  | Platform.posix =>
    match s with
    | c :: _ => c == '/'
    | [] => false
  | Platform.windows =>
    if hasDriveLetter s then decide (3 ≤ s.length) && isSlash pf (s.getD 2 ' ')
    else rootNameEnd pf s != 0

/-- The pieces of a pathname after its root-name: a directory separator (one or
more slashes) or a filename. -/
inductive Tok where
  | sep
  | name (n : Str)
deriving DecidableEq, Repr

/-- Splits the part of a pathname after the root-name into filenames and
directory separators; a run of slashes is one separator. -/
def tokens (pf : Platform) : Str → List Tok
  | [] => []
  | c :: cs =>
    if isSlash pf c then
      match tokens pf cs with
      | Tok.sep :: rest => Tok.sep :: rest
      | rest => Tok.sep :: rest
    else
      match tokens pf cs with
      | Tok.name n :: rest => Tok.name (c :: n) :: rest
      | rest => Tok.name [c] :: rest

/-- The filename `..`. -/
def dotDot : Str := ['.', '.']

/-- The filename `.`. -/
def dot : Str := ['.']

/-- Normalization step 4: remove each dot filename and any immediately following
directory separator. The flag says that the previous piece was a removed dot. -/
def removeDots : Bool → List Tok → List Tok
  | _, [] => []
  | skip, Tok.sep :: rest => if skip then removeDots false rest else Tok.sep :: removeDots false rest
  | _, Tok.name n :: rest =>
    if n == dot then removeDots true rest else Tok.name n :: removeDots false rest

/-- Normalization step 5: remove a non-dot-dot filename immediately followed by a
directory separator and a dot-dot filename, along with any immediately following
directory separator. `out` holds the pieces already passed, last one first; the
flag says that the previous piece was a removed dot-dot. -/
def collapseDotDots : List Tok → Bool → List Tok → List Tok
  | out, _, [] => out.reverse
  | out, skip, Tok.sep :: rest =>
    if skip then collapseDotDots out false rest else collapseDotDots (Tok.sep :: out) false rest
  | out, _, Tok.name n :: rest =>
    if n == dotDot then
      match out with
      | Tok.sep :: Tok.name m :: out2 =>
        if m == dotDot then collapseDotDots (Tok.name n :: out) false rest
        else collapseDotDots out2 true rest
      | _ => collapseDotDots (Tok.name n :: out) false rest
    else collapseDotDots (Tok.name n :: out) false rest

/-- Normalization step 6: with a root directory, remove all dot-dot filenames and
any directory separators immediately following them. -/
def removeRootDotDots : Bool → List Tok → List Tok
  | _, [] => []
  | skip, Tok.sep :: rest =>
    if skip then removeRootDotDots false rest else Tok.sep :: removeRootDotDots false rest
  | _, Tok.name n :: rest =>
    if n == dotDot then removeRootDotDots true rest else Tok.name n :: removeRootDotDots false rest

/-- Normalization step 7: if the last filename is dot-dot, remove any trailing
directory separator. -/
def dropSepAfterLastDotDot (ts : List Tok) : List Tok :=
  match ts.reverse with
  | Tok.sep :: Tok.name n :: _ => if n == dotDot then ts.dropLast else ts
  | _ => ts

/-- The pieces of the normal form of the part of a pathname after its root-name. -/
def normalTokens (ts : List Tok) : List Tok :=
  let t4 := removeDots false ts
  let t5 := collapseDotDots [] false t4
  let t6 := match t5 with
    | Tok.sep :: _ => removeRootDotDots false t5
    | _ => t5
  dropSepAfterLastDotDot t6

/-- Writes pieces back as a pathname, each separator as the preferred one. -/
def flatten (pf : Platform) : List Tok → Str
  | [] => []
  | Tok.sep :: rest => preferredSeparator pf :: flatten pf rest
  | Tok.name n :: rest => n ++ flatten pf rest

/-- The C++ `path::lexically_normal`: the pathname in normal form
([fs.path.generic]); the result is again a pathname and is parsed as one. -/
def lexically_normal (pf : Platform) (s : Str) : Str :=
  if s.isEmpty then []
  else
    let rn := rootNameEnd pf s
    let root := (s.take rn).map (fun c => if c == '/' then preferredSeparator pf else c)
    let normalized := root ++ flatten pf (normalTokens (tokens pf (s.drop rn)))
    if normalized.isEmpty then dot else normalized

/-- The filename elements of an iteration: each filename, and an empty element
for a trailing separator. -/
def filenameElements : List Tok → List Str
  | [] => []
  | [Tok.sep] => [[]]
  | Tok.sep :: rest => filenameElements rest
  | Tok.name n :: rest => n :: filenameElements rest

/-- The elements a `fs::path` iterates over: the root-name, the root directory
(written as one preferred separator, as it is in a normalized path), then each
filename, and an empty element for a trailing separator. -/
def pathElements (pf : Platform) (s : Str) : List Str :=
  let rn := rootNameEnd pf s
  let rootName := if rn == 0 then [] else [s.take rn]
  match tokens pf (s.drop rn) with
  | Tok.sep :: rest => rootName ++ [preferredSeparator pf] :: filenameElements rest
  | ts => rootName ++ filenameElements ts

/-- The C++ `operator/` of `fs::path`: `q` resolved lexically against `p`. -/
def pathAppend (pf : Platform) (p q : Str) : Str :=
  if is_absolute pf q then q
  else
    let pr := rootNameEnd pf p
    let qr := rootNameEnd pf q
    if qr != 0 && p.take pr != q.take qr then q
    else if decide (qr < q.length) && isSlash pf (q.getD qr ' ') then p.take pr ++ q.drop qr
    else if pr == p.length then
      (if decide (3 ≤ pr) then p ++ [preferredSeparator pf] else p) ++ q.drop qr
    else
      (if !isSlash pf (p.getLastD ' ') then p ++ [preferredSeparator pf] else p) ++ q.drop qr

/-! ## Sandbox store: identity and path checks (`src/LuaHost.cpp`) -/

/-- One step of the loop of `LuaHost::sanitizeIdentity`. -/
def sanitizeStep (result : Str) (c : Char) : Str :=
  if (97 ≤ c.toNat && c.toNat ≤ 122) || (65 ≤ c.toNat && c.toNat ≤ 90) ||
      (48 ≤ c.toNat && c.toNat ≤ 57) || c == '_' || c == '-' then
    result ++ [c]
  else if c == ' ' || c == '.' then
    if result.isEmpty || result.getLast? != some '_' then result ++ ['_'] else result
  else result

/-- The loop `while (!result.empty() && result.back() == '_') result.pop_back()`. -/
def popTrailingUnderscores (result : Str) : Str :=
  (result.reverse.dropWhile (fun c => c == '_')).reverse

/-- Embeds `LuaHost::sanitizeIdentity`. -/
def sanitizeIdentity (raw : Str) : Str :=
  let result := raw.foldl sanitizeStep []
  let result := popTrailingUnderscores result
  let result := if result.isEmpty then "unnamed".toList else result
  if result.length > 64 then result.take 64 else result

/-- Embeds `LuaHost::isPathSafe`. -/
def isPathSafe (pf : Platform) (relPath : Str) : Bool :=
  if relPath.isEmpty then true
  else if is_absolute pf relPath then false
  else if decide (2 ≤ relPath.length) && relPath.getD 1 ' ' == ':' then false
  else if !relPath.isEmpty && (relPath.getD 0 ' ' == '/' || relPath.getD 0 ' ' == '\\') then false
  else
    let normalized := lexically_normal pf relPath
    if (pathElements pf normalized).head? == some dotDot then false
    else if (pathElements pf normalized).any (fun comp => comp == dotDot) then false
    else true

/-- Embeds `LuaHost::resolveSavePath`; the empty path is the failure value. -/
def resolveSavePath (pf : Platform) (saveDir : Str) (relPath : Str) : Str :=
  if !isPathSafe pf relPath then []
  else if relPath.isEmpty then saveDir
  else pathAppend pf saveDir (lexically_normal pf relPath)

/-- The C++ `path::parent_path`: the pathname without its last filename and the
separators before it; the root-name and root directory are never removed. -/
def parent_path (pf : Platform) (s : Str) : Str :=
  let rn := rootNameEnd pf s
  let rootLen := rn + ((s.drop rn).takeWhile (isSlash pf)).length
  let rel := s.drop rootLen
  let noFilename := rel.reverse.dropWhile (fun c => !isSlash pf c)
  s.take rootLen ++ (noFilename.dropWhile (isSlash pf)).reverse

/-! ## Operating-system services -/

/-- A `std::error_code`: whether it is set, and its message. -/
structure ErrorCode where
  failed : Bool
  message : Str
deriving DecidableEq, Repr

/-- How `std::ofstream` opens a file: `std::ios::trunc` or `std::ios::app`. -/
inductive OpenMode where
  | trunc
  | app
deriving DecidableEq, Repr

/-- What a `fs::directory_iterator` yields for one child: its filename, and whether
`is_regular_file` / `is_directory` answer true without an error. -/
structure DirEntry where
  name : Str
  regular : Bool
  directory : Bool
deriving DecidableEq, Repr

/-- The file-system calls the host makes, over a file-system state `Φ`. Queries
return their answer; the others also return the next state. -/
structure FileSystem (Φ : Type) where
  pathExists : Φ → Str → Bool × ErrorCode
  is_regular_file : Φ → Str → Bool × ErrorCode
  is_directory : Φ → Str → Bool × ErrorCode
  readWholeFile : Φ → Str → Option Str
  create_directories : Φ → Str → ErrorCode × Φ
  ofstreamOpen : Φ → Str → OpenMode → Bool × Φ
  ofstreamWrite : Φ → Str → Str → Bool × Φ
  ofstreamClose : Φ → Str → Bool × Φ
  directory_iterator : Φ → Str → List DirEntry × ErrorCode
  remove : Φ → Str → (Bool × ErrorCode) × Φ

/-- One file-system call, as recorded in the call log. -/
inductive FsCall where
  | pathExists (p : Str)
  | is_regular_file (p : Str)
  | is_directory (p : Str)
  | readWholeFile (p : Str)
  | create_directories (p : Str)
  | ofstreamOpen (p : Str) (mode : OpenMode)
  | ofstreamWrite (p : Str) (data : Str)
  | ofstreamClose (p : Str)
  | directory_iterator (p : Str)
  | remove (p : Str)
deriving DecidableEq, Repr

/-- The storage the host runs against: the file-system state and the log of every
file-system call made so far, oldest first. -/
structure World (Φ : Type) where
  fs : Φ
  calls : List FsCall

/-- The process environment: the pathname grammar, the per-user data root that
`LuaHost::getUserDataBasePath` finds (`APPDATA`, `XDG_DATA_HOME`, ...) and the
working directory `fs::current_path()`. -/
structure Env where
  pf : Platform
  userDataBase : Str
  currentPath : Str

/-! ## Host state (`src/LuaHost.h`) -/

/-- The fields of `class LuaHost` that the script-hosting core reads or writes.
`L` is the engine handle (`none` is `nullptr`); profiler times are seconds. -/
structure LuaHost where
  L : Option Nat
  mainScriptDir : Str
  exeDir : Str
  quitCallbackActive : Bool
  appIdentity : Str
  saveDir : Str
  identityLocked : Bool
  filesystemAccessed : Bool
  profilerSections : List (Str × Rat)
  profilerActiveSection : Str
  profilerSectionStart : Rat
  fusedBaseDir : Str
deriving DecidableEq, Repr

/-- Embeds `LuaHost::initSaveDir`: the save directory is
`<data root>/Lime2D/<identity>`; nothing is created on disk. -/
def initSaveDir (env : Env) (h : LuaHost) : LuaHost :=
  let appIdentity := if h.appIdentity.isEmpty then "unnamed".toList else h.appIdentity
  { h with
    appIdentity := appIdentity
    saveDir := pathAppend env.pf (pathAppend env.pf env.userDataBase "Lime2D".toList) appIdentity }

/-- What a `lime.filesystem` function hands back to the script. -/
inductive FsReturn where
  | nilMsg (msg : Str)
  | falseMsg (msg : Str)
  | bool (b : Bool)
  | content (data : Str)
  | listing (entries : List (Str × Str))
deriving DecidableEq, Repr

/-- The common entry of every sandbox operation: the save directory is
initialised if it is still empty, and the access flag is set. -/
def enterSandbox (env : Env) (h : LuaHost) : LuaHost :=
  let h1 := if h.saveDir.isEmpty then initSaveDir env h else h
  { h1 with filesystemAccessed := true }

/-! ## Logged file-system calls -/

section Calls
variable {Φ : Type}

/-- Calls `fs::exists(p, ec)` and records the call. -/
def callExists (F : FileSystem Φ) (w : World Φ) (p : Str) : (Bool × ErrorCode) × World Φ :=
  (F.pathExists w.fs p, { w with calls := w.calls ++ [FsCall.pathExists p] })

/-- Calls `fs::is_regular_file(p, ec)` and records the call. -/
def callIsRegularFile (F : FileSystem Φ) (w : World Φ) (p : Str) :
    (Bool × ErrorCode) × World Φ :=
  (F.is_regular_file w.fs p, { w with calls := w.calls ++ [FsCall.is_regular_file p] })

/-- Calls `fs::is_directory(p, ec)` and records the call. -/
def callIsDirectory (F : FileSystem Φ) (w : World Φ) (p : Str) : (Bool × ErrorCode) × World Φ :=
  (F.is_directory w.fs p, { w with calls := w.calls ++ [FsCall.is_directory p] })

/-- Calls `readWholeFile(p, out)` and records the call. -/
def callReadWholeFile (F : FileSystem Φ) (w : World Φ) (p : Str) : Option Str × World Φ :=
  (F.readWholeFile w.fs p, { w with calls := w.calls ++ [FsCall.readWholeFile p] })

/-- Calls `fs::create_directories(p, ec)` and records the call. -/
def callCreateDirectories (F : FileSystem Φ) (w : World Φ) (p : Str) : ErrorCode × World Φ :=
  ((F.create_directories w.fs p).1,
    { fs := (F.create_directories w.fs p).2, calls := w.calls ++ [FsCall.create_directories p] })

/-- Opens a `std::ofstream` on `p` and records the call. -/
def callOfstreamOpen (F : FileSystem Φ) (w : World Φ) (p : Str) (mode : OpenMode) :
    Bool × World Φ :=
  ((F.ofstreamOpen w.fs p mode).1,
    { fs := (F.ofstreamOpen w.fs p mode).2, calls := w.calls ++ [FsCall.ofstreamOpen p mode] })

/-- Writes to the stream opened on `p` and records the call. -/
def callOfstreamWrite (F : FileSystem Φ) (w : World Φ) (p data : Str) : Bool × World Φ :=
  ((F.ofstreamWrite w.fs p data).1,
    { fs := (F.ofstreamWrite w.fs p data).2, calls := w.calls ++ [FsCall.ofstreamWrite p data] })

/-- Closes the stream opened on `p` and records the call. -/
def callOfstreamClose (F : FileSystem Φ) (w : World Φ) (p : Str) : Bool × World Φ :=
  ((F.ofstreamClose w.fs p).1,
    { fs := (F.ofstreamClose w.fs p).2, calls := w.calls ++ [FsCall.ofstreamClose p] })

/-- Constructs `fs::directory_iterator(p, ec)` and records the call. -/
def callDirectoryIterator (F : FileSystem Φ) (w : World Φ) (p : Str) :
    (List DirEntry × ErrorCode) × World Φ :=
  (F.directory_iterator w.fs p, { w with calls := w.calls ++ [FsCall.directory_iterator p] })

/-- Calls `fs::remove(p, ec)` and records the call. -/
def callRemove (F : FileSystem Φ) (w : World Φ) (p : Str) : (Bool × ErrorCode) × World Φ :=
  ((F.remove w.fs p).1, { fs := (F.remove w.fs p).2, calls := w.calls ++ [FsCall.remove p] })

/-- An unset `std::error_code`. -/
def noError : ErrorCode := { failed := false, message := [] }

/-- The part of `l_fs_write` and `l_fs_append` after the path checks, the same in
both but for the open mode and the message of a failed open: create the missing
parent directory, open the file, write the data if there is any, close. -/
def storeFile (F : FileSystem Φ) (env : Env) (w : World Φ) (fullPath data : Str)
    (mode : OpenMode) (openFailure : Str) : FsReturn × World Φ :=
  let parentDir := parent_path env.pf fullPath
  let created : ErrorCode × World Φ :=
    if parentDir.isEmpty then (noError, w)
    else
      let ex := callExists F w parentDir
      if !ex.1.1 then callCreateDirectories F ex.2 parentDir else (noError, ex.2)
  if created.1.failed then
    (FsReturn.falseMsg ("failed to create directory: ".toList ++ created.1.message), created.2)
  else
    let opened := callOfstreamOpen F created.2 fullPath mode
    if !opened.1 then (FsReturn.falseMsg openFailure, opened.2)
    else
      let written : Bool × World Φ :=
        if data.length > 0 then callOfstreamWrite F opened.2 fullPath data else (true, opened.2)
      let closed := callOfstreamClose F written.2 fullPath
      if !(written.1 && closed.1) then (FsReturn.falseMsg "write error".toList, closed.2)
      else (FsReturn.bool true, closed.2)

/-! ## Sandbox store operations (`lime.filesystem`, `src/LuaHost.cpp`)

Each operation takes the relative path (and data) the script passed, as the
strings `luaL_checkstring` hands over, and returns what the script receives, the
host state and the storage afterwards. A call whose argument is not a string
raises in `luaL_checkstring`, before the first statement modelled here. -/

/-- Embeds `LuaHost::l_fs_read`. -/
def l_fs_read (F : FileSystem Φ) (env : Env) (h : LuaHost) (w : World Φ) (relPath : Str) :
    FsReturn × LuaHost × World Φ :=
  let h := enterSandbox env h
  if !isPathSafe env.pf relPath then
    (FsReturn.nilMsg "invalid path (outside sandbox)".toList, h, w)
  else
    let fullPath := resolveSavePath env.pf h.saveDir relPath
    if fullPath.isEmpty then (FsReturn.nilMsg "invalid path".toList, h, w)
    else
      let ex := callExists F w fullPath
      if !ex.1.1 || ex.1.2.failed then (FsReturn.nilMsg "file does not exist".toList, h, ex.2)
      else
        let reg := callIsRegularFile F ex.2 fullPath
        if !reg.1.1 || reg.1.2.failed then (FsReturn.nilMsg "path is not a file".toList, h, reg.2)
        else
          let rd := callReadWholeFile F reg.2 fullPath
          match rd.1 with
          | none => (FsReturn.nilMsg "failed to read file".toList, h, rd.2)
          | some content => (FsReturn.content content, h, rd.2)

/-- Embeds `LuaHost::l_fs_write`. -/
def l_fs_write (F : FileSystem Φ) (env : Env) (h : LuaHost) (w : World Φ) (relPath data : Str) :
    FsReturn × LuaHost × World Φ :=
  let h := enterSandbox env h
  if !isPathSafe env.pf relPath then
    (FsReturn.falseMsg "invalid path (outside sandbox)".toList, h, w)
  else
    let fullPath := resolveSavePath env.pf h.saveDir relPath
    if fullPath.isEmpty then (FsReturn.falseMsg "invalid path".toList, h, w)
    else
      let r := storeFile F env w fullPath data OpenMode.trunc
        "failed to open file for writing".toList
      (r.1, h, r.2)

/-- Embeds `LuaHost::l_fs_append`. -/
def l_fs_append (F : FileSystem Φ) (env : Env) (h : LuaHost) (w : World Φ) (relPath data : Str) :
    FsReturn × LuaHost × World Φ :=
  let h := enterSandbox env h
  if !isPathSafe env.pf relPath then
    (FsReturn.falseMsg "invalid path (outside sandbox)".toList, h, w)
  else
    let fullPath := resolveSavePath env.pf h.saveDir relPath
    if fullPath.isEmpty then (FsReturn.falseMsg "invalid path".toList, h, w)
    else
      let r := storeFile F env w fullPath data OpenMode.app
        "failed to open file for appending".toList
      (r.1, h, r.2)

/-- Embeds `LuaHost::l_fs_exists`. -/
def l_fs_exists (F : FileSystem Φ) (env : Env) (h : LuaHost) (w : World Φ) (relPath : Str) :
    FsReturn × LuaHost × World Φ :=
  let h := enterSandbox env h
  if !isPathSafe env.pf relPath then (FsReturn.bool false, h, w)
  else
    let fullPath := resolveSavePath env.pf h.saveDir relPath
    if fullPath.isEmpty then (FsReturn.bool false, h, w)
    else
      let ex := callExists F w fullPath
      (FsReturn.bool (ex.1.1 && !ex.1.2.failed), h, ex.2)

/-- Embeds `LuaHost::l_fs_isFile`. -/
def l_fs_isFile (F : FileSystem Φ) (env : Env) (h : LuaHost) (w : World Φ) (relPath : Str) :
    FsReturn × LuaHost × World Φ :=
  let h := enterSandbox env h
  if !isPathSafe env.pf relPath then (FsReturn.bool false, h, w)
  else
    let fullPath := resolveSavePath env.pf h.saveDir relPath
    if fullPath.isEmpty then (FsReturn.bool false, h, w)
    else
      let reg := callIsRegularFile F w fullPath
      (FsReturn.bool (reg.1.1 && !reg.1.2.failed), h, reg.2)

/-- Embeds `LuaHost::l_fs_isDirectory`. -/
def l_fs_isDirectory (F : FileSystem Φ) (env : Env) (h : LuaHost) (w : World Φ) (relPath : Str) :
    FsReturn × LuaHost × World Φ :=
  let h := enterSandbox env h
  if !isPathSafe env.pf relPath then (FsReturn.bool false, h, w)
  else
    let fullPath := resolveSavePath env.pf h.saveDir relPath
    if fullPath.isEmpty then (FsReturn.bool false, h, w)
    else
      let dir := callIsDirectory F w fullPath
      (FsReturn.bool (dir.1.1 && !dir.1.2.failed), h, dir.2)

/-- Embeds `LuaHost::l_fs_remove`. -/
def l_fs_remove (F : FileSystem Φ) (env : Env) (h : LuaHost) (w : World Φ) (relPath : Str) :
    FsReturn × LuaHost × World Φ :=
  let h := enterSandbox env h
  if !isPathSafe env.pf relPath then
    (FsReturn.falseMsg "invalid path (outside sandbox)".toList, h, w)
  else if relPath.isEmpty then
    (FsReturn.falseMsg "cannot remove save directory root".toList, h, w)
  else
    let fullPath := resolveSavePath env.pf h.saveDir relPath
    if fullPath.isEmpty then (FsReturn.falseMsg "invalid path".toList, h, w)
    else
      let ex := callExists F w fullPath
      if !ex.1.1 then (FsReturn.falseMsg "path does not exist".toList, h, ex.2)
      else
        let dir := callIsDirectory F ex.2 fullPath
        let nonEmpty : Bool × World Φ :=
          if dir.1.1 && !dir.1.2.failed then
            let it := callDirectoryIterator F dir.2 fullPath
            (!it.1.2.failed && !it.1.1.isEmpty, it.2)
          else (false, dir.2)
        if nonEmpty.1 then (FsReturn.falseMsg "directory is not empty".toList, h, nonEmpty.2)
        else
          let rm := callRemove F nonEmpty.2 fullPath
          if rm.1.2.failed || !rm.1.1 then
            (FsReturn.falseMsg ("failed to remove: ".toList ++ rm.1.2.message), h, rm.2)
          else (FsReturn.bool true, h, rm.2)

/-- Embeds `LuaHost::l_fs_mkdir`. -/
def l_fs_mkdir (F : FileSystem Φ) (env : Env) (h : LuaHost) (w : World Φ) (relPath : Str) :
    FsReturn × LuaHost × World Φ :=
  let h := enterSandbox env h
  if !isPathSafe env.pf relPath then
    (FsReturn.falseMsg "invalid path (outside sandbox)".toList, h, w)
  else
    let fullPath := resolveSavePath env.pf h.saveDir relPath
    if fullPath.isEmpty then (FsReturn.falseMsg "invalid path".toList, h, w)
    else
      let cd := callCreateDirectories F w fullPath
      if cd.1.failed then
        (FsReturn.falseMsg ("failed to create directory: ".toList ++ cd.1.message), h, cd.2)
      else (FsReturn.bool true, h, cd.2)

/-- The type tag `l_fs_list` gives a child. -/
def entryType (e : DirEntry) : Str :=
  if e.regular then "file".toList
  else if e.directory then "directory".toList
  else "unknown".toList

/-- Embeds `LuaHost::l_fs_list`; an absent argument is the empty path. -/
def l_fs_list (F : FileSystem Φ) (env : Env) (h : LuaHost) (w : World Φ) (relPath : Str) :
    FsReturn × LuaHost × World Φ :=
  let h := enterSandbox env h
  if !isPathSafe env.pf relPath then
    (FsReturn.nilMsg "invalid path (outside sandbox)".toList, h, w)
  else
    let fullPath := resolveSavePath env.pf h.saveDir relPath
    if fullPath.isEmpty then (FsReturn.nilMsg "invalid path".toList, h, w)
    else
      let ex := callExists F w fullPath
      if !ex.1.1 || ex.1.2.failed then (FsReturn.nilMsg "path does not exist".toList, h, ex.2)
      else
        let dir := callIsDirectory F ex.2 fullPath
        if !dir.1.1 || dir.1.2.failed then
          (FsReturn.nilMsg "path is not a directory".toList, h, dir.2)
        else
          let it := callDirectoryIterator F dir.2 fullPath
          let entries := if it.1.2.failed then [] else it.1.1
          (FsReturn.listing (entries.map (fun e => (e.name, entryType e))), h, it.2)

/-- Embeds `LuaHost::l_fs_setIdentity`: raises (`Except.error`) when the identity is
already locked or the sandbox has been used; otherwise sets the identity. -/
def l_fs_setIdentity (env : Env) (h : LuaHost) (rawId : Str) : Except Str Unit × LuaHost :=
  if h.identityLocked then
    (Except.error "lime.filesystem.setIdentity: can only be called once".toList, h)
  else if h.filesystemAccessed then
    (Except.error
      "lime.filesystem.setIdentity: must be called before any filesystem operations".toList, h)
  else
    let h1 := initSaveDir env { h with appIdentity := sanitizeIdentity rawId }
    (Except.ok (), { h1 with identityLocked := true })

/-- Embeds `LuaHost::l_fs_getSaveDir`. -/
def l_fs_getSaveDir (env : Env) (h : LuaHost) : Str × LuaHost :=
  let h1 := if h.saveDir.isEmpty then initSaveDir env h else h
  (h1.saveDir, h1)

end Calls

/-! ## A small in-memory file system

Used to run the operations on concrete inputs. A node is stored under the exact
pathname it was created with; `none` marks a directory. -/

/-- The state of the in-memory file system. -/
abbrev MemFs := List (Str × Option Str)

/-- The in-memory file system. Directories are created on request, a file is
created when it is opened for writing, and nothing ever fails except opening a
directory for writing and removing a missing node. -/
def memFs (pf : Platform) : FileSystem MemFs where
  pathExists fs p := ((fs.lookup p).isSome, noError)
  is_regular_file fs p := (match fs.lookup p with | some (some _) => true | _ => false, noError)
  is_directory fs p := (fs.lookup p == some none, noError)
  readWholeFile fs p := match fs.lookup p with | some (some c) => some c | _ => none
  create_directories fs p := (noError, if (fs.lookup p).isSome then fs else (p, none) :: fs)
  ofstreamOpen fs p mode :=
    match fs.lookup p, mode with
    | some none, _ => (false, fs)
    | some (some c), OpenMode.app => (true, (p, some c) :: fs)
    | _, _ => (true, (p, some []) :: fs)
  ofstreamWrite fs p data :=
    match fs.lookup p with
    | some (some c) => (true, (p, some (c ++ data)) :: fs)
    | _ => (false, fs)
  ofstreamClose fs _ := (true, fs)
  directory_iterator fs p :=
    (((fs.filter (fun e => parent_path pf e.1 == p && e.1 != p)).map
      (fun e => { name := e.1.drop (p.length + 1), regular := e.2.isSome,
                  directory := !e.2.isSome })), noError)
  remove fs p :=
    if (fs.lookup p).isSome then ((true, noError), fs.filter (fun e => e.1 != p))
    else ((false, noError), fs)

/-! ## Fused archive (`src/FusedArchive.cpp`) -/

/-- An `unsigned char` of the executable image. -/
abbrev Byte := Fin 256

/-- The loop `while (r.size() >= 2 && r[0] == '.' && r[1] == '/') r = r.substr(2)`. -/
def stripDotSlash : Str → Str
  | c0 :: c1 :: rest => if c0 == '.' && c1 == '/' then stripDotSlash rest else c0 :: c1 :: rest
  | r => r

/-- Embeds `FusedArchive::normalizePath`. -/
def normalizePath (p : Str) : Str :=
  stripDotSlash (p.map (fun c => if c == '\\' then '/' else c))

/-- The byte `buf[i]` as a number. -/
def byteAt (data : List Byte) (i : Nat) : Nat := (data.getD i 0).val

/-- The 16-bit little-endian field at `i`. -/
def le16 (data : List Byte) (i : Nat) : Nat :=
  byteAt data i ||| (byteAt data (i + 1) <<< 8)

/-- The 32-bit little-endian field at `i`. -/
def le32 (data : List Byte) (i : Nat) : Nat :=
  byteAt data i ||| (byteAt data (i + 1) <<< 8) ||| (byteAt data (i + 2) <<< 16) |||
    (byteAt data (i + 3) <<< 24)

/-- The end-of-central-directory signature `PK\x05\x06` at `i`. -/
def hasEocdSignature (data : List Byte) (i : Nat) : Bool :=
  byteAt data i == 0x50 && byteAt data (i + 1) == 0x4B &&
    byteAt data (i + 2) == 0x05 && byteAt data (i + 3) == 0x06

/-- The body of the scan loop of `findZipStartOffset` at index `i`: `none` when
the loop goes on, otherwise the value returned (`none` inside is `npos`). -/
def checkEocdAt (data : List Byte) (i : Nat) : Option (Option Nat) :=
  if hasEocdSignature data i then
    let commentLen := le16 data (i + 20)
    if i + 22 + commentLen == data.length then
      let cdSize := le32 data (i + 12)
      let cdOffset := le32 data (i + 16)
      if i < cdSize then some none
      else
        let actualCdPos := i - cdSize
        if actualCdPos < cdOffset then some none
        else some (some (actualCdPos - cdOffset))
    else none
  else none

/-- The scan loop of `findZipStartOffset`, at `i = searchFrom + k`, going down to
`searchFrom`. -/
def scanEocd (data : List Byte) (searchFrom : Nat) : Nat → Option Nat
  | 0 =>
    match checkEocdAt data searchFrom with
    | some r => r
    | none => none
  | k + 1 =>
    match checkEocdAt data (searchFrom + (k + 1)) with
    | some r => r
    | none => scanEocd data searchFrom k

/-- Embeds `findZipStartOffset`; `none` is `std::string::npos`. -/
def findZipStartOffset (data : List Byte) : Option Nat :=
  let dataSize := data.length
  if dataSize < 22 then none
  else
    let maxSearch := 22 + 65535
    let searchFrom := if dataSize > maxSearch then dataSize - maxSearch else 0
    scanEocd data searchFrom (dataSize - 22 - searchFrom)

/-- What the zip reader reports for one entry of a parsed container: whether it
is a directory, its name if its record can be read, its content if it can be
extracted. -/
structure ZipEntry where
  isDirectory : Bool
  filename : Option Str
  content : Option Str
deriving DecidableEq, Repr

/-- The static state of `class FusedArchive`. -/
structure FusedArchive where
  fused_ : Bool
  files_ : List (Str × Str)
deriving DecidableEq, Repr

/-- The assignment `files_[name] = content` of the table. -/
def tableSet (files : List (Str × Str)) (name content : Str) : List (Str × Str) :=
  (name, content) :: files.filter (fun e => e.1 != name)

/-- The slice of the executable image that `FusedArchive::init` hands to the zip
reader, when it gets that far. -/
def zipSlice (exeData : List Byte) : Option (List Byte) :=
  match findZipStartOffset exeData with
  | none => none
  | some archiveOffset =>
    if archiveOffset ≥ exeData.length then none else some (exeData.drop archiveOffset)

/-- The extraction loop of `FusedArchive::init`. -/
def extractEntries (files : List (Str × Str)) : List ZipEntry → List (Str × Str)
  | [] => files
  | e :: rest =>
    if e.isDirectory then extractEntries files rest
    else
      match e.filename, e.content with
      | some name, some content => extractEntries (tableSet files (normalizePath name) content) rest
      | _, _ => extractEntries files rest

/-- Embeds `FusedArchive::init`. `exeData` is what `readWholeFile(exePath)` gives and
`parse` is the zip reader (`mz_zip_reader_init_mem` and the per-entry calls). -/
def FusedArchive.init (parse : List Byte → Option (List ZipEntry)) (exeData : Option (List Byte)) :
    Bool × FusedArchive :=
  match exeData with
  | none => (false, { fused_ := false, files_ := [] })
  | some exeData =>
    match zipSlice exeData with
    | none => (false, { fused_ := false, files_ := [] })
    | some zip =>
      match parse zip with
      | none => (false, { fused_ := false, files_ := [] })
      | some entries =>
        let files := extractEntries [] entries
        if files.isEmpty then (false, { fused_ := false, files_ := files })
        else (true, { fused_ := true, files_ := files })

/-- Embeds `FusedArchive::isFused`. -/
def FusedArchive.isFused (a : FusedArchive) : Bool := a.fused_

/-- Embeds `FusedArchive::readFile`; `none` is the result `false`, which leaves the
output string as it was. -/
def FusedArchive.readFile (a : FusedArchive) (name : Str) : Option Str :=
  if !a.fused_ then none else a.files_.lookup (normalizePath name)

/-- Embeds `FusedArchive::shutdown`. -/
def FusedArchive.shutdown (_a : FusedArchive) : FusedArchive :=
  { fused_ := false, files_ := [] }

/-! ## The script engine, as far as the host observes it

The engine (LuaJIT) is an external collaborator. A compiled chunk is modelled by
what it does to the host: it returns a value, raises an error, or calls a host
function under `pcall` and goes on with the outcome. An unprotected call is a
protected one whose error branch raises the error again. -/

/-- A Lua value, as far as the host distinguishes values; `ref` stands for a
table, function or other object, by identity. -/
inductive LuaValue where
  | nil
  | boolean (b : Bool)
  | number (n : Int)
  | string (s : Str)
  | ref (id : Nat)
deriving DecidableEq, Repr

/-- Embeds `lua_toboolean`. -/
def lua_toboolean : LuaValue → Bool
  | LuaValue.nil => false
  | LuaValue.boolean b => b
  | _ => true

/-- A compiled chunk or function body. A body that returns nothing is
`ret LuaValue.nil`: the host asks for one result and the engine pads with nil. -/
inductive Script where
  | ret (v : LuaValue)
  | raise (err : Str)
  | require (name : Str) (k : Except Str LuaValue → Script)
  | windowQuit (code : Int) (k : Except Str Unit → Script)

/-- The engine services the host relies on: `luaL_loadbuffer` (chunk text and
chunk name to a compiled chunk or a message), the trace that `LuaHost::traceback`
attaches to an error message, and the error the engine raises when calls nest
deeper than it allows. -/
structure Engine where
  compile : Str → Str → Except Str Script
  traceback : Str → Str
  stackOverflow : Str

/-- A value the host pushes as an argument of a callback: `lua_pushnumber`,
`lua_pushinteger`, `lua_pushboolean` or `lua_pushstring`. -/
inductive HostArg where
  | number (x : Rat)
  | integer (n : Int)
  | boolean (b : Bool)
  | string (s : Str)
deriving DecidableEq, Repr

/-- What the engine has done, for the record: chunks compiled and bodies run, by
chunk name, calls of the script's quit callback, and calls of its other
callbacks with their arguments. -/
inductive EngineEvent where
  | compiled (chunkname : Str)
  | executed (chunkname : Str)
  | quitCallback
  | callback (name : Str) (args : List HostArg)
deriving DecidableEq, Repr

/-- The state of the engine that the host reads or writes: the table
`LIME_REQUIRE_CACHE` of the registry as a mapping (a missing table is the empty
mapping; the newest entry of a name is first), the function `lime.quit` if the
script defined one, and the record of what the engine has done, oldest first. -/
structure LuaState where
  requireCache : List (Str × LuaValue)
  limeQuit : Option Script
  log : List EngineEvent

/-- A running session: host, engine state and storage. -/
structure Session (Φ : Type) where
  host : LuaHost
  lua : LuaState
  world : World Φ

/-- How a call into the host ends: it returns, it raises, or the process exits
(`App::shutdown`, which calls `exit`). -/
inductive Outcome (α : Type) where
  | returned (a : α)
  | raised (err : Str)
  | exited (code : Int)
deriving DecidableEq, Repr

/-- The C++ `path::generic_string`: on Windows every backslash becomes `/`. -/
def generic_string (pf : Platform) (s : Str) : Str :=
  match pf with
  | Platform.posix => s
  | Platform.windows => s.map (fun c => if c == '\\' then '/' else c)

/-- The candidate relative path of a module name (`rel` in `l_require`). -/
def modulePath (pf : Platform) (modStr : Str) : Str :=
  if is_absolute pf modStr then modStr
  else
    let hasSlash := modStr.contains '/' || modStr.contains '\\'
    let hasLuaExt := decide (4 ≤ modStr.length) && modStr.drop (modStr.length - 4) == ".lua".toList
    if hasSlash || hasLuaExt then modStr
    else modStr.map (fun ch => if ch == '.' then '/' else ch) ++ ".lua".toList

/-- The archive lookup of `l_require`: the chunk and chunk name after the two
attempts, first under `fusedBaseDir`, then at the archive root. The chunk is
empty when the lookup found nothing. -/
def requireFromArchive (pf : Platform) (arch : FusedArchive) (fusedBaseDir modStr : Str) :
    Str × Str :=
  if arch.isFused && !is_absolute pf modStr then
    let relStr := generic_string pf (modulePath pf modStr)
    let first : Str × Str :=
      if !fusedBaseDir.isEmpty then
        let fullPath := generic_string pf (lexically_normal pf (fusedBaseDir ++ relStr))
        match arch.readFile fullPath with
        | some chunk => (chunk, '@' :: fullPath)
        | none => ([], [])
      else ([], [])
    if first.1.isEmpty then
      let normalizedRel := generic_string pf (lexically_normal pf relStr)
      match arch.readFile normalizedRel with
      | some chunk => (chunk, '@' :: normalizedRel)
      | none => first
    else first
  else ([], [])

section Resolver
variable {Φ : Type}

/-- The test `fs::exists(c, ec) && fs::is_regular_file(c, ec)` of the disk
fallback. -/
def isModuleFile (F : FileSystem Φ) (w : World Φ) (c : Str) : Bool × World Φ :=
  let ex := callExists F w c
  if ex.1.1 then
    let reg := callIsRegularFile F ex.2 c
    (reg.1.1, reg.2)
  else (false, ex.2)

/-- The disk fallback of `l_require`: the first of the two candidates that is a
regular file, or the empty path. -/
def findOnDisk (F : FileSystem Φ) (env : Env) (mainScriptDir rel : Str) (w : World Φ) :
    Str × World Φ :=
  let c1 := if is_absolute env.pf rel then rel else pathAppend env.pf mainScriptDir rel
  let c2 := if is_absolute env.pf rel then rel else pathAppend env.pf env.currentPath rel
  let t1 := isModuleFile F w c1
  if t1.1 then (c1, t1.2)
  else
    let t2 := isModuleFile F t1.2 c2
    if t2.1 then (c2, t2.2) else ([], t2.2)

/-- Runs a compiled body. `req` is `lime.require` and `quit` is
`lime.window.quit`, as the body reaches them. -/
def runScript (req : Session Φ → Str → Outcome LuaValue × Session Φ)
    (quit : Session Φ → Int → Outcome Unit × Session Φ) :
    Script → Session Φ → Outcome LuaValue × Session Φ
  | Script.ret v, s => (Outcome.returned v, s)
  | Script.raise err, s => (Outcome.raised err, s)
  | Script.require name k, s =>
    match req s name with
    | (Outcome.returned v, s1) => runScript req quit (k (Except.ok v)) s1
    | (Outcome.raised err, s1) => runScript req quit (k (Except.error err)) s1
    | (Outcome.exited code, s1) => (Outcome.exited code, s1)
  | Script.windowQuit code k, s =>
    match quit s code with
    | (Outcome.returned _, s1) => runScript req quit (k (Except.ok ())) s1
    | (Outcome.raised err, s1) => runScript req quit (k (Except.error err)) s1
    | (Outcome.exited c, s1) => (Outcome.exited c, s1)

/-- Appends an event to the engine record. -/
def Session.record (s : Session Φ) (e : EngineEvent) : Session Φ :=
  { s with lua := { s.lua with log := s.lua.log ++ [e] } }

/-- The lookup `cache[modStr]` (`lua_getfield`); a missing entry reads as nil. -/
def cacheGet (cache : List (Str × LuaValue)) (modStr : Str) : LuaValue :=
  (cache.lookup modStr).getD LuaValue.nil

/-- The assignment `cache[modStr] = value` (`lua_setfield`). -/
def cacheSet (cache : List (Str × LuaValue)) (modStr : Str) (v : LuaValue) :
    List (Str × LuaValue) :=
  (modStr, v) :: cache

/-- The last part of `l_require`: compile the chunk, run it under `pcall` with
the traceback handler, turn a nil result into `true`, store the result in the
cache under the name the script asked for, and return it. -/
def loadAndExecute (E : Engine) (req : Session Φ → Str → Outcome LuaValue × Session Φ)
    (quit : Session Φ → Int → Outcome Unit × Session Φ)
    (s : Session Φ) (modStr chunk chunkname : Str) : Outcome LuaValue × Session Φ :=
  let s1 := s.record (EngineEvent.compiled chunkname)
  match E.compile chunk chunkname with
  | Except.error err => (Outcome.raised err, s1)
  | Except.ok body =>
    match runScript req quit body (s1.record (EngineEvent.executed chunkname)) with
    | (Outcome.raised err, s2) => (Outcome.raised (E.traceback err), s2)
    | (Outcome.exited code, s2) => (Outcome.exited code, s2)
    | (Outcome.returned r, s2) =>
      let v := if r == LuaValue.nil then LuaValue.boolean true else r
      (Outcome.returned v,
        { s2 with lua := { s2.lua with requireCache := cacheSet s2.lua.requireCache modStr v } })

/-- The part of `l_require` after a cache miss: work out the candidate path,
look in the fused archive, fall back to disk, then compile and run. -/
def resolveAndLoad (E : Engine) (F : FileSystem Φ) (env : Env) (arch : FusedArchive)
    (req : Session Φ → Str → Outcome LuaValue × Session Φ)
    (quit : Session Φ → Int → Outcome Unit × Session Φ)
    (s : Session Φ) (modStr : Str) : Outcome LuaValue × Session Φ :=
  let rel := modulePath env.pf modStr
  let fromArchive := requireFromArchive env.pf arch s.host.fusedBaseDir modStr
  if fromArchive.1.isEmpty then
    let found := findOnDisk F env s.host.mainScriptDir rel s.world
    let s1 := { s with world := found.2 }
    if found.1.isEmpty then
      (Outcome.raised ("lime.require: module not found: ".toList ++ modStr), s1)
    else
      let rd := callReadWholeFile F s1.world found.1
      let s2 := { s1 with world := rd.2 }
      match rd.1 with
      | none => (Outcome.raised ("lime.require: failed to read: ".toList ++ found.1), s2)
      | some chunk => loadAndExecute E req quit s2 modStr chunk ('@' :: found.1)
  else loadAndExecute E req quit s modStr fromArchive.1 fromArchive.2

/-- Embeds `LuaHost::l_require`. `req` and `quit` are `lime.require` and
`lime.window.quit` as the module body reaches them. -/
def l_require (E : Engine) (F : FileSystem Φ) (env : Env) (arch : FusedArchive)
    (req : Session Φ → Str → Outcome LuaValue × Session Φ)
    (quit : Session Φ → Int → Outcome Unit × Session Φ)
    (s : Session Φ) (modStr : Str) : Outcome LuaValue × Session Φ :=
  if cacheGet s.lua.requireCache modStr != LuaValue.nil then
    (Outcome.returned (cacheGet s.lua.requireCache modStr), s)
  else resolveAndLoad E F env arch req quit s modStr

/-- Embeds `LuaHost::callQuit`: runs `lime.quit` if the script defined it; an error in
it leaves as the exception `LuaHost::pcall` throws. -/
def callQuit (E : Engine) (req : Session Φ → Str → Outcome LuaValue × Session Φ)
    (quit : Session Φ → Int → Outcome Unit × Session Φ) (s : Session Φ) :
    Outcome Bool × Session Φ :=
  if s.host.L.isNone then (Outcome.returned false, s)
  else
    match s.lua.limeQuit with
    | none => (Outcome.returned false, s)
    | some body =>
      match runScript req quit body (s.record EngineEvent.quitCallback) with
      | (Outcome.returned v, s1) => (Outcome.returned (lua_toboolean v), s1)
      | (Outcome.raised err, s1) => (Outcome.raised (E.traceback err), s1)
      | (Outcome.exited code, s1) => (Outcome.exited code, s1)

/-- Sets the re-entrancy flag of the host. -/
def Session.setQuitCallbackActive (s : Session Φ) (b : Bool) : Session Φ :=
  { s with host := { s.host with quitCallbackActive := b } }

/-- Embeds `LuaHost::invokeQuitCallback`. -/
def invokeQuitCallback (E : Engine) (req : Session Φ → Str → Outcome LuaValue × Session Φ)
    (quit : Session Φ → Int → Outcome Unit × Session Φ) (s : Session Φ) :
    Outcome Bool × Session Φ :=
  if s.host.L.isNone || s.host.quitCallbackActive then (Outcome.returned false, s)
  else
    match callQuit E req quit (s.setQuitCallbackActive true) with
    | (Outcome.raised err, s1) => (Outcome.raised err, s1.setQuitCallbackActive false)
    | (Outcome.returned abort, s1) => (Outcome.returned abort, s1.setQuitCallbackActive false)
    | (Outcome.exited code, s1) => (Outcome.exited code, s1)

/-- Embeds `LuaHost::l_window_quit`: asks the quit callback; unless it aborts or fails,
`App::shutdown` ends the process. `invoke` is `lua.invokeQuitCallback`. -/
def l_window_quit (invoke : Session Φ → Outcome Bool × Session Φ) (s : Session Φ) (code : Int) :
    Outcome Unit × Session Φ :=
  match invoke s with
  | (Outcome.returned abort, s1) =>
    if abort then (Outcome.returned (), s1) else (Outcome.exited code, s1)
  | (Outcome.raised err, s1) =>
    if !err.isEmpty then
      (Outcome.raised ("Error in lime.quit callback: ".toList ++ err), s1)
    else (Outcome.exited code, s1)
  | (Outcome.exited c, s1) => (Outcome.exited c, s1)

/-- The host functions a script can call. -/
structure HostApi (Φ : Type) where
  require : Session Φ → Str → Outcome LuaValue × Session Φ
  windowQuit : Session Φ → Int → Outcome Unit × Session Φ

/-- The host functions as a script reaches them when the engine still allows
`depth` nested calls; at depth zero a call raises the engine's stack overflow. -/
def hostApi (E : Engine) (F : FileSystem Φ) (env : Env) (arch : FusedArchive) : Nat → HostApi Φ
  | 0 =>
    { require := fun s _ => (Outcome.raised E.stackOverflow, s)
      windowQuit := fun s _ => (Outcome.raised E.stackOverflow, s) }
  | depth + 1 =>
    { require := l_require E F env arch (hostApi E F env arch depth).require
        (hostApi E F env arch depth).windowQuit
      windowQuit := l_window_quit (invokeQuitCallback E (hostApi E F env arch depth).require
        (hostApi E F env arch depth).windowQuit) }

end Resolver

/-! ## Sessions of sandbox calls -/

/-- The state both `loadAppScript` and `loadFusedScript` establish before they
touch the script: profiler cleared, identity tracking reset, quit guard reset. -/
def resetForLoad (h : LuaHost) : LuaHost :=
  { h with
    profilerSections := []
    profilerActiveSection := []
    profilerSectionStart := 0
    identityLocked := false
    filesystemAccessed := false
    quitCallbackActive := false }

/-- The nine sandbox operations. -/
inductive SandboxOp where
  | read
  | write
  | append
  | exists_
  | isFile
  | isDirectory
  | remove
  | mkdir
  | list
deriving DecidableEq, Repr

/-- One call a script makes into `lime.filesystem`. -/
inductive FsAction where
  | setIdentity (rawId : Str)
  | getSaveDir
  | sandbox (op : SandboxOp) (relPath data : Str)
deriving DecidableEq, Repr

/-- How a `lime.filesystem` call ends for the script. -/
inductive FsOutcome where
  | identitySet
  | raised (err : Str)
  | saveDir (dir : Str)
  | result (r : FsReturn)
deriving DecidableEq, Repr

section Sessions
variable {Φ : Type}

/-- Dispatches a sandbox operation to its host function; `data` is used by
`write` and `append` only. -/
def sandboxCall (F : FileSystem Φ) (env : Env) (op : SandboxOp) (h : LuaHost) (w : World Φ)
    (relPath data : Str) : FsReturn × LuaHost × World Φ :=
  match op with
  | SandboxOp.read => l_fs_read F env h w relPath
  | SandboxOp.write => l_fs_write F env h w relPath data
  | SandboxOp.append => l_fs_append F env h w relPath data
  | SandboxOp.exists_ => l_fs_exists F env h w relPath
  | SandboxOp.isFile => l_fs_isFile F env h w relPath
  | SandboxOp.isDirectory => l_fs_isDirectory F env h w relPath
  | SandboxOp.remove => l_fs_remove F env h w relPath
  | SandboxOp.mkdir => l_fs_mkdir F env h w relPath
  | SandboxOp.list => l_fs_list F env h w relPath

/-- Performs one `lime.filesystem` call. -/
def fsStep (F : FileSystem Φ) (env : Env) (h : LuaHost) (w : World Φ) :
    FsAction → FsOutcome × LuaHost × World Φ
  | FsAction.setIdentity rawId =>
    match l_fs_setIdentity env h rawId with
    | (Except.ok _, h1) => (FsOutcome.identitySet, h1, w)
    | (Except.error err, h1) => (FsOutcome.raised err, h1, w)
  | FsAction.getSaveDir =>
    ((FsOutcome.saveDir (l_fs_getSaveDir env h).1), (l_fs_getSaveDir env h).2, w)
  | FsAction.sandbox op relPath data =>
    let r := sandboxCall F env op h w relPath data
    (FsOutcome.result r.1, r.2.1, r.2.2)

/-- Performs a sequence of `lime.filesystem` calls, one after the other, and
collects how each ended. -/
def fsRun (F : FileSystem Φ) (env : Env) (h : LuaHost) (w : World Φ) :
    List FsAction → List FsOutcome × LuaHost × World Φ
  | [] => ([], h, w)
  | a :: rest =>
    let r := fsStep F env h w a
    let t := fsRun F env r.2.1 r.2.2 rest
    (r.1 :: t.1, t.2.1, t.2.2)

end Sessions

/-! ## Predicates used to state the properties -/

/-- An ASCII digit. -/
def isAsciiDigit (c : Char) : Bool := 48 ≤ c.toNat && c.toNat ≤ 57

/-- A character an identity may contain: ASCII letter, digit, `_` or `-`. -/
def isIdentityChar (c : Char) : Bool :=
  isAsciiLetter c || isAsciiDigit c || c == '_' || c == '-'

/-- The segments of a path as the sandbox contract counts them: the pieces
between `/` or backslash characters. -/
def pathSegments : Str → List Str
  | [] => [[]]
  | c :: cs =>
    if c == '/' || c == '\\' then [] :: pathSegments cs
    else
      match pathSegments cs with
      | seg :: rest => (c :: seg) :: rest
      | [] => [[c]]

/-- The paths the sandbox contract calls unsafe, in its own words: absolute, or
starting with `/` or a backslash, or with `:` as second character, or relative
and containing a `..` segment anywhere. -/
def statedUnsafe (pf : Platform) (p : Str) : Bool :=
  is_absolute pf p || p[0]? == some '/' || p[0]? == some '\\' || p[1]? == some ':' ||
    (!is_absolute pf p && (pathSegments p).contains dotDot)

/-- The failure value of a sandbox operation for a path outside the sandbox. -/
def rejection : SandboxOp → FsReturn
  | SandboxOp.read => FsReturn.nilMsg "invalid path (outside sandbox)".toList
  | SandboxOp.list => FsReturn.nilMsg "invalid path (outside sandbox)".toList
  | SandboxOp.write => FsReturn.falseMsg "invalid path (outside sandbox)".toList
  | SandboxOp.append => FsReturn.falseMsg "invalid path (outside sandbox)".toList
  | SandboxOp.remove => FsReturn.falseMsg "invalid path (outside sandbox)".toList
  | SandboxOp.mkdir => FsReturn.falseMsg "invalid path (outside sandbox)".toList
  | SandboxOp.exists_ => FsReturn.bool false
  | SandboxOp.isFile => FsReturn.bool false
  | SandboxOp.isDirectory => FsReturn.bool false

/-! ## Concrete sessions used as examples -/

/-- A POSIX environment. -/
def posixEnv : Env :=
  { pf := Platform.posix, userDataBase := "/home/u/.local/share".toList,
    currentPath := "/games".toList }

/-- A Windows environment. -/
def windowsEnv : Env :=
  { pf := Platform.windows, userDataBase := "C:\\Users\\u\\AppData\\Roaming".toList,
    currentPath := "C:\\games".toList }

/-- A host right after a script in the directory `demo` was loaded. -/
def freshHost (env : Env) : LuaHost :=
  initSaveDir env
    { L := some 1, mainScriptDir := "demo".toList, exeDir := [], quitCallbackActive := false,
      appIdentity := sanitizeIdentity "demo".toList, saveDir := [], identityLocked := false,
      filesystemAccessed := false, profilerSections := [], profilerActiveSection := [],
      profilerSectionStart := 0, fusedBaseDir := [] }

/-- An empty in-memory storage on which nothing has been called. -/
def emptyWorld : World MemFs := { fs := [], calls := [] }

/-- A small container: four bytes of content and directory, then an
end-of-directory record (directory size 1, directory offset 3, no comment). -/
def demoZip : List Byte :=
  [0x11, 0x22, 0x33, 0x44,
   0x50, 0x4B, 0x05, 0x06, 0, 0, 0, 0, 1, 0, 1, 0,
   1, 0, 0, 0, 3, 0, 0, 0, 0, 0]

/-- A toy compiler for the example sessions: it knows the empty chunk and a
handful of chunk texts, and rejects every other text as a syntax error. -/
def demoCompile (chunk chunkname : Str) : Except Str Script :=
  if chunk.isEmpty then Except.ok (Script.ret LuaValue.nil)
  else if chunk == "return 1".toList then Except.ok (Script.ret (LuaValue.number 1))
  else if chunk == "return 2".toList then Except.ok (Script.ret (LuaValue.number 2))
  else if chunk == "x = 1".toList then Except.ok (Script.ret LuaValue.nil)
  else if chunk == "error('boom')".toList then Except.ok (Script.raise "boom".toList)
  else if chunk == "require('b') error('boom')".toList then
    Except.ok (Script.require "b".toList (fun r =>
      match r with
      | Except.ok _ => Script.raise "boom".toList
      | Except.error err => Script.raise err))
  else if chunk == "return require('a')".toList then
    Except.ok (Script.require "a".toList (fun r =>
      match r with
      | Except.ok v => Script.ret v
      | Except.error err => Script.raise err))
  else if chunk == "return require('b')".toList then
    Except.ok (Script.require "b".toList (fun r =>
      match r with
      | Except.ok v => Script.ret v
      | Except.error err => Script.raise err))
  else Except.error (chunkname ++ ": syntax error".toList)

/-- The engine of the example sessions; it attaches no trace to an error. -/
def demoEngine : Engine :=
  { compile := demoCompile, traceback := fun err => err, stackOverflow := "stack overflow".toList }

/-- An archive that is not fused. -/
def noArchive : FusedArchive := { fused_ := false, files_ := [] }

/-- A session on the in-memory file system with the given files on disk. -/
def demoSession (env : Env) (files : MemFs) : Session MemFs :=
  { host := freshHost env
    lua := { requireCache := [], limeQuit := none, log := [] }
    world := { fs := files, calls := [] } }

/-- A session whose script directory holds the module `m`, a body without a
return value, and the module `one`, a body that returns 1. -/
def moduleSession : Session MemFs :=
  demoSession posixEnv
    [("demo/m.lua".toList, some "x = 1".toList), ("demo/one.lua".toList, some "return 1".toList)]

/-- The host functions of the example sessions, eight nested calls deep. -/
def demoApi (env : Env) (arch : FusedArchive) : HostApi MemFs :=
  hostApi demoEngine (memFs env.pf) env arch 8

/-- A session whose script directory holds the module `bad`, whose body raises. -/
def failingSession : Session MemFs :=
  demoSession posixEnv [("demo/bad.lua".toList, some "error('boom')".toList)]

/-- A fused archive whose entry `m.lua` is empty and whose entry `lib/n.lua`
returns 2. -/
def demoArchive : FusedArchive :=
  { fused_ := true, files_ := [("m.lua".toList, []), ("lib/n.lua".toList, "return 2".toList)] }

/-- A session of a fused process: the disk holds `m.lua` and `lib/n.lua` next to
the executable, each returning 1. -/
def fusedSession : Session MemFs :=
  demoSession posixEnv
    [("demo/m.lua".toList, some "return 1".toList),
     ("demo/lib/n.lua".toList, some "return 1".toList)]

/-- Whether a `lime.filesystem` call is one of the nine sandbox operations. -/
def FsAction.isSandbox : FsAction → Bool
  | FsAction.sandbox _ _ _ => true
  | _ => false

/-- A session whose script defined `lime.quit` as the given body. -/
def quitSession (body : Script) : Session MemFs :=
  { host := freshHost posixEnv
    lua := { requireCache := [], limeQuit := some body, log := [] }
    world := emptyWorld }

/-- A quit callback that asks the host to quit again (`lime.window.quit()`), as a
nested close event does, and would abort the quit if that call came back. -/
def nestedQuitBody : Script :=
  Script.windowQuit 0 (fun _ => Script.ret (LuaValue.boolean true))

/-- Whether a list of pieces starts with a directory separator. -/
def startsWithSep : List Tok → Bool
  | Tok.sep :: _ => true
  | _ => false

/-- Whether no two directory separators are adjacent in a list of pieces. -/
def noSepSep : List Tok → Bool
  | Tok.sep :: Tok.sep :: _ => false
  | _ :: rest => noSepSep rest
  | [] => true

/-- Whether every filename among the pieces is non-empty and free of slashes. -/
def properNames (pf : Platform) : List Tok → Bool
  | [] => true
  | Tok.sep :: rest => properNames pf rest
  | Tok.name n :: rest => !n.isEmpty && n.all (fun c => !isSlash pf c) && properNames pf rest

/-! ## Profiler accumulator (`lime.profiler`, `src/LuaHost.cpp`)

Times are exact seconds. Every reading of the clock (`glfwGetTime`) is an
argument of the function that takes it, in the order the readings are taken. -/

/-- The assignment `profilerSections[id] = value`: the entry of `id` is replaced
where it stands, or added when `id` has none. -/
def sectionSet : List (Str × Rat) → Str → Rat → List (Str × Rat)
  | [], id, v => [(id, v)]
  | (k, old) :: rest, id, v =>
    if k == id then (id, v) :: rest else (k, old) :: sectionSet rest id v

/-- The update `profilerSections[id] += elapsed`; `operator[]` starts a missing
entry at zero. -/
def sectionAdd (sections : List (Str × Rat)) (id : Str) (elapsed : Rat) : List (Str × Rat) :=
  sectionSet sections id ((sections.lookup id).getD 0 + elapsed)

/-- Embeds `LuaHost::profilerStopCurrentSection`; `now` is its clock reading. -/
def profilerStopCurrentSection (h : LuaHost) (now : Rat) : LuaHost :=
  if h.profilerActiveSection.isEmpty then h
  else
    let elapsed := now - h.profilerSectionStart
    { h with
      profilerSections := sectionAdd h.profilerSections h.profilerActiveSection elapsed
      profilerActiveSection := []
      profilerSectionStart := 0 }

/-- The result of `luaL_checkstring` on an argument: a string is itself, a number
is its decimal text, anything else raises (`none`). -/
def checkString : LuaValue → Option Str
  | LuaValue.string s => some s
  | LuaValue.number n => some (toString n).toList
  | _ => none

/-- Embeds `LuaHost::l_profiler_start`. An absent or nil identifier ends in
`APP_FATAL`, which shows the error and exits the process with `EXIT_FAILURE`.
`nowStop` is the clock reading taken when the current section is stopped and
`nowStart` the one taken when the new section starts. -/
def l_profiler_start (h : LuaHost) (id : LuaValue) (nowStop nowStart : Rat) :
    Outcome Unit × LuaHost :=
  if id == LuaValue.nil then (Outcome.exited 1, h)
  else
    let h1 := profilerStopCurrentSection h nowStop
    match checkString id with
    | none => (Outcome.raised "bad argument #1 to 'start' (string expected)".toList, h1)
    | some sectionId =>
      if sectionId.isEmpty then (Outcome.returned (), h1)
      else
        let sections :=
          if (h1.profilerSections.lookup sectionId).isNone then
            sectionSet h1.profilerSections sectionId 0
          else h1.profilerSections
        (Outcome.returned (),
          { h1 with
            profilerSections := sections
            profilerActiveSection := sectionId
            profilerSectionStart := nowStart })

/-- Embeds `LuaHost::l_profiler_stop`. -/
def l_profiler_stop (h : LuaHost) (now : Rat) : LuaHost :=
  profilerStopCurrentSection h now

/-- Embeds `LuaHost::l_profiler_list`: the section ids, in the order of the map. -/
def l_profiler_list (h : LuaHost) : List Str :=
  h.profilerSections.map (fun pair => pair.1)

/-- Embeds `LuaHost::l_profiler_get`: the number returned and the host afterwards;
`now` is the clock reading taken if the section is the active one. -/
def l_profiler_get (h : LuaHost) (sectionId : Str) (now : Rat) : Rat × LuaHost :=
  match h.profilerSections.lookup sectionId with
  | none => (0, h)
  | some accumulated =>
    if h.profilerActiveSection == sectionId then
      (accumulated + (now - h.profilerSectionStart), h)
    else (accumulated, h)

/-- Embeds `LuaHost::l_profiler_reset`. -/
def l_profiler_reset (h : LuaHost) (now : Rat) : LuaHost :=
  let h1 := { h with profilerSections := h.profilerSections.map (fun pair => (pair.1, (0 : Rat))) }
  if !h1.profilerActiveSection.isEmpty then { h1 with profilerSectionStart := now } else h1

/-- Embeds `LuaHost::l_profiler_clear`. -/
def l_profiler_clear (h : LuaHost) : LuaHost :=
  { h with profilerSections := [], profilerActiveSection := [], profilerSectionStart := 0 }

/-- One call of a profiling script: `start` with a string identifier, or `stop`,
with the clock value at the call. -/
inductive ProfilerCall where
  | start (id : Str) (now : Rat)
  | stop (now : Rat)
deriving DecidableEq, Repr

/-- Performs one profiler call; the clock does not advance within a call. -/
def profilerStep (h : LuaHost) : ProfilerCall → LuaHost
  | ProfilerCall.start id now => (l_profiler_start h (LuaValue.string id) now now).2
  | ProfilerCall.stop now => l_profiler_stop h now

/-- Performs a sequence of profiler calls. -/
def profilerRun (h : LuaHost) (calls : List ProfilerCall) : LuaHost :=
  calls.foldl profilerStep h

/-- The sum of all accumulators. -/
def sectionsTotal (sections : List (Str × Rat)) : Rat :=
  (sections.map (fun pair => pair.2)).sum

/-- The total time during which some section was active over a sequence of
calls, counted up to the last call: `since` is the time from which a section has
been active, if one is. A `start` with the empty identifier only stops. -/
def activeTime : Option Rat → List ProfilerCall → Rat
  | _, [] => 0
  | since, ProfilerCall.start id now :: rest =>
    (match since with
      | some s => now - s
      | none => 0) + activeTime (if id.isEmpty then none else some now) rest
  | since, ProfilerCall.stop now :: rest =>
    (match since with
      | some s => now - s
      | none => 0) + activeTime none rest

/-- The profiler states the calls can reach: the empty identifier is no section,
and the active identifier, if there is one, is a section. -/
def profilerInv (h : LuaHost) : Bool :=
  (h.profilerSections.lookup []).isNone &&
  (h.profilerActiveSection.isEmpty || (h.profilerSections.lookup h.profilerActiveSection).isSome)

/-- A host in which section `a` holds 2 seconds and has been active again since
time 1. -/
def profilingHost : LuaHost :=
  { freshHost posixEnv with
    profilerSections := [("a".toList, 2)]
    profilerActiveSection := "a".toList
    profilerSectionStart := 1 }

/-- The time from which a section has been active in a host, if one is. -/
def profilerSince (h : LuaHost) : Option Rat :=
  if h.profilerActiveSection.isEmpty then none else some h.profilerSectionStart

/-- A host whose profiler is empty, as after a script load. -/
def idleHost : LuaHost := resetForLoad (freshHost posixEnv)

/-- The files of a two-module cycle: `a` returns what `b` returns and `b`
returns what `a` returns. -/
def cyclicFiles : MemFs :=
  [("demo/a.lua".toList, some "return require('b')".toList),
   ("demo/b.lua".toList, some "return require('a')".toList)]

/-- A session whose script directory holds the two-module cycle. -/
def cyclicSession : Session MemFs := demoSession posixEnv cyclicFiles

/-! ## Script loading (`src/LuaHost.cpp`) -/

/-- The C++ `path::filename`: what follows the last separator after the
root-name. -/
def filename (pf : Platform) (s : Str) : Str :=
  ((s.drop (rootNameEnd pf s)).reverse.takeWhile (fun c => !isSlash pf c)).reverse

/-- The part of `loadAppScript` before the script file is read: the resets, the
script directory `fs::absolute(path).parent_path()`, the default identity from
that directory's name, and the save directory. `absolute` is `fs::absolute`. -/
def loadAppScriptBegin (env : Env) (absolute : Str → Str) (h : LuaHost) (path : Str) : LuaHost :=
  let h1 := resetForLoad h
  let h2 := { h1 with mainScriptDir := parent_path env.pf (absolute path) }
  initSaveDir env { h2 with appIdentity := sanitizeIdentity (filename env.pf h2.mainScriptDir) }

/-- The base directory inside the archive for relative requires: the archive path
of the main script with backslashes turned into `/`, up to and including its
last `/`; empty when it has none. -/
def archiveBaseDir (archivePath : Str) : Str :=
  ((archivePath.map (fun c => if c == '\\' then '/' else c)).reverse.dropWhile
    (fun c => c != '/')).reverse

/-- The part of `loadFusedScript` before the script is read from the archive:
the resets, the executable's directory as script directory, the archive base
directory, the default identity from the executable directory's name, and the
save directory. -/
def loadFusedScriptBegin (env : Env) (h : LuaHost) (archivePath : Str) : LuaHost :=
  let h1 := resetForLoad h
  let h2 := { h1 with mainScriptDir := h1.exeDir }
  let h3 := { h2 with fusedBaseDir := archiveBaseDir archivePath }
  initSaveDir env { h3 with appIdentity := sanitizeIdentity (filename env.pf h3.mainScriptDir) }

section Loading
variable {Φ : Type}

/-- The last part of both loaders: `luaL_loadbuffer` on the chunk, then
`LuaHost::pcall(0, 0)`; a compile error and an error in the body leave as the
exception the loader throws. -/
def runMainChunk (E : Engine) (req : Session Φ → Str → Outcome LuaValue × Session Φ)
    (quit : Session Φ → Int → Outcome Unit × Session Φ)
    (s : Session Φ) (chunk chunkname : Str) : Outcome Unit × Session Φ :=
  let s1 := s.record (EngineEvent.compiled chunkname)
  match E.compile chunk chunkname with
  | Except.error err => (Outcome.raised err, s1)
  | Except.ok body =>
    match runScript req quit body (s1.record (EngineEvent.executed chunkname)) with
    | (Outcome.returned _, s2) => (Outcome.returned (), s2)
    | (Outcome.raised err, s2) => (Outcome.raised (E.traceback err), s2)
    | (Outcome.exited code, s2) => (Outcome.exited code, s2)

/-- Embeds `LuaHost::loadAppScript`. -/
def loadAppScript (E : Engine) (F : FileSystem Φ) (env : Env) (absolute : Str → Str)
    (req : Session Φ → Str → Outcome LuaValue × Session Φ)
    (quit : Session Φ → Int → Outcome Unit × Session Φ)
    (s : Session Φ) (path : Str) : Outcome Unit × Session Φ :=
  if s.host.L.isNone then (Outcome.raised "LuaHost not initialized".toList, s)
  else
    let s1 := { s with host := loadAppScriptBegin env absolute s.host path }
    let rd := callReadWholeFile F s1.world path
    let s2 := { s1 with world := rd.2 }
    match rd.1 with
    | none => (Outcome.raised ("Failed to open main script: ".toList ++ path), s2)
    | some chunk => runMainChunk E req quit s2 chunk ('@' :: path)

/-- Embeds `LuaHost::loadFusedScript`. -/
def loadFusedScript (E : Engine) (env : Env) (arch : FusedArchive)
    (req : Session Φ → Str → Outcome LuaValue × Session Φ)
    (quit : Session Φ → Int → Outcome Unit × Session Φ)
    (s : Session Φ) (archivePath : Str) : Outcome Unit × Session Φ :=
  if s.host.L.isNone then (Outcome.raised "LuaHost not initialized".toList, s)
  else
    let s1 := { s with host := loadFusedScriptBegin env s.host archivePath }
    match arch.readFile archivePath with
    | none => (Outcome.raised ("Failed to read fused script: ".toList ++ archivePath), s1)
    | some chunk => runMainChunk E req quit s1 chunk ('@' :: archivePath)

end Loading

/-- A session that has already required the module `m` (value 1) and whose
script directory holds the main script `main.lua`. -/
def reloadSession : Session MemFs :=
  { host := freshHost posixEnv
    lua := { requireCache := [("m".toList, LuaValue.number 1)], limeQuit := none, log := [] }
    world := { fs := [("demo/main.lua".toList, some "x = 1".toList)], calls := [] } }

/-- The function `fs::absolute` of the example sessions: relative paths are taken
from the working directory. -/
def posixAbsolute (p : Str) : Str :=
  if is_absolute Platform.posix p then p else pathAppend Platform.posix posixEnv.currentPath p

/-- Every entry of the first cache is an entry of the second, with the same
value. -/
def cacheKept (c1 c2 : List (Str × LuaValue)) : Prop :=
  ∀ n, cacheGet c1 n ≠ LuaValue.nil → cacheGet c2 n = cacheGet c1 n

/-! ## Fused archive: the table across calls, and example containers -/

/-- Embeds `FusedArchive::init` as a step on the static state `a` of the class:
the statements `fused_ = false; files_.clear();` come first, the rest works on
what they leave. -/
def FusedArchive.initFrom (a : FusedArchive) (parse : List Byte → Option (List ZipEntry))
    (exeData : Option (List Byte)) : Bool × FusedArchive :=
  let a := { a with fused_ := false }
  let a := { a with files_ := [] }
  match exeData with
  | none => (false, a)
  | some exeData =>
    match zipSlice exeData with
    | none => (false, a)
    | some zip =>
      match parse zip with
      | none => (false, a)
      | some entries =>
        let a := { a with files_ := extractEntries a.files_ entries }
        if a.files_.isEmpty then (false, a)
        else (true, { a with fused_ := true })

/-- A container with two file entries whose names differ only by a leading
`./`. -/
def collidingEntries : List ZipEntry :=
  [{ isDirectory := false, filename := some "a.lua".toList, content := some "return 1".toList },
   { isDirectory := false, filename := some "./a.lua".toList, content := some "return 2".toList }]

/-- A zip reader that reports the entries of `collidingEntries` for every
slice. -/
def collidingParse (_zip : List Byte) : Option (List ZipEntry) := some collidingEntries

/-- A container with a directory entry, a file entry that cannot be extracted,
and one file entry in a subdirectory written with a backslash. -/
def mixedEntries : List ZipEntry :=
  [{ isDirectory := true, filename := some "lib/".toList, content := none },
   { isDirectory := false, filename := some "broken.lua".toList, content := none },
   { isDirectory := false, filename := some ".\\lib\\n.lua".toList, content := some "return 2".toList }]

/-- A zip reader that reports the entries of `mixedEntries` for every slice. -/
def mixedParse (_zip : List Byte) : Option (List ZipEntry) := some mixedEntries

/-- Storage in which the save directory of `freshHost posixEnv` holds the
directory `d` with the file `d/f` in it. -/
def nonEmptyDirWorld : World MemFs :=
  { fs := [("/home/u/.local/share/Lime2D/demo".toList, none),
           ("/home/u/.local/share/Lime2D/demo/d".toList, none),
           ("/home/u/.local/share/Lime2D/demo/d/f".toList, some "x".toList)]
    calls := [] }

/-! ## Callback dispatch (`src/LuaHost.cpp`)

The dispatchers work on the engine's stack. The stack is a list, bottom first,
so that the Lua index `k` is position `k - 1`. The global `lime` is read as a
plain table: no metatable is involved in `lua_getglobal` or `lua_getfield`. -/

/-- What `lua_getfield(L, -1, name)` finds in the table `lime`: a function, with
its body as a function of the arguments it is called with, or another value
(nil when the field is missing). -/
inductive LimeField where
  | notFunction (v : LuaValue)
  | function (body : List HostArg → Script)

/-- What `lua_getglobal(L, "lime")` finds: a table, as the mapping from field
names to their values, or a value that is not a table. -/
inductive LimeGlobal where
  | notTable (v : LuaValue)
  | table (field : Str → LimeField)

/-- A value on the engine's stack: a plain value, an argument pushed by the host,
the global `lime`, a field read from it, or the C function
`LuaHost::traceback`. -/
inductive Slot where
  | value (v : LuaValue)
  | arg (a : HostArg)
  | global (g : LimeGlobal)
  | field (f : LimeField)
  | traceback

/-- The engine as the dispatchers see it: the session, the value of the global
`lime`, and the stack. -/
structure Dispatch (Φ : Type) where
  session : Session Φ
  lime : LimeGlobal
  stack : List Slot

/-- The position in the list of the stack element at Lua index `idx` (positive:
from the bottom, starting at 1; negative: from the top, starting at -1). -/
def stackPos (st : List Slot) (idx : Int) : Nat :=
  if idx > 0 then idx.toNat - 1 else st.length - (-idx).toNat

/-- Embeds `lua_gettop`. -/
def lua_gettop (st : List Slot) : Nat := st.length

/-- Embeds `lua_pop(L, n)`. -/
def lua_pop (st : List Slot) (n : Nat) : List Slot := st.take (st.length - n)

/-- Embeds `lua_remove(L, idx)`. -/
def lua_remove (st : List Slot) (idx : Int) : List Slot := st.eraseIdx (stackPos st idx)

/-- Embeds `lua_insert(L, idx)`: moves the top element to index `idx`, shifting the
elements above it up. -/
def lua_insert (st : List Slot) (idx : Int) : List Slot :=
  match st.getLast? with
  | none => st
  | some top => (st.dropLast.take (stackPos st idx)) ++ top :: (st.dropLast.drop (stackPos st idx))

/-- Embeds `lua_istable(L, idx)`. -/
def lua_istable (st : List Slot) (idx : Int) : Bool :=
  match st.get? (stackPos st idx) with
  | some (Slot.global (LimeGlobal.table _)) => true
  | _ => false

/-- Embeds `lua_isfunction(L, idx)`. -/
def lua_isfunction (st : List Slot) (idx : Int) : Bool :=
  match st.get? (stackPos st idx) with
  | some (Slot.field (LimeField.function _)) => true
  | some Slot.traceback => true
  | _ => false

/-- Embeds `lua_getfield(L, idx, name)` on the table `lime`: pushes the field. -/
def lua_getfield (st : List Slot) (idx : Int) (name : Str) : List Slot :=
  match st.get? (stackPos st idx) with
  | some (Slot.global (LimeGlobal.table field)) => st ++ [Slot.field (field name)]
  | _ => st ++ [Slot.value LuaValue.nil]

/-- The truth value `lua_toboolean(L, idx)` of a stack element. -/
def Slot.toBoolean : Slot → Bool
  | Slot.value v => lua_toboolean v
  | Slot.arg (HostArg.boolean b) => b
  | Slot.global (LimeGlobal.notTable v) => lua_toboolean v
  | Slot.field (LimeField.notFunction v) => lua_toboolean v
  | _ => true

/-- The string `lua_tostring(L, idx)` of a stack element, `none` for `NULL`. -/
def Slot.toStr : Slot → Option Str
  | Slot.value (LuaValue.string s) => some s
  | Slot.value (LuaValue.number n) => some (toString n).toList
  | Slot.arg (HostArg.string s) => some s
  | _ => none

/-- The argument a stack element is when the engine hands it to a function. -/
def Slot.toArg : Slot → Option HostArg
  | Slot.arg a => some a
  | _ => none

section Dispatchers
variable {Φ : Type}

/-- Appends an event to the engine record. -/
def Dispatch.record (d : Dispatch Φ) (e : EngineEvent) : Dispatch Φ :=
  { d with session := d.session.record e }

/-- Embeds `LuaHost::pushLimeCallback`. -/
def pushLimeCallback (d : Dispatch Φ) (name : Str) : Bool × Dispatch Φ :=
  let st := d.stack ++ [Slot.global d.lime]
  if !lua_istable st (-1) then (false, { d with stack := lua_pop st 1 })
  else
    let st := lua_getfield st (-1) name
    let st := lua_remove st (-2)
    if !lua_isfunction st (-1) then (false, { d with stack := lua_pop st 1 })
    else (true, { d with stack := st })

/-- The results a call leaves for `nrets` requested results when the body
returned `v`: none, or `v` padded with nil. -/
def callResults (nrets : Nat) (v : LuaValue) : List Slot :=
  match nrets with
  | 0 => []
  | n + 1 => Slot.value v :: List.replicate n (Slot.value LuaValue.nil)

/-- Embeds `lua_pcall(L, nargs, nrets, errfunc)`: calls the function below the
`nargs` arguments and replaces function and arguments by the results; on an
error it leaves what the handler at `errfunc` makes of the message, and the
status is `false`. Calling a value that is not a function is such an error. -/
def lua_pcall (E : Engine) (req : Session Φ → Str → Outcome LuaValue × Session Φ)
    (quit : Session Φ → Int → Outcome Unit × Session Φ)
    (d : Dispatch Φ) (nargs nrets : Nat) (errfunc : Int) : Outcome Bool × Dispatch Φ :=
  let base := d.stack.take (d.stack.length - nargs - 1)
  let args := (d.stack.drop (d.stack.length - nargs)).filterMap Slot.toArg
  let handler : Str → Str :=
    match d.stack.get? (stackPos d.stack errfunc) with
    | some Slot.traceback => E.traceback
    | _ => fun msg => msg
  match d.stack.get? (d.stack.length - nargs - 1) with
  | some (Slot.field (LimeField.function body)) =>
    match runScript req quit (body args) d.session with
    | (Outcome.returned v, s1) =>
      (Outcome.returned true, { d with session := s1, stack := base ++ callResults nrets v })
    | (Outcome.raised err, s1) =>
      (Outcome.returned false,
        { d with session := s1, stack := base ++ [Slot.value (LuaValue.string (handler err))] })
    | (Outcome.exited code, s1) => (Outcome.exited code, { d with session := s1 })
  | _ =>
    (Outcome.returned false,
      { d with stack := base ++
          [Slot.value (LuaValue.string (handler "attempt to call a non-function value".toList))] })

/-- Embeds `LuaHost::pcall(nargs, nrets)`; the exception it throws is
`Outcome.raised`. -/
def pcall (E : Engine) (req : Session Φ → Str → Outcome LuaValue × Session Φ)
    (quit : Session Φ → Int → Outcome Unit × Session Φ)
    (d : Dispatch Φ) (nargs nrets : Nat) : Outcome Unit × Dispatch Φ :=
  let funcIndex : Int := (lua_gettop d.stack : Int) - nargs
  let st := d.stack ++ [Slot.traceback]
  let st := lua_insert st funcIndex
  let errFuncIndex := funcIndex
  match lua_pcall E req quit { d with stack := st } nargs nrets errFuncIndex with
  | (Outcome.exited code, d1) => (Outcome.exited code, d1)
  | (Outcome.raised err, d1) => (Outcome.raised err, d1)
  | (Outcome.returned status, d1) =>
    let st := lua_remove d1.stack errFuncIndex
    if !status then
      let err := match st.getLast? with
        | some top => (top.toStr).getD "Lua error (non-string)".toList
        | none => "Lua error (non-string)".toList
      (Outcome.raised err, { d1 with stack := lua_pop st 1 })
    else (Outcome.returned (), { d1 with stack := st })

/-- The end of the dispatchers that ask for one result:
`lua_toboolean(L, -1) != 0` and `lua_pop(L, 1)`. -/
def takeHandled (d : Dispatch Φ) : Bool × Dispatch Φ :=
  (match d.stack.getLast? with
    | some top => top.toBoolean
    | none => false,
   { d with stack := lua_pop d.stack 1 })

/-- A dispatcher from its call on: `pcall(nargs, 1)`, then the result as a
boolean. -/
def pcallHandled (E : Engine) (req : Session Φ → Str → Outcome LuaValue × Session Φ)
    (quit : Session Φ → Int → Outcome Unit × Session Φ)
    (d : Dispatch Φ) (nargs : Nat) : Outcome Bool × Dispatch Φ :=
  match pcall E req quit d nargs 1 with
  | (Outcome.returned _, d1) => (Outcome.returned (takeHandled d1).1, (takeHandled d1).2)
  | (Outcome.raised err, d1) => (Outcome.raised err, d1)
  | (Outcome.exited code, d1) => (Outcome.exited code, d1)

/-- Pushes the arguments of a callback, in order. -/
def pushArgs (d : Dispatch Φ) (args : List HostArg) : Dispatch Φ :=
  { d with stack := d.stack ++ args.map Slot.arg }

/-- Embeds `LuaHost::callOnSetActive`. -/
def callOnSetActive (E : Engine) (req : Session Φ → Str → Outcome LuaValue × Session Φ)
    (quit : Session Φ → Int → Outcome Unit × Session Φ)
    (d : Dispatch Φ) (initial : Bool) : Outcome Unit × Dispatch Φ :=
  if !initial then (Outcome.returned (), d)
  else
    match pushLimeCallback d "init".toList with
    | (false, d1) => (Outcome.returned (), d1)
    | (true, d1) => pcall E req quit (d1.record (EngineEvent.callback "init".toList [])) 0 0

/-- Embeds `LuaHost::callUpdate`; `dt` is the `float` converted to `lua_Number`. -/
def callUpdate (E : Engine) (req : Session Φ → Str → Outcome LuaValue × Session Φ)
    (quit : Session Φ → Int → Outcome Unit × Session Φ)
    (d : Dispatch Φ) (dt : Rat) : Outcome Unit × Dispatch Φ :=
  match pushLimeCallback d "update".toList with
  | (false, d1) => (Outcome.returned (), d1)
  | (true, d1) =>
    pcall E req quit
      ((pushArgs d1 [HostArg.number dt]).record
        (EngineEvent.callback "update".toList [HostArg.number dt])) 1 0

/-- Embeds `LuaHost::callDraw`. -/
def callDraw (E : Engine) (req : Session Φ → Str → Outcome LuaValue × Session Φ)
    (quit : Session Φ → Int → Outcome Unit × Session Φ)
    (d : Dispatch Φ) : Outcome Unit × Dispatch Φ :=
  match pushLimeCallback d "draw".toList with
  | (false, d1) => (Outcome.returned (), d1)
  | (true, d1) => pcall E req quit (d1.record (EngineEvent.callback "draw".toList [])) 0 0

/-- Embeds `LuaHost::callKeyPressed`. -/
def callKeyPressed (E : Engine) (req : Session Φ → Str → Outcome LuaValue × Session Φ)
    (quit : Session Φ → Int → Outcome Unit × Session Φ)
    (d : Dispatch Φ) (key scancode : Int) (isrepeat : Bool) : Outcome Bool × Dispatch Φ :=
  match pushLimeCallback d "keypressed".toList with
  | (false, d1) => (Outcome.returned false, d1)
  | (true, d1) =>
    pcallHandled E req quit
      ((pushArgs d1 [HostArg.integer key, HostArg.integer scancode, HostArg.boolean isrepeat]).record
        (EngineEvent.callback "keypressed".toList
          [HostArg.integer key, HostArg.integer scancode, HostArg.boolean isrepeat])) 3

/-- Embeds `LuaHost::callKeyReleased`. -/
def callKeyReleased (E : Engine) (req : Session Φ → Str → Outcome LuaValue × Session Φ)
    (quit : Session Φ → Int → Outcome Unit × Session Φ)
    (d : Dispatch Φ) (key scancode : Int) : Outcome Bool × Dispatch Φ :=
  match pushLimeCallback d "keyreleased".toList with
  | (false, d1) => (Outcome.returned false, d1)
  | (true, d1) =>
    pcallHandled E req quit
      ((pushArgs d1 [HostArg.integer key, HostArg.integer scancode]).record
        (EngineEvent.callback "keyreleased".toList
          [HostArg.integer key, HostArg.integer scancode])) 2

end Dispatchers

/-! ## Text input and quit dispatch; screen activation -/

/-- The conversion `(char)x` of an unsigned value, as the byte stored. -/
def toCharByte (x : Nat) : Nat := x % 256

/-- Embeds `codepointToUtf8`: the bytes written to `out[0]`, `out[1]`, ... in
order, the terminating zero included. -/
def codepointToUtf8 (c : Nat) : List Nat :=
  if c < 0x80 then [toCharByte c, 0]
  else if c < 0x800 then
    [toCharByte (0xC0 ||| (c >>> 6)), toCharByte (0x80 ||| (c &&& 0x3F)), 0]
  else if c < 0x10000 then
    [toCharByte (0xE0 ||| (c >>> 12)), toCharByte (0x80 ||| ((c >>> 6) &&& 0x3F)),
     toCharByte (0x80 ||| (c &&& 0x3F)), 0]
  else
    [toCharByte (0xF0 ||| (c >>> 18)), toCharByte (0x80 ||| ((c >>> 12) &&& 0x3F)),
     toCharByte (0x80 ||| ((c >>> 6) &&& 0x3F)), toCharByte (0x80 ||| (c &&& 0x3F)), 0]

/-- The buffer `char utf8[5] = { 0 }` after `codepointToUtf8(c, utf8)`. -/
def utf8Buffer (c : Nat) : List Nat :=
  codepointToUtf8 c ++ (List.replicate 5 0).drop (codepointToUtf8 c).length

/-- The C string that starts a buffer: its bytes up to the first zero. -/
def cString (buf : List Nat) : List Nat := buf.takeWhile (fun b => b != 0)

/-- The bytes of a C string as the characters of a Lua string. -/
def bytesToStr (bytes : List Nat) : Str := bytes.map Char.ofNat

section TextAndQuit
variable {Φ : Type}

/-- Embeds `LuaHost::callTextInput`. -/
def callTextInput (E : Engine) (req : Session Φ → Str → Outcome LuaValue × Session Φ)
    (quit : Session Φ → Int → Outcome Unit × Session Φ)
    (d : Dispatch Φ) (c : Nat) : Outcome Bool × Dispatch Φ :=
  let utf8 := utf8Buffer c
  match pushLimeCallback d "textinput".toList with
  | (false, d1) => (Outcome.returned false, d1)
  | (true, d1) =>
    pcallHandled E req quit
      ((pushArgs d1 [HostArg.string (bytesToStr (cString utf8))]).record
        (EngineEvent.callback "textinput".toList [HostArg.string (bytesToStr (cString utf8))])) 1

/-- Embeds `LuaHost::callQuit` on the engine's stack. -/
def Dispatch.callQuit (E : Engine) (req : Session Φ → Str → Outcome LuaValue × Session Φ)
    (quit : Session Φ → Int → Outcome Unit × Session Φ)
    (d : Dispatch Φ) : Outcome Bool × Dispatch Φ :=
  if d.session.host.L.isNone then (Outcome.returned false, d)
  else
    match pushLimeCallback d "quit".toList with
    | (false, d1) => (Outcome.returned false, d1)
    | (true, d1) => pcallHandled E req quit (d1.record EngineEvent.quitCallback) 0

end TextAndQuit

/-- The function `lime.quit` of the global `lime`, if the script defined one. -/
def LimeGlobal.quit : LimeGlobal → Option Script
  | LimeGlobal.table field =>
    match field "quit".toList with
    | LimeField.function body => some (body [])
    | LimeField.notFunction _ => none
  | LimeGlobal.notTable _ => none

/-- Whether the global `lime` is a table whose field `name` is a function. -/
def LimeGlobal.hasCallback : LimeGlobal → Str → Bool
  | LimeGlobal.table field, name =>
    match field name with
    | LimeField.function _ => true
    | LimeField.notFunction _ => false
  | LimeGlobal.notTable _, _ => false

/-- The fields of `class Screen` that activation reads or writes. -/
structure Screen where
  redraw : Bool
  set_active_count : Int
deriving DecidableEq, Repr

/-- The value of an `int` after an arithmetic step, with two's-complement
wrap-around at 32 bits. -/
def wrapInt32 (x : Int) : Int := (x + 2 ^ 31) % 2 ^ 32 - 2 ^ 31

section Activation
variable {Φ : Type}

/-- Embeds `ScreenLua::onSetActive`. -/
def ScreenLua.onSetActive (E : Engine) (req : Session Φ → Str → Outcome LuaValue × Session Φ)
    (quit : Session Φ → Int → Outcome Unit × Session Φ)
    (d : Dispatch Φ) (initial : Bool) : Outcome Unit × Dispatch Φ :=
  callOnSetActive E req quit d initial

/-- Embeds `Screen::setActive` on the `ScreenLua` instance: the screen becomes the
current one and is marked for redraw, the counter is incremented, and
`onSetActive` is told whether the counter is now 1. -/
def Screen.setActive (E : Engine) (req : Session Φ → Str → Outcome LuaValue × Session Φ)
    (quit : Session Φ → Int → Outcome Unit × Session Φ)
    (scr : Screen) (d : Dispatch Φ) : Outcome Unit × Screen × Dispatch Φ :=
  let scr := { scr with redraw := true }
  let scr := { scr with set_active_count := wrapInt32 (scr.set_active_count + 1) }
  let r := ScreenLua.onSetActive E req quit d (scr.set_active_count == 1)
  (r.1, scr, r.2)

/-- A sequence of `n` activations of the script screen, one after the other. -/
def activations (E : Engine) (req : Session Φ → Str → Outcome LuaValue × Session Φ)
    (quit : Session Φ → Int → Outcome Unit × Session Φ) :
    Nat → Screen × Dispatch Φ → Screen × Dispatch Φ
  | 0, st => st
  | n + 1, st => activations E req quit n (Screen.setActive E req quit st.1 st.2).2

end Activation

/-- The script screen as constructed: `redraw = false`, `set_active_count = 0`. -/
def newScreen : Screen := { redraw := false, set_active_count := 0 }

/-- An engine in which the script never defined the global `lime`: it is nil. -/
def bareDispatch : Dispatch MemFs :=
  { session := demoSession posixEnv [], lime := LimeGlobal.notTable LuaValue.nil, stack := [] }

/-- A table `lime` with three callbacks: `keypressed` returns true, `update`
returns nothing, `init` raises; every other field is missing. -/
def demoLime : LimeGlobal :=
  LimeGlobal.table (fun name =>
    if name == "keypressed".toList then
      LimeField.function (fun _ => Script.ret (LuaValue.boolean true))
    else if name == "update".toList then LimeField.function (fun _ => Script.ret LuaValue.nil)
    else if name == "init".toList then LimeField.function (fun _ => Script.raise "boom".toList)
    else LimeField.notFunction LuaValue.nil)

/-- An engine whose script defined the callbacks of `demoLime`, with one value
on the stack. -/
def demoDispatch : Dispatch MemFs :=
  { session := demoSession posixEnv [], lime := demoLime,
    stack := [Slot.value (LuaValue.number 7)] }

/-! ## Offset recovery: the reference the scan is compared with -/

/-- The little-endian number written in the `n` bytes of `D` from `pos` on. -/
def leField (D : List Byte) (pos : Nat) : Nat → Nat
  | 0 => 0
  | n + 1 => byteAt D pos + 256 * leField D (pos + 1) n

/-- The comment length field of a record at `i`, read at `i + 20`. -/
def commentLenAt (D : List Byte) (i : Nat) : Nat := leField D (i + 20) 2

/-- The central directory size field of a record at `i`, read at `i + 12`. -/
def cdSizeAt (D : List Byte) (i : Nat) : Nat := leField D (i + 12) 4

/-- The central directory offset field of a record at `i`, read at `i + 16`. -/
def cdOffsetAt (D : List Byte) (i : Nat) : Nat := leField D (i + 16) 4

/-- A candidate record: `D[i..i+3]` is `50 4B 05 06` and the comment length
places the end of the record at the end of the buffer. -/
def eocdCandidate (D : List Byte) (i : Nat) : Bool :=
  ((D.drop i).take 4).map (fun b => b.val) == [0x50, 0x4B, 0x05, 0x06] &&
    i + 22 + commentLenAt D i == D.length

/-- The candidates of the window `max(0, |D| - 65557) <= i <= |D| - 22`, in
increasing order. -/
def eocdCandidates (D : List Byte) : List Nat :=
  (List.range (D.length - 22 + 1)).filter
    (fun i => decide (max 0 (D.length - 65557) ≤ i) && eocdCandidate D i)

/-- The reference for `findZipStartOffset`, written after the specification:
`none` is NotFound. -/
def findZipStartOffsetRef (D : List Byte) : Option Nat :=
  if D.length < 22 then none
  else
    match (eocdCandidates D).getLast? with
    | none => none
    | some i =>
      if cdSizeAt D i > i ∨ cdOffsetAt D i > i - cdSizeAt D i then none
      else some (i - cdSizeAt D i - cdOffsetAt D i)

/-- A container with a commented end-of-directory record: four bytes of content
and directory, the record (directory size 1, directory offset 3, comment
length 22), and as comment 22 bytes that themselves read as a record without
comment (directory size 0, directory offset 0). -/
def commentedZip : List Byte :=
  [0x11, 0x22, 0x33, 0x44,
   0x50, 0x4B, 0x05, 0x06, 0, 0, 0, 0, 1, 0, 1, 0,
   1, 0, 0, 0, 3, 0, 0, 0, 22, 0,
   0x50, 0x4B, 0x05, 0x06, 0, 0, 0, 0, 0, 0, 0, 0,
   0, 0, 0, 0, 0, 0, 0, 0, 0, 0]

/-- A container with a commented end-of-directory record whose comment is the
text `hi`. -/
def plainCommentZip : List Byte :=
  [0x11, 0x22, 0x33, 0x44,
   0x50, 0x4B, 0x05, 0x06, 0, 0, 0, 0, 1, 0, 1, 0,
   1, 0, 0, 0, 3, 0, 0, 0, 2, 0,
   0x68, 0x69]

/-- Three bytes standing for the executable in front of a container. -/
def hostPrefix : List Byte := [0x4D, 0x5A, 0x90]

/-! ## Offset recovery as the machine runs it

The same scan with every read `buf[k]` checked against the buffer, the index a
64-bit `size_t` whose decrement wraps around, and the loop run on fuel. -/

/-- What can go wrong in the scan on a machine: a read outside the buffer, or a
loop that has not ended when the fuel is used up. -/
inductive ScanFault where
  | outOfBounds (index : Nat)
  | outOfFuel
deriving DecidableEq, Repr

/-- The read `buf[k]`: a fault when `k` is not an index of the buffer. -/
def readByte (data : List Byte) (k : Nat) : Except ScanFault Nat :=
  match data.get? k with
  | some b => Except.ok b.val
  | none => Except.error (ScanFault.outOfBounds k)

/-- The statement `--i` on a `size_t`. -/
def decrSizeT (i : Nat) : Nat := (i + 2 ^ 64 - 1) % 2 ^ 64

/-- Reads the 16-bit little-endian field at `k` with checked reads. -/
def readLe16 (data : List Byte) (k : Nat) : Except ScanFault Nat :=
  (readByte data k).bind fun b0 =>
  (readByte data (k + 1)).bind fun b1 =>
  Except.ok (b0 ||| (b1 <<< 8))

/-- Reads the 32-bit little-endian field at `k` with checked reads. -/
def readLe32 (data : List Byte) (k : Nat) : Except ScanFault Nat :=
  (readByte data k).bind fun b0 =>
  (readByte data (k + 1)).bind fun b1 =>
  (readByte data (k + 2)).bind fun b2 =>
  (readByte data (k + 3)).bind fun b3 =>
  Except.ok (b0 ||| (b1 <<< 8) ||| (b2 <<< 16) ||| (b3 <<< 24))

/-- The body of the scan loop at index `i` with checked reads, in the order the
code reads: the four signature bytes one after the other as long as they match
(`&&` stops at the first mismatch), then the comment length, then the two
directory fields. -/
def checkEocdAtChecked (data : List Byte) (i : Nat) : Except ScanFault (Option (Option Nat)) :=
  (readByte data i).bind fun s0 =>
  if s0 != 0x50 then Except.ok none else
  (readByte data (i + 1)).bind fun s1 =>
  if s1 != 0x4B then Except.ok none else
  (readByte data (i + 2)).bind fun s2 =>
  if s2 != 0x05 then Except.ok none else
  (readByte data (i + 3)).bind fun s3 =>
  if s3 != 0x06 then Except.ok none else
  (readLe16 data (i + 20)).bind fun commentLen =>
  if i + 22 + commentLen != data.length then Except.ok none else
  (readLe32 data (i + 12)).bind fun cdSize =>
  (readLe32 data (i + 16)).bind fun cdOffset =>
  if i < cdSize then Except.ok (some none)
  else
    let actualCdPos := i - cdSize
    if actualCdPos < cdOffset then Except.ok (some none)
    else Except.ok (some (some (actualCdPos - cdOffset)))

/-- The scan loop `while (true)` on fuel, from index `i` on; `seen` collects the
indices the loop body ran at, in order. -/
def scanChecked (data : List Byte) (searchFrom : Nat) :
    Nat → Nat → List Nat → Except ScanFault (Option Nat × List Nat)
  | 0, _, _ => Except.error ScanFault.outOfFuel
  | fuel + 1, i, seen =>
    match checkEocdAtChecked data i with
    | Except.error fault => Except.error fault
    | Except.ok (some r) => Except.ok (r, seen ++ [i])
    | Except.ok none =>
      if i == searchFrom then Except.ok (none, seen ++ [i])
      else scanChecked data searchFrom fuel (decrSizeT i) (seen ++ [i])

/-- Embeds `findZipStartOffset` with checked reads, on fuel: the value returned
and the indices the loop body ran at. -/
def findZipStartOffsetChecked (fuel : Nat) (data : List Byte) :
    Except ScanFault (Option Nat × List Nat) :=
  let dataSize := data.length
  if dataSize < 22 then Except.ok (none, [])
  else
    let maxSearch := 22 + 65535
    let searchFrom := if dataSize > maxSearch then dataSize - maxSearch else 0
    scanChecked data searchFrom fuel (dataSize - 22) []

/-- A directory name of 65 characters: 63 letters, a dot, and a letter. -/
def longIdentity : Str := List.replicate 63 'a' ++ ".b".toList

/-! ## A file system that resolves pathnames -/

/-- The pathname of the node that `p` names when `.` components and a trailing
separator are resolved: the normal form, without its trailing separator. -/
def resolvedName (pf : Platform) (p : Str) : Str :=
  let n := lexically_normal pf p
  if (pathElements pf n).getLast? == some [] then n.dropLast else n

/-- The in-memory file system behind a pathname resolution, as on Windows, where
`dir\.` and `dir\` open the node `dir`: every call acts on the resolved name of
its path. -/
def resolvingFs (pf : Platform) : FileSystem MemFs where
  pathExists fs p := (memFs pf).pathExists fs (resolvedName pf p)
  is_regular_file fs p := (memFs pf).is_regular_file fs (resolvedName pf p)
  is_directory fs p := (memFs pf).is_directory fs (resolvedName pf p)
  readWholeFile fs p := (memFs pf).readWholeFile fs (resolvedName pf p)
  create_directories fs p := (memFs pf).create_directories fs (resolvedName pf p)
  ofstreamOpen fs p mode := (memFs pf).ofstreamOpen fs (resolvedName pf p) mode
  ofstreamWrite fs p data := (memFs pf).ofstreamWrite fs (resolvedName pf p) data
  ofstreamClose fs p := (memFs pf).ofstreamClose fs (resolvedName pf p)
  directory_iterator fs p := (memFs pf).directory_iterator fs (resolvedName pf p)
  remove fs p := (memFs pf).remove fs (resolvedName pf p)

/-- Storage on Windows in which the save directory of `freshHost windowsEnv`
exists and is empty. -/
def emptySaveDirWorld : World MemFs :=
  { fs := [("C:\\Users\\u\\AppData\\Roaming\\Lime2D".toList, none),
           ("C:\\Users\\u\\AppData\\Roaming\\Lime2D\\demo".toList, none)]
    calls := [] }

/-! ## Profiler states a session can reach -/

/-- Embeds `LuaHost::init` on the host fields: a new engine, unless there is one;
`handle` is what `luaL_newstate` returns. -/
def LuaHost.init (h : LuaHost) (handle : Nat) : LuaHost :=
  if h.L.isSome then h else { h with L := some handle }

/-- Embeds `LuaHost::shutdown` on the host fields. -/
def LuaHost.shutdown (h : LuaHost) : LuaHost :=
  if h.L.isNone then h
  else
    { h with
      profilerSections := []
      profilerActiveSection := []
      profilerSectionStart := 0
      L := none }

/-- A `LuaHost` as constructed: no engine, empty strings, cleared flags, an empty
profiler with start timestamp 0. -/
def constructedHost : LuaHost :=
  { L := none, mainScriptDir := [], exeDir := [], quitCallbackActive := false,
    appIdentity := [], saveDir := [], identityLocked := false, filesystemAccessed := false,
    profilerSections := [], profilerActiveSection := [], profilerSectionStart := 0,
    fusedBaseDir := [] }

/-- What can happen to the profiler state: the six functions of `lime.profiler`
with their arguments and clock readings, a script load, and `init` and
`shutdown` of the host. -/
inductive ProfilerOp where
  | start (id : LuaValue) (nowStop nowStart : Rat)
  | stop (now : Rat)
  | get (id : Str) (now : Rat)
  | list
  | reset (now : Rat)
  | clear
  | loadApp (path : Str)
  | loadFused (archivePath : Str)
  | init (handle : Nat)
  | shutdown

/-- The host after one of these; a load is the part of the loader before the
script runs, and a loader called without an engine throws at once. -/
def profilerOp (env : Env) (absolute : Str → Str) (h : LuaHost) : ProfilerOp → LuaHost
  | ProfilerOp.start id nowStop nowStart => (l_profiler_start h id nowStop nowStart).2
  | ProfilerOp.stop now => l_profiler_stop h now
  | ProfilerOp.get id now => (l_profiler_get h id now).2
  | ProfilerOp.list => h
  | ProfilerOp.reset now => l_profiler_reset h now
  | ProfilerOp.clear => l_profiler_clear h
  | ProfilerOp.loadApp path =>
    if h.L.isNone then h else loadAppScriptBegin env absolute h path
  | ProfilerOp.loadFused archivePath =>
    if h.L.isNone then h else loadFusedScriptBegin env h archivePath
  | ProfilerOp.init handle => h.init handle
  | ProfilerOp.shutdown => h.shutdown

/-- The host after a sequence of them. -/
def profilerOps (env : Env) (absolute : Str → Str) (h : LuaHost) (ops : List ProfilerOp) :
    LuaHost :=
  ops.foldl (profilerOp env absolute) h

/-- The state property: no section is active and the start timestamp is 0, or the
active id is non-empty and a key of the accumulator map. -/
def profilerConsistent (h : LuaHost) : Bool :=
  (h.profilerActiveSection.isEmpty && h.profilerSectionStart == 0) ||
  (!h.profilerActiveSection.isEmpty &&
    (h.profilerSections.lookup h.profilerActiveSection).isSome)

/-! ## UTF-8: the encoding the text dispatcher is compared with -/

/-- The UTF-8 byte sequence of a code point, written after the encoding table:
one byte `0xxxxxxx` below 0x80, two bytes `110xxxxx 10xxxxxx` below 0x800, three
bytes `1110xxxx 10xxxxxx 10xxxxxx` below 0x10000, four bytes
`11110xxx 10xxxxxx 10xxxxxx 10xxxxxx` above. -/
def utf8Reference (c : Nat) : List Nat :=
  if c < 0x80 then [c]
  else if c < 0x800 then [0xC0 + c / 64, 0x80 + c % 64]
  else if c < 0x10000 then [0xE0 + c / 4096, 0x80 + c / 64 % 64, 0x80 + c % 64]
  else [0xF0 + c / 262144, 0x80 + c / 4096 % 64, 0x80 + c / 64 % 64, 0x80 + c % 64]

/-- Whether a byte is a continuation byte `10xxxxxx`. -/
def isContinuation (b : Nat) : Bool := decide (0x80 ≤ b) && decide (b < 0xC0)

/-- Decodes a byte sequence that holds exactly one code point; `none` when the
bytes do not have one of the four shapes. -/
def utf8Decode : List Nat → Option Nat
  | [b0] => if b0 < 0x80 then some b0 else none
  | [b0, b1] =>
    if decide (0xC0 ≤ b0) && decide (b0 < 0xE0) && isContinuation b1 then
      some ((b0 - 0xC0) * 64 + (b1 - 0x80))
    else none
  | [b0, b1, b2] =>
    if decide (0xE0 ≤ b0) && decide (b0 < 0xF0) && isContinuation b1 && isContinuation b2 then
      some ((b0 - 0xE0) * 4096 + (b1 - 0x80) * 64 + (b2 - 0x80))
    else none
  | [b0, b1, b2, b3] =>
    if decide (0xF0 ≤ b0) && decide (b0 < 0xF8) && isContinuation b1 && isContinuation b2 &&
        isContinuation b3 then
      some ((b0 - 0xF0) * 262144 + (b1 - 0x80) * 4096 + (b2 - 0x80) * 64 + (b3 - 0x80))
    else none
  | _ => none

/-- The bytes of a Lua string. -/
def strToBytes (s : Str) : List Nat := s.map Char.toNat

/-- A table `lime` whose only callback is `textinput`, which returns true. -/
def textLime : LimeGlobal :=
  LimeGlobal.table (fun name =>
    if name == "textinput".toList then
      LimeField.function (fun _ => Script.ret (LuaValue.boolean true))
    else LimeField.notFunction LuaValue.nil)

/-- An engine whose script defined `lime.textinput`. -/
def textDispatch : Dispatch MemFs :=
  { session := demoSession posixEnv [], lime := textLime, stack := [] }

/-! # Theorems -/

/-! ## Identity sanitizing -/

theorem sanitizeStep_mem (acc : Str) (c x : Char) (hx : x ∈ sanitizeStep acc c) :
    x ∈ acc ∨ (x = c ∧ isIdentityChar c = true) ∨ x = '_' := by
  unfold sanitizeStep at hx
  split at hx
  · rename_i h
    rcases List.mem_append.mp hx with h1 | h1
    · exact Or.inl h1
    · right; left
      refine ⟨by simpa using h1, ?_⟩
      simpa [isIdentityChar, isAsciiLetter, isAsciiDigit, Bool.or_assoc] using h
  · split at hx
    · split at hx
      · rcases List.mem_append.mp hx with h1 | h1
        · exact Or.inl h1
        · right; right; simpa using h1
      · exact Or.inl hx
    · exact Or.inl hx

theorem foldl_sanitizeStep_ok (raw acc : Str) (hacc : ∀ x ∈ acc, isIdentityChar x = true) :
    ∀ x ∈ raw.foldl sanitizeStep acc, isIdentityChar x = true := by
  induction raw generalizing acc with
  | nil => simpa using hacc
  | cons c cs ih =>
    simp only [List.foldl_cons]
    apply ih
    intro x hx
    rcases sanitizeStep_mem acc c x hx with h | ⟨h1, h2⟩ | h
    · exact hacc x h
    · rw [h1]; exact h2
    · rw [h]; decide


theorem popTrailingUnderscores_mem (r : Str) (x : Char) (hx : x ∈ popTrailingUnderscores r) :
    x ∈ r := by
  unfold popTrailingUnderscores at hx
  have h1 : x ∈ r.reverse.dropWhile (fun c => c == '_') := List.mem_reverse.mp hx
  exact List.mem_reverse.mp ((List.dropWhile_sublist _).subset h1)

theorem foldl_sanitizeStep_underscores (raw acc : Str)
    (hraw : ∀ c ∈ raw, isAsciiLetter c = false ∧ isAsciiDigit c = false ∧ c ≠ '-')
    (hacc : ∀ x ∈ acc, x = '_') :
    ∀ x ∈ raw.foldl sanitizeStep acc, x = '_' := by
  induction raw generalizing acc with
  | nil => simpa using hacc
  | cons c cs ih =>
    simp only [List.foldl_cons]
    apply ih
    · intro d hd; exact hraw d (List.mem_cons_of_mem _ hd)
    · intro x hx
      rcases sanitizeStep_mem acc c x hx with h | ⟨h1, h2⟩ | h
      · exact hacc x h
      · obtain ⟨a, b, d⟩ := hraw c (List.mem_cons_self _ _)
        simp [isIdentityChar, a, b, d] at h2
        rw [h1]; exact h2
      · exact h

theorem popTrailingUnderscores_all (r : Str) (h : ∀ x ∈ r, x = '_') :
    popTrailingUnderscores r = [] := by
  unfold popTrailingUnderscores
  have : r.reverse.dropWhile (fun c => c == '_') = [] := by
    rw [List.dropWhile_eq_nil_iff]
    intro x hx
    simp [h x (List.mem_reverse.mp hx)]
  rw [this]; rfl

/-- C9: for every input, `sanitizeIdentity` returns a non-empty string of at most
64 characters, each an ASCII letter, a digit, `_` or `-`; and when the input has
no ASCII letter, digit or `-`, the result is exactly `unnamed`. -/
theorem sanitizeIdentity_wellFormed (raw : Str) :
    sanitizeIdentity raw ≠ [] ∧ (sanitizeIdentity raw).length ≤ 64 ∧
    (∀ c ∈ sanitizeIdentity raw, isIdentityChar c = true) ∧
    ((∀ c ∈ raw, isAsciiLetter c = false ∧ isAsciiDigit c = false ∧ c ≠ '-') →
      sanitizeIdentity raw = "unnamed".toList) := by
  have hmem : ∀ x ∈ (if (popTrailingUnderscores (raw.foldl sanitizeStep [])).isEmpty
      then "unnamed".toList else popTrailingUnderscores (raw.foldl sanitizeStep [])),
      isIdentityChar x = true := by
    intro x hx
    split at hx
    · revert x; decide
    · exact foldl_sanitizeStep_ok raw [] (by simp) x (popTrailingUnderscores_mem _ _ hx)
  have hne : (if (popTrailingUnderscores (raw.foldl sanitizeStep [])).isEmpty
      then "unnamed".toList else popTrailingUnderscores (raw.foldl sanitizeStep [])) ≠ [] := by
    split
    · decide
    · rename_i h; simpa using h
  have key : sanitizeIdentity raw =
      (if (if (popTrailingUnderscores (raw.foldl sanitizeStep [])).isEmpty
        then "unnamed".toList else popTrailingUnderscores (raw.foldl sanitizeStep [])).length > 64
      then (if (popTrailingUnderscores (raw.foldl sanitizeStep [])).isEmpty
        then "unnamed".toList else popTrailingUnderscores (raw.foldl sanitizeStep [])).take 64
      else (if (popTrailingUnderscores (raw.foldl sanitizeStep [])).isEmpty
        then "unnamed".toList else popTrailingUnderscores (raw.foldl sanitizeStep []))) := rfl
  have h4 : (∀ c ∈ raw, isAsciiLetter c = false ∧ isAsciiDigit c = false ∧ c ≠ '-') →
      sanitizeIdentity raw = "unnamed".toList := by
    intro hraw
    have h1 := popTrailingUnderscores_all _ (foldl_sanitizeStep_underscores raw [] hraw (by simp))
    unfold sanitizeIdentity
    simp only [h1]
    decide
  refine ⟨?_, ?_, ?_, h4⟩ <;> rw [key] <;> clear h4 key
  all_goals generalize (if (popTrailingUnderscores (raw.foldl sanitizeStep [])).isEmpty
        then "unnamed".toList else popTrailingUnderscores (raw.foldl sanitizeStep [])) = r
    at hmem hne
  · by_cases hlen : r.length > 64
    · rw [if_pos hlen]
      intro h
      rcases List.take_eq_nil_iff.mp h with h0 | h0
      · exact absurd h0 (by decide)
      · exact hne h0
    · rw [if_neg hlen]; exact hne
  · by_cases hlen : r.length > 64
    · rw [if_pos hlen]; simp
    · rw [if_neg hlen]; omega
  · intro c hc
    by_cases hlen : r.length > 64
    · rw [if_pos hlen] at hc; exact hmem c (List.mem_of_mem_take hc)
    · rw [if_neg hlen] at hc; exact hmem c hc

/-- Witness for `sanitizeIdentity_wellFormed`: an input of blanks and dots. -/
theorem sanitizeIdentity_wellFormed_witness :
    sanitizeIdentity " .. ".toList = "unnamed".toList :=
  (sanitizeIdentity_wellFormed " .. ".toList).2.2.2 (by decide)

/-! ## Path safety -/

/-- When `isPathSafe` rejects a non-empty path. -/
theorem isPathSafe_eq_false_iff (pf : Platform) (p : Str) (hp : p ≠ []) :
    isPathSafe pf p = false ↔
      (is_absolute pf p = true ∨ p[1]? = some ':' ∨ p[0]? = some '/' ∨ p[0]? = some '\\' ∨
        dotDot ∈ pathElements pf (lexically_normal pf p)) := by
  have hany : (pathElements pf (lexically_normal pf p)).any (fun comp => comp == dotDot) = true ↔
      dotDot ∈ pathElements pf (lexically_normal pf p) := by
    simp [List.any_eq_true]
  have hhead : (pathElements pf (lexically_normal pf p)).head? = some dotDot →
      dotDot ∈ pathElements pf (lexically_normal pf p) := by
    intro h
    exact List.mem_of_mem_head? h
  cases p with
  | nil => exact absurd rfl hp
  | cons c cs =>
    cases cs with
    | nil =>
      unfold isPathSafe
      by_cases h1 : is_absolute pf [c] = true
      · simp [h1]
      · by_cases h2 : c = '/'
        · simp [h1, h2]
        · by_cases h3 : c = '\\'
          · simp [h1, h3]
          · by_cases h4 : dotDot ∈ pathElements pf (lexically_normal pf [c])
            · by_cases h5 : (pathElements pf (lexically_normal pf [c])).head? = some dotDot
              · simp [h1, h2, h3, h4, h5]
              · simp [h1, h2, h3, h4, h5]
            · have h5 : ¬ (pathElements pf (lexically_normal pf [c])).head? = some dotDot :=
                fun h => h4 (hhead h)
              simp [h1, h2, h3, h4, h5]
    | cons d ds =>
      unfold isPathSafe
      by_cases h1 : is_absolute pf (c :: d :: ds) = true
      · simp [h1]
      · by_cases h0 : d = ':'
        · simp [h1, h0]
        · by_cases h2 : c = '/'
          · simp [h1, h2, h0]
          · by_cases h3 : c = '\\'
            · simp [h1, h3, h0]
            · by_cases h4 : dotDot ∈ pathElements pf (lexically_normal pf (c :: d :: ds))
              · by_cases h5 : (pathElements pf (lexically_normal pf (c :: d :: ds))).head? =
                    some dotDot
                · simp [h1, h2, h3, h4, h5, h0]
                · simp [h1, h2, h3, h4, h5, h0]
              · have h5 : ¬ (pathElements pf (lexically_normal pf (c :: d :: ds))).head? =
                    some dotDot := fun h => h4 (hhead h)
                simp [h1, h2, h3, h4, h5, h0]

/-- C3: `isPathSafe` accepts the empty string, and rejects a non-empty path
exactly when it is absolute, or its second character is `:`, or its first
character is `/` or a backslash, or its lexical normal form has a component
equal to `..`. -/
theorem isPathSafe_iff (pf : Platform) :
    isPathSafe pf [] = true ∧
    ∀ p : Str, p ≠ [] →
      (isPathSafe pf p = false ↔
        (is_absolute pf p = true ∨ p[1]? = some ':' ∨ p[0]? = some '/' ∨ p[0]? = some '\\' ∨
          dotDot ∈ pathElements pf (lexically_normal pf p))) := by
  exact ⟨rfl, fun p hp => isPathSafe_eq_false_iff pf p hp⟩

/-- Witness for `isPathSafe_iff`: the path `a/../..` is rejected, its normal form
being `..`. -/
theorem isPathSafe_iff_witness :
    isPathSafe Platform.posix "a/../..".toList = false :=
  ((isPathSafe_iff Platform.posix).2 "a/../..".toList (by decide)).mpr
    (Or.inr (Or.inr (Or.inr (Or.inr (by decide)))))

/-! ## Sandbox store: rejection of unsafe paths -/

/-- C1 as stated fails: `a/../b` is relative and contains a `..` segment, yet
`write` accepts it, creates the file `b` in the save directory and returns
true. -/
theorem sandbox_dotdot_segment_accepted :
    statedUnsafe Platform.posix "a/../b".toList = true ∧
    (l_fs_write (memFs Platform.posix) posixEnv (freshHost posixEnv) emptyWorld
      "a/../b".toList "x".toList).1 = FsReturn.bool true ∧
    (l_fs_write (memFs Platform.posix) posixEnv (freshHost posixEnv) emptyWorld
      "a/../b".toList "x".toList).2.2.fs.lookup "/home/u/.local/share/Lime2D/demo/b".toList
      = some (some "x".toList) := by
  decide

/-- C1, amended: for every path that is absolute, or begins with `/` or a
backslash, or has `:` as its second character, or whose lexical normal form has
a `..` component, each of the nine sandbox operations returns its failure value
and makes no file-system call: storage and the call log are what they were. -/
theorem sandbox_rejects_unsafe {Φ : Type} (F : FileSystem Φ) (env : Env) (h : LuaHost)
    (w : World Φ) (p data : Str) (op : SandboxOp)
    (hp : is_absolute env.pf p = true ∨ p[1]? = some ':' ∨ p[0]? = some '/' ∨
      p[0]? = some '\\' ∨ dotDot ∈ pathElements env.pf (lexically_normal env.pf p)) :
    (sandboxCall F env op h w p data).1 = rejection op ∧
    (sandboxCall F env op h w p data).2.2 = w := by
  have hne : p ≠ [] := by
    rintro rfl
    cases hpf : env.pf <;> rw [hpf] at hp <;> revert hp <;> decide
  have hs : isPathSafe env.pf p = false := (isPathSafe_eq_false_iff env.pf p hne).mpr hp
  cases op <;>
    simp [sandboxCall, rejection, l_fs_read, l_fs_write, l_fs_append, l_fs_exists, l_fs_isFile,
      l_fs_isDirectory, l_fs_remove, l_fs_mkdir, l_fs_list, hs]

/-- Witness for `sandbox_rejects_unsafe`: `write("../../escape.txt", "x")` fails
and creates nothing. -/
theorem sandbox_rejects_unsafe_witness :
    (sandboxCall (memFs Platform.posix) posixEnv SandboxOp.write (freshHost posixEnv) emptyWorld
      "../../escape.txt".toList "x".toList).1 = rejection SandboxOp.write ∧
    (sandboxCall (memFs Platform.posix) posixEnv SandboxOp.write (freshHost posixEnv) emptyWorld
      "../../escape.txt".toList "x".toList).2.2 = emptyWorld :=
  sandbox_rejects_unsafe (memFs Platform.posix) posixEnv (freshHost posixEnv) emptyWorld
    "../../escape.txt".toList "x".toList SandboxOp.write
    (Or.inr (Or.inr (Or.inr (Or.inr (by decide)))))

/-! ## Sandbox store: resolved locations -/

/-- C2 fails on Windows: `./C:/x` is relative and passes every check of
`isPathSafe`, its normal form is the drive-rooted `C:\x`, so `resolveSavePath`
returns `C:\x` instead of a location below the save directory, and `write`
creates that file outside the sandbox. -/
theorem resolveSavePath_leaves_saveDir_on_windows :
    is_absolute Platform.windows "./C:/x".toList = false ∧
    isPathSafe Platform.windows "./C:/x".toList = true ∧
    (freshHost windowsEnv).saveDir = "C:\\Users\\u\\AppData\\Roaming\\Lime2D\\demo".toList ∧
    pathElements Platform.windows (lexically_normal Platform.windows "./C:/x".toList)
      = ["C:".toList, "\\".toList, "x".toList] ∧
    resolveSavePath Platform.windows (freshHost windowsEnv).saveDir "./C:/x".toList
      = "C:\\x".toList ∧
    (l_fs_write (memFs Platform.windows) windowsEnv (freshHost windowsEnv) emptyWorld
      "./C:/x".toList "data".toList).1 = FsReturn.bool true ∧
    (l_fs_write (memFs Platform.windows) windowsEnv (freshHost windowsEnv) emptyWorld
      "./C:/x".toList "data".toList).2.2.fs.lookup "C:\\x".toList = some (some "data".toList) := by
  decide

/-! ## Fused archive: offset recovery -/

theorem byteAt_append_right (P Z : List Byte) (j : Nat) :
    byteAt (P ++ Z) (P.length + j) = byteAt Z j := by
  unfold byteAt
  rw [List.getD_append_right _ _ _ _ (Nat.le_add_right _ _)]
  simp

theorem hasEocdSignature_append_right (P Z : List Byte) (j : Nat) :
    hasEocdSignature (P ++ Z) (P.length + j) = hasEocdSignature Z j := by
  simp only [hasEocdSignature, Nat.add_assoc, byteAt_append_right]

theorem le16_append_right (P Z : List Byte) (j : Nat) :
    le16 (P ++ Z) (P.length + j) = le16 Z j := by
  simp only [le16, Nat.add_assoc, byteAt_append_right]

theorem le32_append_right (P Z : List Byte) (j : Nat) :
    le32 (P ++ Z) (P.length + j) = le32 Z j := by
  simp only [le32, Nat.add_assoc, byteAt_append_right]

theorem scanEocd_of_check (data : List Byte) (searchFrom k : Nat) (r : Option Nat)
    (h : checkEocdAt data (searchFrom + k) = some r) :
    scanEocd data searchFrom k = r := by
  cases k with
  | zero => simp only [scanEocd]; rw [Nat.add_zero] at h; rw [h]
  | succ k => simp only [scanEocd]; rw [h]

/-- The check at the last possible position of a buffer that ends with a
comment-free end-of-directory record whose fields add up. -/
theorem checkEocdAt_prefix (P Z : List Byte) (hlen : 22 ≤ Z.length)
    (hsig : hasEocdSignature Z (Z.length - 22) = true)
    (hcomment : le16 Z (Z.length - 22 + 20) = 0)
    (hcd : le32 Z (Z.length - 22 + 16) + le32 Z (Z.length - 22 + 12) = Z.length - 22) :
    checkEocdAt (P ++ Z) (P.length + (Z.length - 22)) = some (some P.length) := by
  unfold checkEocdAt
  simp only [Nat.add_assoc, hasEocdSignature_append_right, le16_append_right,
    le32_append_right, hsig, hcomment, if_true]
  have h1 : (P.length + (Z.length - 22 + (22 + 0)) == (P ++ Z).length) = true := by
    simp only [List.length_append, beq_iff_eq]; omega
  simp only [h1, if_true]
  have h2 : ¬ (P.length + (Z.length - 22) < le32 Z (Z.length - 22 + 12)) := by omega
  have h3 : ¬ (P.length + (Z.length - 22) - le32 Z (Z.length - 22 + 12) <
      le32 Z (Z.length - 22 + 16)) := by omega
  simp only [h2, h3, if_false]
  congr 2
  omega

/-- C4: for every host prefix `P` and every container `Z` that ends with an
end-of-directory record with a zero-length comment whose directory offset and
size add up to `|Z| - 22`, `findZipStartOffset (P ++ Z)` is exactly `|P|`, and
the slice `FusedArchive::init` hands to the zip reader is exactly `Z`. -/
theorem findZipStartOffset_prefix (P Z : List Byte) (hlen : 22 ≤ Z.length)
    (hsig : hasEocdSignature Z (Z.length - 22) = true)
    (hcomment : le16 Z (Z.length - 22 + 20) = 0)
    (hcd : le32 Z (Z.length - 22 + 16) + le32 Z (Z.length - 22 + 12) = Z.length - 22) :
    findZipStartOffset (P ++ Z) = some P.length ∧ zipSlice (P ++ Z) = some Z := by
  have hfind : findZipStartOffset (P ++ Z) = some P.length := by
    unfold findZipStartOffset
    have hsz : ¬ ((P ++ Z).length < 22) := by simp only [List.length_append]; omega
    simp only [hsz, if_false]
    apply scanEocd_of_check
    have hidx : ∀ sf : Nat, sf ≤ (P ++ Z).length - 22 →
        sf + ((P ++ Z).length - 22 - sf) = P.length + (Z.length - 22) := by
      intro sf hsf
      simp only [List.length_append] at hsf ⊢
      omega
    rw [hidx]
    · exact checkEocdAt_prefix P Z hlen hsig hcomment hcd
    · split <;> omega
  refine ⟨hfind, ?_⟩
  unfold zipSlice
  rw [hfind]
  have hlt : ¬ (P.length ≥ (P ++ Z).length) := by simp only [List.length_append]; omega
  simp only [hlt, if_false, List.drop_left]


/-- Witness for `findZipStartOffset_prefix`: a two-byte host image in front of
`demoZip`. -/
theorem findZipStartOffset_prefix_witness :
    findZipStartOffset ([0x4D, 0x5A] ++ demoZip) = some 2 ∧
    zipSlice ([0x4D, 0x5A] ++ demoZip) = some demoZip :=
  findZipStartOffset_prefix [0x4D, 0x5A] demoZip (by decide) (by decide) (by decide) (by decide)

/-! ## Module resolver: memoization -/

theorem loadAndExecute_returned {Φ : Type} (E : Engine)
    (req : Session Φ → Str → Outcome LuaValue × Session Φ)
    (quit : Session Φ → Int → Outcome Unit × Session Φ)
    (s s1 : Session Φ) (modStr chunk chunkname : Str) (v : LuaValue)
    (h : loadAndExecute E req quit s modStr chunk chunkname = (Outcome.returned v, s1)) :
    v ≠ LuaValue.nil ∧ cacheGet s1.lua.requireCache modStr = v := by
  unfold loadAndExecute at h
  simp only at h
  split at h
  · simp at h
  · split at h
    · simp at h
    · simp at h
    · rename_i r s2 _
      simp only [Prod.mk.injEq, Outcome.returned.injEq] at h
      obtain ⟨hv, hs⟩ := h
      subst hs
      subst hv
      refine ⟨?_, ?_⟩
      · by_cases hr : r = LuaValue.nil
        · simp [hr]
        · simp [hr]
      · simp [cacheGet, cacheSet, List.lookup]

/-- A successful `l_require` leaves its result, which is not nil, in the cache
under the name asked for. -/
theorem l_require_returned {Φ : Type} (E : Engine) (F : FileSystem Φ) (env : Env)
    (arch : FusedArchive) (req : Session Φ → Str → Outcome LuaValue × Session Φ)
    (quit : Session Φ → Int → Outcome Unit × Session Φ)
    (s s1 : Session Φ) (modStr : Str) (v : LuaValue)
    (h : l_require E F env arch req quit s modStr = (Outcome.returned v, s1)) :
    v ≠ LuaValue.nil ∧ cacheGet s1.lua.requireCache modStr = v := by
  unfold l_require at h
  split at h
  · rename_i hc
    simp only [Prod.mk.injEq, Outcome.returned.injEq] at h
    obtain ⟨hv, hs⟩ := h
    subst hs
    refine ⟨?_, hv⟩
    rw [← hv]
    simpa using hc
  · unfold resolveAndLoad at h
    simp only at h
    split at h
    · split at h
      · simp at h
      · split at h
        · simp at h
        · exact loadAndExecute_returned E req quit _ s1 modStr _ _ v h
    · exact loadAndExecute_returned E req quit _ s1 modStr _ _ v h


/-- C5: if `require(n)` succeeds, its value is not nil and a second `require(n)`
returns the very same value and leaves the whole session as it is - no
file-system call, nothing compiled, nothing executed, so the body has run once;
and a body that returns no value makes the load return `true`, which is then the
memoized value. -/
theorem require_memoized {Φ : Type} (E : Engine) (F : FileSystem Φ) (env : Env)
    (arch : FusedArchive) (req : Session Φ → Str → Outcome LuaValue × Session Φ)
    (quit : Session Φ → Int → Outcome Unit × Session Φ)
    (s s1 : Session Φ) (n : Str) (v : LuaValue)
    (h : l_require E F env arch req quit s n = (Outcome.returned v, s1)) :
    v ≠ LuaValue.nil ∧
    (∀ (req2 : Session Φ → Str → Outcome LuaValue × Session Φ)
      (quit2 : Session Φ → Int → Outcome Unit × Session Φ),
      l_require E F env arch req2 quit2 s1 n = (Outcome.returned v, s1)) ∧
    (∀ (s0 s2 : Session Φ) (chunk chunkname : Str) (body : Script),
      E.compile chunk chunkname = Except.ok body →
      runScript req quit body
          ((s0.record (EngineEvent.compiled chunkname)).record (EngineEvent.executed chunkname))
        = (Outcome.returned LuaValue.nil, s2) →
      (loadAndExecute E req quit s0 n chunk chunkname).1
        = Outcome.returned (LuaValue.boolean true)) := by
  obtain ⟨hv, hc⟩ := l_require_returned E F env arch req quit s s1 n v h
  refine ⟨hv, ?_, ?_⟩
  · intro req2 quit2
    unfold l_require
    simp [hc, hv]
  · intro s0 s2 chunk chunkname body hcomp hrun
    unfold loadAndExecute
    simp [hcomp, hrun]

/-- Witness for `require_memoized`: the module `m` of `moduleSession`, whose body
returns nothing; both calls give `true`. -/
theorem require_memoized_witness :
    (l_require demoEngine (memFs Platform.posix) posixEnv noArchive
      (demoApi posixEnv noArchive).require (demoApi posixEnv noArchive).windowQuit
      moduleSession "m".toList).1 = Outcome.returned (LuaValue.boolean true) ∧
    (l_require demoEngine (memFs Platform.posix) posixEnv noArchive
      (demoApi posixEnv noArchive).require (demoApi posixEnv noArchive).windowQuit
      (l_require demoEngine (memFs Platform.posix) posixEnv noArchive
        (demoApi posixEnv noArchive).require (demoApi posixEnv noArchive).windowQuit
        moduleSession "m".toList).2 "m".toList).1 = Outcome.returned (LuaValue.boolean true) ∧
    (l_require demoEngine (memFs Platform.posix) posixEnv noArchive
      (demoApi posixEnv noArchive).require (demoApi posixEnv noArchive).windowQuit
      moduleSession "m".toList).2.lua.log
      = [EngineEvent.compiled "@demo/m.lua".toList, EngineEvent.executed "@demo/m.lua".toList] :=
  ⟨by decide,
   congrArg Prod.fst
    ((require_memoized demoEngine (memFs Platform.posix) posixEnv noArchive
      (demoApi posixEnv noArchive).require (demoApi posixEnv noArchive).windowQuit
      moduleSession _ "m".toList (LuaValue.boolean true) (Prod.ext (by decide) rfl)).2.1
      (demoApi posixEnv noArchive).require (demoApi posixEnv noArchive).windowQuit),
   by decide⟩

/-! ## Module resolver: failed loads -/

/-- C6 as stated fails: the module `a` requires `b` and then raises. The call
`require("a")` fails, yet the cache, empty before the call, holds `b` after it. -/
theorem require_failure_changes_cache :
    (demoSession posixEnv
      [("demo/a.lua".toList, some "require('b') error('boom')".toList),
       ("demo/b.lua".toList, some "return 1".toList)]).lua.requireCache = [] ∧
    (l_require demoEngine (memFs Platform.posix) posixEnv noArchive
      (demoApi posixEnv noArchive).require (demoApi posixEnv noArchive).windowQuit
      (demoSession posixEnv
        [("demo/a.lua".toList, some "require('b') error('boom')".toList),
         ("demo/b.lua".toList, some "return 1".toList)]) "a".toList).1
      = Outcome.raised "boom".toList ∧
    (l_require demoEngine (memFs Platform.posix) posixEnv noArchive
      (demoApi posixEnv noArchive).require (demoApi posixEnv noArchive).windowQuit
      (demoSession posixEnv
        [("demo/a.lua".toList, some "require('b') error('boom')".toList),
         ("demo/b.lua".toList, some "return 1".toList)]) "a".toList).2.lua.requireCache
      = [("b".toList, LuaValue.number 1)] := by
  decide


theorem loadAndExecute_raised {Φ : Type} (E : Engine)
    (req : Session Φ → Str → Outcome LuaValue × Session Φ)
    (quit : Session Φ → Int → Outcome Unit × Session Φ)
    (s s1 : Session Φ) (modStr chunk chunkname err : Str)
    (h : loadAndExecute E req quit s modStr chunk chunkname = (Outcome.raised err, s1)) :
    ∃ s0 : Session Φ, s0.lua.requireCache = s.lua.requireCache ∧
      (s1 = s0 ∨ ∃ (body : Script) (e : Str), E.compile chunk chunkname = Except.ok body ∧
        runScript req quit body s0 = (Outcome.raised e, s1)) := by
  unfold loadAndExecute at h
  simp only at h
  split at h
  · simp only [Prod.mk.injEq, Outcome.raised.injEq] at h
    exact ⟨s.record (EngineEvent.compiled chunkname), rfl, Or.inl h.2.symm⟩
  · rename_i body hcomp
    split at h
    · rename_i e s2 hrun
      simp only [Prod.mk.injEq, Outcome.raised.injEq] at h
      refine ⟨(s.record (EngineEvent.compiled chunkname)).record
        (EngineEvent.executed chunkname), rfl, Or.inr ⟨body, e, hcomp, ?_⟩⟩
      rw [hrun, h.2]
    · simp at h
    · simp at h

/-- C6, amended: if `require(n)` fails, then `n` had no cache entry, and the call
itself writes nothing to the cache: the cache it leaves is the one it found,
or - when the body ran and raised - the one the body's own nested calls left
behind, the body having started with the cache as it was. Whenever the cache is
unchanged, a later `require(n)` misses the cache again and goes through
resolution, compilation and execution. -/
theorem require_failure_adds_no_entry {Φ : Type} (E : Engine) (F : FileSystem Φ) (env : Env)
    (arch : FusedArchive) (req : Session Φ → Str → Outcome LuaValue × Session Φ)
    (quit : Session Φ → Int → Outcome Unit × Session Φ)
    (s s1 : Session Φ) (n err : Str)
    (h : l_require E F env arch req quit s n = (Outcome.raised err, s1)) :
    cacheGet s.lua.requireCache n = LuaValue.nil ∧
    (∃ s0 : Session Φ, s0.lua.requireCache = s.lua.requireCache ∧
      (s1 = s0 ∨ ∃ (chunk chunkname : Str) (body : Script) (e : Str),
        E.compile chunk chunkname = Except.ok body ∧
        runScript req quit body s0 = (Outcome.raised e, s1))) ∧
    (s1.lua.requireCache = s.lua.requireCache →
      ∀ (req2 : Session Φ → Str → Outcome LuaValue × Session Φ)
        (quit2 : Session Φ → Int → Outcome Unit × Session Φ),
        l_require E F env arch req2 quit2 s1 n = resolveAndLoad E F env arch req2 quit2 s1 n) := by
  unfold l_require at h
  split at h
  · simp at h
  · rename_i hc
    have hnil : cacheGet s.lua.requireCache n = LuaValue.nil := by simpa using hc
    refine ⟨hnil, ?_, ?_⟩
    · unfold resolveAndLoad at h
      simp only at h
      split at h
      · split at h
        · simp only [Prod.mk.injEq, Outcome.raised.injEq] at h
          refine ⟨s1, ?_, Or.inl rfl⟩
          rw [← h.2]
        · split at h
          · simp only [Prod.mk.injEq, Outcome.raised.injEq] at h
            refine ⟨s1, ?_, Or.inl rfl⟩
            rw [← h.2]
          · obtain ⟨s0, h0, h1⟩ := loadAndExecute_raised E req quit _ s1 n _ _ err h
            refine ⟨s0, h0, ?_⟩
            rcases h1 with h1 | ⟨body, e, hb, hr⟩
            · exact Or.inl h1
            · exact Or.inr ⟨_, _, body, e, hb, hr⟩
      · obtain ⟨s0, h0, h1⟩ := loadAndExecute_raised E req quit _ s1 n _ _ err h
        refine ⟨s0, h0, ?_⟩
        rcases h1 with h1 | ⟨body, e, hb, hr⟩
        · exact Or.inl h1
        · exact Or.inr ⟨_, _, body, e, hb, hr⟩
    · intro hsame req2 quit2
      unfold l_require
      rw [hsame, hnil]
      simp

/-- Witness for `require_failure_adds_no_entry`: the module `bad` of
`failingSession` raises; the cache stays empty and the next call resolves the
module again. -/
theorem require_failure_adds_no_entry_witness :
    (l_require demoEngine (memFs Platform.posix) posixEnv noArchive
      (demoApi posixEnv noArchive).require (demoApi posixEnv noArchive).windowQuit
      failingSession "bad".toList).1 = Outcome.raised "boom".toList ∧
    cacheGet failingSession.lua.requireCache "bad".toList = LuaValue.nil ∧
    (l_require demoEngine (memFs Platform.posix) posixEnv noArchive
      (demoApi posixEnv noArchive).require (demoApi posixEnv noArchive).windowQuit
      failingSession "bad".toList).2.lua.requireCache = failingSession.lua.requireCache :=
  ⟨by decide,
   (require_failure_adds_no_entry demoEngine (memFs Platform.posix) posixEnv noArchive
      (demoApi posixEnv noArchive).require (demoApi posixEnv noArchive).windowQuit
      failingSession _ "bad".toList "boom".toList (Prod.ext (by decide) rfl)).1,
   by decide⟩

/-! ## Module resolver: archive before disk -/

/-- C7 fails for an empty archive entry: the process is fused, the name `m` is
not absolute and the archive holds `m.lua` (with empty content), yet `require`
loads the file `m.lua` from disk and returns its value 1; without the disk file
it reports the module as not found. An entry with content wins over the disk. -/
theorem require_skips_empty_archive_entry :
    demoArchive.isFused = true ∧
    is_absolute Platform.posix "m".toList = false ∧
    demoArchive.readFile "m.lua".toList = some [] ∧
    (l_require demoEngine (memFs Platform.posix) posixEnv demoArchive
      (demoApi posixEnv demoArchive).require (demoApi posixEnv demoArchive).windowQuit
      fusedSession "m".toList).1 = Outcome.returned (LuaValue.number 1) ∧
    (l_require demoEngine (memFs Platform.posix) posixEnv demoArchive
      (demoApi posixEnv demoArchive).require (demoApi posixEnv demoArchive).windowQuit
      fusedSession "m".toList).2.lua.log
      = [EngineEvent.compiled "@demo/m.lua".toList, EngineEvent.executed "@demo/m.lua".toList] ∧
    (l_require demoEngine (memFs Platform.posix) posixEnv demoArchive
      (demoApi posixEnv demoArchive).require (demoApi posixEnv demoArchive).windowQuit
      (demoSession posixEnv []) "m".toList).1
      = Outcome.raised "lime.require: module not found: m".toList ∧
    (l_require demoEngine (memFs Platform.posix) posixEnv demoArchive
      (demoApi posixEnv demoArchive).require (demoApi posixEnv demoArchive).windowQuit
      fusedSession "lib.n".toList).1 = Outcome.returned (LuaValue.number 2) := by
  decide


/-- A chunk found in the archive is the one compiled and run, without any call
to the file system. -/
theorem require_loads_archive_chunk {Φ : Type} (E : Engine) (F : FileSystem Φ) (env : Env)
    (arch : FusedArchive) (req : Session Φ → Str → Outcome LuaValue × Session Φ)
    (quit : Session Φ → Int → Outcome Unit × Session Φ) (s : Session Φ) (n : Str)
    (hmiss : cacheGet s.lua.requireCache n = LuaValue.nil)
    (hc : (requireFromArchive env.pf arch s.host.fusedBaseDir n).1 ≠ []) :
    l_require E F env arch req quit s n =
      loadAndExecute E req quit s n (requireFromArchive env.pf arch s.host.fusedBaseDir n).1
        (requireFromArchive env.pf arch s.host.fusedBaseDir n).2 := by
  unfold l_require resolveAndLoad
  simp [hmiss, hc]

/-- In a fused process, a non-empty entry under the archive base directory is
what the archive lookup yields for a name that is not absolute. -/
theorem requireFromArchive_base (pf : Platform) (arch : FusedArchive) (fusedBaseDir n c : Str)
    (hf : arch.isFused = true) (hna : is_absolute pf n = false) (hb : fusedBaseDir ≠ [])
    (hread : arch.readFile (generic_string pf (lexically_normal pf
      (fusedBaseDir ++ generic_string pf (modulePath pf n)))) = some c)
    (hc : c ≠ []) :
    requireFromArchive pf arch fusedBaseDir n =
      (c, '@' :: generic_string pf (lexically_normal pf
        (fusedBaseDir ++ generic_string pf (modulePath pf n)))) := by
  unfold requireFromArchive
  simp [hf, hna, hb, hread, hc]

/-- In a fused process whose main script sits at the archive root, a non-empty
entry at the archive root is what the archive lookup yields for a name that is
not absolute. -/
theorem requireFromArchive_root (pf : Platform) (arch : FusedArchive) (n c : Str)
    (hf : arch.isFused = true) (hna : is_absolute pf n = false)
    (hread : arch.readFile (generic_string pf (lexically_normal pf
      (generic_string pf (modulePath pf n)))) = some c) :
    requireFromArchive pf arch [] n =
      (c, '@' :: generic_string pf (lexically_normal pf (generic_string pf (modulePath pf n)))) := by
  unfold requireFromArchive
  simp [hf, hna, hread]

/-! ## Sandbox store: identity lock -/

/-- Every sandbox operation leaves the host exactly as its common entry code
made it, whatever happens afterwards. -/
theorem sandboxCall_host {Φ : Type} (F : FileSystem Φ) (env : Env) (op : SandboxOp) (h : LuaHost)
    (w : World Φ) (p data : Str) :
    (sandboxCall F env op h w p data).2.1 = enterSandbox env h := by
  cases op <;>
    simp only [sandboxCall, l_fs_read, l_fs_write, l_fs_append, l_fs_exists, l_fs_isFile,
      l_fs_isDirectory, l_fs_remove, l_fs_mkdir, l_fs_list] <;>
    (repeat' split) <;> rfl

theorem enterSandbox_flags (env : Env) (h : LuaHost) :
    (enterSandbox env h).filesystemAccessed = true ∧
    (enterSandbox env h).identityLocked = h.identityLocked := by
  unfold enterSandbox initSaveDir
  split <;> simp

theorem fsStep_flags {Φ : Type} (F : FileSystem Φ) (env : Env) (h : LuaHost) (w : World Φ)
    (a : FsAction) :
    ((fsStep F env h w a).2.1.identityLocked =
      (h.identityLocked || decide ((fsStep F env h w a).1 = FsOutcome.identitySet))) ∧
    ((fsStep F env h w a).2.1.filesystemAccessed = (h.filesystemAccessed || a.isSandbox)) := by
  cases a with
  | setIdentity rawId =>
    cases hl : h.identityLocked <;> cases hf : h.filesystemAccessed <;>
      simp [fsStep, l_fs_setIdentity, hl, hf, initSaveDir, FsAction.isSandbox]
  | getSaveDir =>
    simp only [fsStep, l_fs_getSaveDir, FsAction.isSandbox]
    split <;> simp [initSaveDir]
  | sandbox op relPath data =>
    simp only [fsStep, sandboxCall_host, FsAction.isSandbox]
    obtain ⟨h1, h2⟩ := enterSandbox_flags env h
    simp [h1, h2]

theorem fsRun_flags {Φ : Type} (F : FileSystem Φ) (env : Env) (pre : List FsAction) :
    ∀ (h : LuaHost) (w : World Φ),
    ((fsRun F env h w pre).2.1.identityLocked =
      (h.identityLocked || decide (FsOutcome.identitySet ∈ (fsRun F env h w pre).1))) ∧
    ((fsRun F env h w pre).2.1.filesystemAccessed =
      (h.filesystemAccessed || pre.any FsAction.isSandbox)) := by
  induction pre with
  | nil => intro h w; simp [fsRun]
  | cons a rest ih =>
    intro h w
    obtain ⟨s1, s2⟩ := fsStep_flags F env h w a
    obtain ⟨r1, r2⟩ := ih (fsStep F env h w a).2.1 (fsStep F env h w a).2.2
    simp only [fsRun]
    rw [r1, r2, s1, s2]
    constructor
    · cases h.identityLocked <;> simp [eq_comm]
    · cases h.filesystemAccessed <;> simp


theorem l_fs_setIdentity_locked (env : Env) (h : LuaHost) (raw : Str)
    (hl : h.identityLocked = true) :
    l_fs_setIdentity env h raw =
      (Except.error "lime.filesystem.setIdentity: can only be called once".toList, h) := by
  unfold l_fs_setIdentity
  rw [if_pos hl]

/-- C8: in a session that starts from the state a script load establishes
(identity unlocked, sandbox unused), a `setIdentity` call succeeds exactly when
no earlier `setIdentity` succeeded and no sandbox operation was invoked before
it, rejected or not; a failing `setIdentity` leaves the host unchanged; in
particular the second of two `setIdentity` calls fails, and so does a
`setIdentity` after a `setIdentity` and a sandbox call. -/
theorem setIdentity_succeeds_iff {Φ : Type} (F : FileSystem Φ) (env : Env) (h : LuaHost)
    (w : World Φ) (pre : List FsAction) (rawId : Str)
    (hl : h.identityLocked = false) (hf : h.filesystemAccessed = false) :
    ((l_fs_setIdentity env (fsRun F env h w pre).2.1 rawId).1 = Except.ok () ↔
      (FsOutcome.identitySet ∉ (fsRun F env h w pre).1 ∧ ∀ a ∈ pre, a.isSandbox = false)) ∧
    (∀ (h2 : LuaHost) (raw : Str),
      (l_fs_setIdentity env h2 raw).1 ≠ Except.ok () → (l_fs_setIdentity env h2 raw).2 = h2) ∧
    (∀ raw1 raw2 : Str,
      (fsRun F env h w [FsAction.setIdentity raw1, FsAction.setIdentity raw2]).1 =
        [FsOutcome.identitySet,
         FsOutcome.raised "lime.filesystem.setIdentity: can only be called once".toList]) ∧
    (∀ (raw1 raw2 : Str) (op : SandboxOp) (p d : Str),
      (fsRun F env h w
        [FsAction.setIdentity raw1, FsAction.sandbox op p d, FsAction.setIdentity raw2]).1 =
        [FsOutcome.identitySet,
         FsOutcome.result (sandboxCall F env op
           (l_fs_setIdentity env h raw1).2 w p d).1,
         FsOutcome.raised "lime.filesystem.setIdentity: can only be called once".toList]) := by
  refine ⟨?_, ?_, ?_, ?_⟩
  · obtain ⟨r1, r2⟩ := fsRun_flags F env pre h w
    rw [hl] at r1
    rw [hf] at r2
    simp only [Bool.false_or] at r1 r2
    unfold l_fs_setIdentity
    rw [r1, r2]
    by_cases hm : FsOutcome.identitySet ∈ (fsRun F env h w pre).1
    · simp [hm]
    · by_cases hs : pre.any FsAction.isSandbox = true
      · have : ¬ ∀ a ∈ pre, a.isSandbox = false := by
          intro hall
          obtain ⟨a, ha, hsa⟩ := List.any_eq_true.mp hs
          rw [hall a ha] at hsa
          exact Bool.noConfusion hsa
        simp [hm, hs, this]
      · have hall : ∀ a ∈ pre, a.isSandbox = false := by
          intro a ha
          cases hsa : a.isSandbox
          · rfl
          · exact absurd (List.any_eq_true.mpr ⟨a, ha, hsa⟩) hs
        have hs2 : pre.any FsAction.isSandbox = false := by simpa using hs
        simp only [hm, hs2, decide_False, not_false_eq_true, true_and]
        simp only [Bool.false_eq_true, if_false, true_iff]
        exact hall
  · intro h2 raw hne
    unfold l_fs_setIdentity at hne ⊢
    split
    · rfl
    · split
      · rfl
      · rename_i h3 h4
        simp [h3, h4] at hne
  · intro raw1 raw2
    simp [fsRun, fsStep, l_fs_setIdentity, hl, hf, initSaveDir]
  · intro raw1 raw2 op p d
    have hh := sandboxCall_host F env op (l_fs_setIdentity env h raw1).2 w p d
    simp only [fsRun, fsStep]
    have h1 : l_fs_setIdentity env h raw1 =
        (Except.ok (), (l_fs_setIdentity env h raw1).2) := by
      simp [l_fs_setIdentity, hl, hf]
    rw [h1]
    simp only
    rw [hh]
    have h2 : (enterSandbox env (l_fs_setIdentity env h raw1).2).identityLocked = true := by
      rw [(enterSandbox_flags env _).2]
      simp [l_fs_setIdentity, hl, hf, initSaveDir]
    rw [l_fs_setIdentity_locked env _ raw2 h2]

/-- Witness for `setIdentity_succeeds_iff`: after a load, a rejected `read`
already blocks `setIdentity`. -/
theorem setIdentity_succeeds_iff_witness :
    (l_fs_setIdentity posixEnv
      (fsRun (memFs Platform.posix) posixEnv (resetForLoad (freshHost posixEnv)) emptyWorld
        [FsAction.sandbox SandboxOp.read "../x".toList []]).2.1 "game".toList).1
      ≠ Except.ok () := fun hok =>
  absurd
    (((setIdentity_succeeds_iff (memFs Platform.posix) posixEnv (resetForLoad (freshHost posixEnv))
      emptyWorld [FsAction.sandbox SandboxOp.read "../x".toList []] "game".toList rfl rfl).1.mp
      hok).2 _ (List.mem_singleton.mpr rfl))
    (by decide)

/-! ## Quit dispatch: re-entrancy guard -/

/-- C10: `invokeQuitCallback` called while the re-entrancy flag is set, or while
no engine exists, returns false and leaves the whole session untouched, so the
script's quit callback is not invoked; and a call that finds the flag clear
leaves it clear again whenever it comes back, by return or by exception. -/
theorem invokeQuitCallback_guarded {Φ : Type} (E : Engine)
    (req : Session Φ → Str → Outcome LuaValue × Session Φ)
    (quit : Session Φ → Int → Outcome Unit × Session Φ) (s : Session Φ) :
    ((s.host.L = none ∨ s.host.quitCallbackActive = true) →
      invokeQuitCallback E req quit s = (Outcome.returned false, s)) ∧
    (s.host.quitCallbackActive = false →
      (∀ code : Int, (invokeQuitCallback E req quit s).1 ≠ Outcome.exited code) →
      (invokeQuitCallback E req quit s).2.host.quitCallbackActive = false) := by
  constructor
  · intro h
    unfold invokeQuitCallback
    rcases h with h | h
    · simp [h]
    · simp [h]
  · intro hflag hne
    unfold invokeQuitCallback at hne ⊢
    split
    · exact hflag
    · split
      · rfl
      · rfl
      · rename_i hguard _ code s1 hcall
        exfalso
        apply hne code
        rw [if_neg hguard, hcall]

/-- Witness for `invokeQuitCallback_guarded`: with the flag set, the call
returns false and the engine record stays empty; and when the quit callback
itself asks to quit, the nested invocation does not run the callback a second
time. -/
theorem invokeQuitCallback_guarded_witness :
    (invokeQuitCallback demoEngine (demoApi posixEnv noArchive).require
      (demoApi posixEnv noArchive).windowQuit
      ((quitSession nestedQuitBody).setQuitCallbackActive true)).1 = Outcome.returned false ∧
    (invokeQuitCallback demoEngine (demoApi posixEnv noArchive).require
      (demoApi posixEnv noArchive).windowQuit
      ((quitSession nestedQuitBody).setQuitCallbackActive true)).2.lua.log = [] ∧
    (invokeQuitCallback demoEngine (demoApi posixEnv noArchive).require
      (demoApi posixEnv noArchive).windowQuit (quitSession nestedQuitBody)).2.lua.log
      = [EngineEvent.quitCallback] ∧
    (invokeQuitCallback demoEngine (demoApi posixEnv noArchive).require
      (demoApi posixEnv noArchive).windowQuit
      (quitSession (Script.raise "boom".toList))).2.host.quitCallbackActive = false :=
  ⟨congrArg Prod.fst
    ((invokeQuitCallback_guarded demoEngine (demoApi posixEnv noArchive).require
      (demoApi posixEnv noArchive).windowQuit
      ((quitSession nestedQuitBody).setQuitCallbackActive true)).1 (Or.inr rfl)),
   by decide, by decide,
   (invokeQuitCallback_guarded demoEngine (demoApi posixEnv noArchive).require
      (demoApi posixEnv noArchive).windowQuit (quitSession (Script.raise "boom".toList))).2 rfl
      (fun _ hc => Outcome.noConfusion
        ((show (invokeQuitCallback demoEngine (demoApi posixEnv noArchive).require
          (demoApi posixEnv noArchive).windowQuit (quitSession (Script.raise "boom".toList))).1
            = Outcome.raised "boom".toList from by decide).symm.trans hc))⟩


/-- A script body keeps the re-entrancy flag set if the host functions it calls
do. -/
theorem runScript_keeps_quitFlag {Φ : Type}
    (req : Session Φ → Str → Outcome LuaValue × Session Φ)
    (quit : Session Φ → Int → Outcome Unit × Session Φ)
    (hreq : ∀ s n, s.host.quitCallbackActive = true → (req s n).2.host.quitCallbackActive = true)
    (hquit : ∀ s c, s.host.quitCallbackActive = true →
      (quit s c).2.host.quitCallbackActive = true) :
    ∀ (body : Script) (s : Session Φ), s.host.quitCallbackActive = true →
      (runScript req quit body s).2.host.quitCallbackActive = true := by
  intro body
  induction body with
  | ret v => intro s hs; exact hs
  | raise err => intro s hs; exact hs
  | require name k ih =>
    intro s hs
    have h1 := hreq s name hs
    simp only [runScript]
    split
    · rename_i v s1 heq
      rw [heq] at h1
      exact ih _ s1 h1
    · rename_i err s1 heq
      rw [heq] at h1
      exact ih _ s1 h1
    · rename_i code s1 heq
      rw [heq] at h1
      exact h1
  | windowQuit code k ih =>
    intro s hs
    have h1 := hquit s code hs
    simp only [runScript]
    split
    · rename_i v s1 heq
      rw [heq] at h1
      exact ih _ s1 h1
    · rename_i err s1 heq
      rw [heq] at h1
      exact ih _ s1 h1
    · rename_i c s1 heq
      rw [heq] at h1
      exact h1

theorem loadAndExecute_keeps_quitFlag {Φ : Type} (E : Engine)
    (req : Session Φ → Str → Outcome LuaValue × Session Φ)
    (quit : Session Φ → Int → Outcome Unit × Session Φ)
    (hreq : ∀ s n, s.host.quitCallbackActive = true → (req s n).2.host.quitCallbackActive = true)
    (hquit : ∀ s c, s.host.quitCallbackActive = true →
      (quit s c).2.host.quitCallbackActive = true)
    (s : Session Φ) (modStr chunk chunkname : Str) (hs : s.host.quitCallbackActive = true) :
    (loadAndExecute E req quit s modStr chunk chunkname).2.host.quitCallbackActive = true := by
  unfold loadAndExecute
  simp only
  split
  · exact hs
  · rename_i body _
    have h1 := runScript_keeps_quitFlag req quit hreq hquit body
      ((s.record (EngineEvent.compiled chunkname)).record (EngineEvent.executed chunkname)) hs
    split
    · rename_i heq; rw [heq] at h1; exact h1
    · rename_i heq; rw [heq] at h1; exact h1
    · rename_i heq; rw [heq] at h1; exact h1

/-- While the quit callback runs, every host function a script can reach keeps
the re-entrancy flag set, so each nested `invokeQuitCallback` finds it set. -/
theorem hostApi_keeps_quitFlag {Φ : Type} (E : Engine) (F : FileSystem Φ) (env : Env)
    (arch : FusedArchive) (depth : Nat) :
    (∀ (s : Session Φ) (n : Str), s.host.quitCallbackActive = true →
      ((hostApi E F env arch depth).require s n).2.host.quitCallbackActive = true) ∧
    (∀ (s : Session Φ) (c : Int), s.host.quitCallbackActive = true →
      ((hostApi E F env arch depth).windowQuit s c).2.host.quitCallbackActive = true) := by
  induction depth with
  | zero => exact ⟨fun s n hs => hs, fun s c hs => hs⟩
  | succ d ih =>
    obtain ⟨ihr, ihq⟩ := ih
    constructor
    · intro s n hs
      simp only [hostApi]
      unfold l_require
      split
      · exact hs
      · unfold resolveAndLoad
        simp only
        split
        · split
          · exact hs
          · split
            · exact hs
            · exact loadAndExecute_keeps_quitFlag E _ _ ihr ihq _ n _ _ hs
        · exact loadAndExecute_keeps_quitFlag E _ _ ihr ihq _ n _ _ hs
    · intro s c hs
      simp only [hostApi]
      unfold l_window_quit invokeQuitCallback
      simp [hs]

/-! ## Sandbox store: safe paths whose normal form has no root-name -/

theorem noSepSep_tail (t : Tok) (ts : List Tok) (h : noSepSep (t :: ts) = true) :
    noSepSep ts = true := by
  cases t with
  | name n => simpa [noSepSep] using h
  | sep =>
    cases ts with
    | nil => rfl
    | cons u us =>
      cases u with
      | sep => simp [noSepSep] at h
      | name m => simpa [noSepSep] using h

theorem noSepSep_sep_cons (ts : List Tok) (h : noSepSep (Tok.sep :: ts) = true) :
    startsWithSep ts = false := by
  cases ts with
  | nil => rfl
  | cons u us =>
    cases u with
    | sep => simp [noSepSep] at h
    | name m => rfl

theorem noSepSep_cons_of (t : Tok) (ts : List Tok) (h : noSepSep ts = true)
    (h2 : t = Tok.sep → startsWithSep ts = false) : noSepSep (t :: ts) = true := by
  cases t with
  | name n => simpa [noSepSep] using h
  | sep =>
    cases ts with
    | nil => rfl
    | cons u us =>
      cases u with
      | sep => simp [startsWithSep] at h2
      | name m => simpa [noSepSep] using h

theorem tokens_cons (pf : Platform) (c : Char) (cs : Str) :
    tokens pf (c :: cs) =
      if isSlash pf c then
        (if startsWithSep (tokens pf cs) then tokens pf cs else Tok.sep :: tokens pf cs)
      else
        match tokens pf cs with
        | Tok.name n :: rest => Tok.name (c :: n) :: rest
        | rest => Tok.name [c] :: rest := by
  by_cases hc : isSlash pf c = true
  · simp only [tokens, hc, if_true]
    cases hr : tokens pf cs with
    | nil => simp [startsWithSep]
    | cons u us =>
      cases u with
      | sep => simp [startsWithSep]
      | name m => simp [startsWithSep]
  · simp only [tokens, hc, Bool.false_eq_true, if_false]

theorem tokens_props (pf : Platform) (s : Str) :
    noSepSep (tokens pf s) = true ∧ properNames pf (tokens pf s) = true ∧
    (startsWithSep (tokens pf s) = true ↔ ∃ c cs, s = c :: cs ∧ isSlash pf c = true) := by
  induction s with
  | nil => simp [tokens, noSepSep, properNames, startsWithSep]
  | cons c cs ih =>
    obtain ⟨ih1, ih2, _⟩ := ih
    rw [tokens_cons]
    by_cases hc : isSlash pf c = true
    · simp only [hc, if_true]
      cases hr : tokens pf cs with
      | nil => simp [startsWithSep, noSepSep, properNames, hc]
      | cons u us =>
        rw [hr] at ih1 ih2
        cases u with
        | sep => simp [startsWithSep, hc, ih1, ih2]
        | name m =>
          simp only [startsWithSep, Bool.false_eq_true, if_false]
          refine ⟨by simpa [noSepSep] using ih1, by simpa [properNames] using ih2, ?_⟩
          simp [hc]
    · have hc2 : isSlash pf c = false := by simpa using hc
      simp only [hc2, Bool.false_eq_true, if_false]
      cases hr : tokens pf cs with
      | nil => simp [startsWithSep, noSepSep, properNames, hc2]
      | cons u us =>
        rw [hr] at ih1 ih2
        cases u with
        | sep =>
          refine ⟨by simpa [noSepSep] using ih1, ?_, by simp [startsWithSep, hc2]⟩
          simp only [properNames] at ih2 ⊢
          simp [hc2, ih2]
        | name m =>
          refine ⟨by simpa [noSepSep] using ih1, ?_, by simp [startsWithSep, hc2]⟩
          simp only [properNames, Bool.and_eq_true] at ih2 ⊢
          simp [hc2, ih2.1.2, ih2.2]


theorem removeDots_props (ts : List Tok) :
    ∀ skip : Bool, noSepSep ts = true →
      noSepSep (removeDots skip ts) = true ∧
      (startsWithSep (removeDots skip ts) = true → skip = false ∧ startsWithSep ts = true) := by
  induction ts with
  | nil => intro skip _; simp [removeDots, noSepSep, startsWithSep]
  | cons t rest ih =>
    intro skip h
    have hrest := noSepSep_tail t rest h
    cases t with
    | sep =>
      have hns := noSepSep_sep_cons rest h
      obtain ⟨i1, i2⟩ := ih false hrest
      have hnot : startsWithSep (removeDots false rest) = false := by
        cases hx : startsWithSep (removeDots false rest)
        · rfl
        · rw [(i2 hx).2] at hns; exact Bool.noConfusion hns
      cases skip with
      | true =>
        simp only [removeDots, if_true]
        exact ⟨i1, fun hx => by rw [hnot] at hx; exact Bool.noConfusion hx⟩
      | false =>
        simp only [removeDots, Bool.false_eq_true, if_false]
        exact ⟨noSepSep_cons_of _ _ i1 (fun _ => hnot), by simp [startsWithSep]⟩
    | name n =>
      by_cases hd : (n == dot) = true
      · simp only [removeDots, hd, if_true]
        obtain ⟨i1, i2⟩ := ih true hrest
        exact ⟨i1, fun hx => Bool.noConfusion (i2 hx).1⟩
      · simp only [removeDots, hd, if_false]
        obtain ⟨i1, _⟩ := ih false hrest
        exact ⟨by simpa [noSepSep] using i1, fun hx => by simp [startsWithSep] at hx⟩

theorem startsWithSep_append (xs ys : List Tok) (hx : xs ≠ []) :
    startsWithSep (xs ++ ys) = startsWithSep xs := by
  cases xs with
  | nil => exact absurd rfl hx
  | cons t ts => cases t <;> rfl

theorem collapseDotDots_head (rest : List Tok) :
    ∀ (out : List Tok) (skip : Bool), noSepSep rest = true →
      (out = [] → skip = false → startsWithSep rest = false) →
      (out ≠ [] → startsWithSep out.reverse = false) →
      startsWithSep (collapseDotDots out skip rest) = false := by
  induction rest with
  | nil =>
    intro out skip _ _ h3
    simp only [collapseDotDots]
    by_cases ho : out = []
    · rw [ho]; rfl
    · exact h3 ho
  | cons t rest ih =>
    intro out skip h1 h2 h3
    have hrest := noSepSep_tail t rest h1
    cases t with
    | sep =>
      have hns := noSepSep_sep_cons rest h1
      cases skip with
      | true =>
        simp only [collapseDotDots, if_true]
        exact ih out false hrest (fun _ _ => hns) h3
      | false =>
        simp only [collapseDotDots, Bool.false_eq_true, if_false]
        have ho : out ≠ [] := by
          intro ho
          have := h2 ho rfl
          simp [startsWithSep] at this
        refine ih (Tok.sep :: out) false hrest (fun hx => by simp at hx) (fun _ => ?_)
        rw [List.reverse_cons, startsWithSep_append _ _ (by simpa using ho)]
        exact h3 ho
    | name n =>
      have push : startsWithSep (collapseDotDots (Tok.name n :: out) false rest) = false := by
        refine ih (Tok.name n :: out) false hrest (fun hx => by simp at hx) (fun _ => ?_)
        rw [List.reverse_cons]
        by_cases ho : out = []
        · rw [ho]; rfl
        · rw [startsWithSep_append _ _ (by simpa using ho)]
          exact h3 ho
      by_cases hd : (n == dotDot) = true
      · simp only [collapseDotDots, hd, if_true]
        split
        · rename_i m out2
          by_cases hm : (m == dotDot) = true
          · simp only [hm, if_true]; exact push
          · simp only [hm, if_false]
            refine ih out2 true hrest (fun _ hx => Bool.noConfusion hx) (fun ho2 => ?_)
            have h4 := h3 (by simp)
            rw [List.reverse_cons, List.reverse_cons, List.append_assoc,
              startsWithSep_append _ _ (by simpa using ho2)] at h4
            exact h4
        · exact push
      · simp only [collapseDotDots, hd, if_false]
        exact push


theorem removeDots_sublist (ts : List Tok) : ∀ skip : Bool, (removeDots skip ts).Sublist ts := by
  induction ts with
  | nil => intro skip; simp [removeDots]
  | cons t rest ih =>
    intro skip
    cases t with
    | sep =>
      cases skip with
      | true => simp only [removeDots, if_true]; exact (ih false).cons _
      | false =>
        simp only [removeDots, Bool.false_eq_true, if_false]; exact (ih false).cons₂ _
    | name n =>
      by_cases hd : (n == dot) = true
      · simp only [removeDots, hd, if_true]; exact (ih true).cons _
      · simp only [removeDots, hd, if_false]; exact (ih false).cons₂ _

theorem collapseDotDots_sublist (rest : List Tok) :
    ∀ (out : List Tok) (skip : Bool),
      (collapseDotDots out skip rest).Sublist (out.reverse ++ rest) := by
  induction rest with
  | nil => intro out skip; simp [collapseDotDots]
  | cons t rest ih =>
    intro out skip
    have push : ∀ skip2 : Bool,
        (collapseDotDots (t :: out) skip2 rest).Sublist (out.reverse ++ t :: rest) := by
      intro skip2
      have := ih (t :: out) skip2
      simpa [List.reverse_cons, List.append_assoc] using this
    have drop : ∀ skip2 : Bool,
        (collapseDotDots out skip2 rest).Sublist (out.reverse ++ t :: rest) := by
      intro skip2
      exact (ih out skip2).trans
        (List.Sublist.append_left (List.sublist_cons_self t rest) _)
    cases t with
    | sep =>
      cases skip with
      | true => simp only [collapseDotDots, if_true]; exact drop false
      | false => simp only [collapseDotDots, Bool.false_eq_true, if_false]; exact push false
    | name n =>
      by_cases hd : (n == dotDot) = true
      · simp only [collapseDotDots, hd, if_true]
        split
        · rename_i m out2
          by_cases hm : (m == dotDot) = true
          · simp only [hm, if_true]; exact push false
          · simp only [hm, if_false]
            refine (ih out2 true).trans ?_
            simp only [List.reverse_cons, List.append_assoc]
            exact List.Sublist.append_left
              (((List.sublist_cons_self _ _).trans (List.sublist_cons_self _ _)).trans
                (List.sublist_cons_self _ _)) _
        · exact push false
      · simp only [collapseDotDots, hd, if_false]; exact push false

theorem dropSepAfterLastDotDot_sublist (ts : List Tok) :
    (dropSepAfterLastDotDot ts).Sublist ts := by
  unfold dropSepAfterLastDotDot
  split
  · split
    · exact List.dropLast_sublist ts
    · exact List.Sublist.refl ts
  · exact List.Sublist.refl ts

theorem dropSepAfterLastDotDot_head (ts : List Tok) :
    startsWithSep (dropSepAfterLastDotDot ts) = startsWithSep ts := by
  unfold dropSepAfterLastDotDot
  split
  · rename_i n r heq
    split
    · cases ts with
      | nil => simp at heq
      | cons a as =>
        cases as with
        | nil => simp at heq
        | cons b bs => cases a <;> simp [List.dropLast, startsWithSep]
    · rfl
  · rfl

theorem properNames_sublist (pf : Platform) (xs ys : List Tok) (h : xs.Sublist ys)
    (hy : properNames pf ys = true) : properNames pf xs = true := by
  induction h with
  | slnil => rfl
  | cons a _ ih =>
    apply ih
    cases a with
    | sep => simpa [properNames] using hy
    | name n =>
      simp only [properNames, Bool.and_eq_true] at hy
      exact hy.2
  | cons₂ a _ ih =>
    cases a with
    | sep => simp only [properNames] at hy ⊢; exact ih hy
    | name n =>
      simp only [properNames, Bool.and_eq_true] at hy ⊢
      exact ⟨hy.1, ih hy.2⟩

/-- The normal form of a relative sequence of pieces is again relative, and its
filenames are filenames of the input. -/
theorem normalTokens_props (pf : Platform) (ts : List Tok) (h1 : noSepSep ts = true)
    (h2 : startsWithSep ts = false) (h3 : properNames pf ts = true) :
    startsWithSep (normalTokens ts) = false ∧ properNames pf (normalTokens ts) = true ∧
    (normalTokens ts).Sublist ts := by
  have r := removeDots_props ts false h1
  have r2 : startsWithSep (removeDots false ts) = false := by
    cases hx : startsWithSep (removeDots false ts)
    · rfl
    · rw [(r.2 hx).2] at h2; exact Bool.noConfusion h2
  have c := collapseDotDots_head (removeDots false ts) [] false r.1 (fun _ _ => r2)
    (fun hx => absurd rfl hx)
  have cs : (collapseDotDots [] false (removeDots false ts)).Sublist ts := by
    have := collapseDotDots_sublist (removeDots false ts) [] false
    simp only [List.reverse_nil, List.nil_append] at this
    exact this.trans (removeDots_sublist ts false)
  have hn : normalTokens ts =
      dropSepAfterLastDotDot (collapseDotDots [] false (removeDots false ts)) := by
    unfold normalTokens
    simp only
    split
    · rename_i heq
      rw [heq] at c
      simp [startsWithSep] at c
    · rfl
  rw [hn, dropSepAfterLastDotDot_head]
  have hs := (dropSepAfterLastDotDot_sublist _).trans cs
  exact ⟨c, properNames_sublist pf _ _ hs h3, hs⟩


theorem rootNameEnd_of_relative (pf : Platform) (c : Char) (cs : Str)
    (h0 : c ≠ '/') (h0b : c ≠ '\\') (h1 : (c :: cs)[1]? ≠ some ':') :
    rootNameEnd pf (c :: cs) = 0 := by
  cases pf with
  | posix => rfl
  | windows =>
    unfold rootNameEnd
    simp only
    split
    · rfl
    · have hd : hasDriveLetter (c :: cs) = false := by
        cases cs with
        | nil => rfl
        | cons d ds =>
          have : d ≠ ':' := by simpa using h1
          simp [hasDriveLetter, this]
      have hs : isSlash Platform.windows c = false := by
        simp [isSlash, h0, h0b]
      simp [hd, hs]

theorem flatten_head (pf : Platform) (ts : List Tok) (h1 : startsWithSep ts = false)
    (h2 : properNames pf ts = true) (h3 : ts ≠ []) :
    ∃ c rest, flatten pf ts = c :: rest ∧ isSlash pf c = false := by
  cases ts with
  | nil => exact absurd rfl h3
  | cons t rest =>
    cases t with
    | sep => simp [startsWithSep] at h1
    | name n =>
      cases n with
      | nil => simp [properNames] at h2
      | cons c cs =>
        refine ⟨c, cs ++ flatten pf rest, rfl, ?_⟩
        simp only [properNames, Bool.and_eq_true, List.all_cons] at h2
        simpa using h2.1.2.1

theorem flatten_eq_nil (pf : Platform) (ts : List Tok) (h2 : properNames pf ts = true)
    (h : flatten pf ts = []) : ts = [] := by
  cases ts with
  | nil => rfl
  | cons t rest =>
    cases t with
    | sep => simp [flatten] at h
    | name n =>
      cases n with
      | nil => simp [properNames] at h2
      | cons c cs => simp [flatten] at h

/-- The normal form of a non-empty path that starts with neither a slash nor a
drive designator is non-empty and does not start with a separator. -/
theorem lexically_normal_relative (pf : Platform) (c : Char) (cs : Str)
    (h0 : c ≠ '/') (h0b : c ≠ '\\') (h1 : (c :: cs)[1]? ≠ some ':') :
    ∃ d ds, lexically_normal pf (c :: cs) = d :: ds ∧ isSlash pf d = false := by
  have hr := rootNameEnd_of_relative pf c cs h0 h0b h1
  obtain ⟨t1, t2, t3⟩ := tokens_props pf (c :: cs)
  have hc : isSlash pf c = false := by
    cases pf <;> simp [isSlash, h0, h0b]
  have t4 : startsWithSep (tokens pf (c :: cs)) = false := by
    cases hx : startsWithSep (tokens pf (c :: cs))
    · rfl
    · obtain ⟨c2, cs2, e, hs⟩ := t3.mp hx
      simp only [List.cons.injEq] at e
      rw [← e.1, hc] at hs
      exact Bool.noConfusion hs
  obtain ⟨n1, n2, _⟩ := normalTokens_props pf _ t1 t4 t2
  unfold lexically_normal
  simp only [List.isEmpty_cons, Bool.false_eq_true, if_false, hr, List.take_zero, List.map_nil,
    List.nil_append, List.drop_zero]
  by_cases he : normalTokens (tokens pf (c :: cs)) = []
  · rw [he]
    refine ⟨'.', [], by simp [flatten, dot], ?_⟩
    cases pf <;> decide
  · obtain ⟨d, ds, hfl, hd⟩ := flatten_head pf _ n1 n2 he
    rw [hfl]
    exact ⟨d, ds, by simp, hd⟩


theorem is_absolute_of_relative (pf : Platform) (d : Char) (ds : Str)
    (hd : isSlash pf d = false) (hroot : rootNameEnd pf (d :: ds) = 0) :
    is_absolute pf (d :: ds) = false := by
  cases pf with
  | posix => simpa [is_absolute, isSlash] using hd
  | windows =>
    have hdl : hasDriveLetter (d :: ds) = false := by
      cases hx : hasDriveLetter (d :: ds)
      · rfl
      · exfalso
        cases ds with
        | nil => simp [hasDriveLetter] at hx
        | cons e es =>
          unfold rootNameEnd at hroot
          simp [hx] at hroot
    unfold is_absolute
    simp [hdl, hroot]

/-- Where a safe path goes when its normal form has no root-name (as is always
the case on POSIX): the resolved location is the save directory, one separator,
and the normal form of the path, which starts with a filename and has no `..`
component. -/
theorem resolveSavePath_beneath (pf : Platform) (saveDir p : Str)
    (hsafe : isPathSafe pf p = true) (hp : p ≠ [])
    (hroot : rootNameEnd pf (lexically_normal pf p) = 0)
    (hs1 : rootNameEnd pf saveDir ≠ saveDir.length)
    (hs2 : isSlash pf (saveDir.getLastD ' ') = false) :
    resolveSavePath pf saveDir p = saveDir ++ preferredSeparator pf :: lexically_normal pf p ∧
    dotDot ∉ pathElements pf (lexically_normal pf p) ∧
    (∃ d ds, lexically_normal pf p = d :: ds ∧ isSlash pf d = false) := by
  have hnot : ¬ (is_absolute pf p = true ∨ p[1]? = some ':' ∨ p[0]? = some '/' ∨
      p[0]? = some '\\' ∨ dotDot ∈ pathElements pf (lexically_normal pf p)) := by
    intro h
    have := (isPathSafe_eq_false_iff pf p hp).mpr h
    rw [hsafe] at this
    exact Bool.noConfusion this
  simp only [not_or] at hnot
  obtain ⟨_, g1, g2, g3, g4⟩ := hnot
  cases p with
  | nil => exact absurd rfl hp
  | cons c cs =>
    have h0 : c ≠ '/' := by simpa using g2
    have h0b : c ≠ '\\' := by simpa using g3
    obtain ⟨d, ds, hq, hd⟩ := lexically_normal_relative pf c cs h0 h0b g1
    refine ⟨?_, g4, d, ds, hq, hd⟩
    rw [hq] at hroot
    have habs := is_absolute_of_relative pf d ds hd hroot
    unfold resolveSavePath
    simp only [hsafe, Bool.not_true, Bool.false_eq_true, if_false, List.isEmpty_cons]
    rw [hq]
    unfold pathAppend
    simp only [habs, Bool.false_eq_true, if_false, hroot]
    have e1 : ((0 : Nat) != 0) = false := rfl
    have e3 : (rootNameEnd pf saveDir == saveDir.length) = false := by
      simpa using hs1
    have hs3 : isSlash pf ((saveDir.getLast?).getD ' ') = false := by simpa using hs2
    simp [hd, e3, hs3]

/-- On POSIX every non-empty path that `isPathSafe` accepts resolves to the save
directory followed by a separator and the path's normal form. -/
theorem resolveSavePath_beneath_posix (saveDir p : Str)
    (hsafe : isPathSafe Platform.posix p = true) (hp : p ≠ [])
    (hs1 : saveDir ≠ []) (hs2 : saveDir.getLastD ' ' ≠ '/') :
    resolveSavePath Platform.posix saveDir p = saveDir ++ '/' :: lexically_normal Platform.posix p ∧
    dotDot ∉ pathElements Platform.posix (lexically_normal Platform.posix p) ∧
    (∃ d ds, lexically_normal Platform.posix p = d :: ds ∧ d ≠ '/') := by
  have h := resolveSavePath_beneath Platform.posix saveDir p hsafe hp rfl
    (by
      intro h
      apply hs1
      exact List.length_eq_zero.mp h.symm)
    (by simpa [isSlash] using hs2)
  obtain ⟨a, b, d, ds, e, f⟩ := h
  exact ⟨a, b, d, ds, e, by simpa [isSlash] using f⟩

/-! ## Profiler: start -/

theorem lookup_sectionSet (m : List (Str × Rat)) (id k : Str) (v : Rat) :
    (sectionSet m id v).lookup k = if k = id then some v else m.lookup k := by
  induction m with
  | nil =>
    by_cases hk : k = id
    · simp [sectionSet, List.lookup, hk]
    · have hb : (k == id) = false := by simpa using hk
      simp [sectionSet, List.lookup, hk, hb]
  | cons e rest ih =>
    obtain ⟨k0, old⟩ := e
    by_cases h0 : k0 = id
    · subst h0
      by_cases hk : k = k0
      · simp [sectionSet, List.lookup, hk]
      · have hb : (k == k0) = false := by simpa using hk
        simp [sectionSet, List.lookup, hk, hb]
    · by_cases hk : k = k0
      · subst hk
        simp [sectionSet, List.lookup, h0]
      · simp only [sectionSet, beq_iff_eq, h0, if_false, List.lookup]
        have : (k == k0) = false := by simpa using hk
        rw [this]
        exact ih

theorem lookup_sectionAdd (m : List (Str × Rat)) (id k : Str) (d : Rat) :
    (sectionAdd m id d).lookup k =
      if k = id then some ((m.lookup id).getD 0 + d) else m.lookup k := by
  unfold sectionAdd
  exact lookup_sectionSet m id k _

/-- What stopping does to the accumulators of a host with an active section. -/
theorem profilerStopCurrentSection_active (h : LuaHost) (now : Rat)
    (ha : h.profilerActiveSection ≠ []) :
    (profilerStopCurrentSection h now).profilerActiveSection = [] ∧
    (profilerStopCurrentSection h now).profilerSectionStart = 0 ∧
    ∀ k, (profilerStopCurrentSection h now).profilerSections.lookup k =
      if k = h.profilerActiveSection then
        some ((h.profilerSections.lookup k).getD 0 + (now - h.profilerSectionStart))
      else h.profilerSections.lookup k := by
  have he : h.profilerActiveSection.isEmpty = false := by
    cases hx : h.profilerActiveSection with
    | nil => exact absurd hx ha
    | cons c cs => rfl
  unfold profilerStopCurrentSection
  simp only [he, Bool.false_eq_true, if_false]
  refine ⟨trivial, trivial, ?_⟩
  intro k
  rw [lookup_sectionAdd]
  by_cases hk : k = h.profilerActiveSection
  · simp [hk]
  · simp [hk]

theorem profilerStopCurrentSection_idle (h : LuaHost) (now : Rat)
    (ha : h.profilerActiveSection = []) : profilerStopCurrentSection h now = h := by
  unfold profilerStopCurrentSection
  simp [ha]

/-- What `start` with a non-empty string does, in terms of the host after the
stop of the current section. -/
theorem l_profiler_start_string (h : LuaHost) (id : Str) (t1 t2 : Rat) (hid : id ≠ []) :
    (l_profiler_start h (LuaValue.string id) t1 t2).1 = Outcome.returned () ∧
    (l_profiler_start h (LuaValue.string id) t1 t2).2.profilerActiveSection = id ∧
    (l_profiler_start h (LuaValue.string id) t1 t2).2.profilerSectionStart = t2 ∧
    ∀ k, (l_profiler_start h (LuaValue.string id) t1 t2).2.profilerSections.lookup k =
      if k = id then some (((profilerStopCurrentSection h t1).profilerSections.lookup id).getD 0)
      else (profilerStopCurrentSection h t1).profilerSections.lookup k := by
  have he : id.isEmpty = false := by
    cases id with
    | nil => exact absurd rfl hid
    | cons c cs => rfl
  have hn : (LuaValue.string id == LuaValue.nil) = false := by simp
  unfold l_profiler_start
  simp only [hn, Bool.false_eq_true, if_false, checkString, he]
  refine ⟨trivial, trivial, trivial, ?_⟩
  intro k
  cases hl : (profilerStopCurrentSection h t1).profilerSections.lookup id with
  | none =>
    simp only [Option.isNone_none, if_true, lookup_sectionSet, Option.getD_none]
  | some v =>
    simp only [Option.isNone_some, Bool.false_eq_true, if_false, Option.getD_some]
    by_cases hk : k = id
    · simp [hk, hl]
    · simp [hk]


/-- C11: with `t` the clock value at the call, `start(id)` for a non-empty `id`
returns normally and makes `id` the active section with start time `t`; when a
section `a` has been active since `s` it adds `t - s` to the accumulator of `a`,
gives `id` an accumulator of 0 if it was unknown, and leaves every other
accumulator as it was; when no section is active only `id` is touched. -/
theorem profiler_start_effect (h : LuaHost) (id : Str) (t : Rat) (hid : id ≠ []) :
    (l_profiler_start h (LuaValue.string id) t t).1 = Outcome.returned () ∧
    (l_profiler_start h (LuaValue.string id) t t).2.profilerActiveSection = id ∧
    (l_profiler_start h (LuaValue.string id) t t).2.profilerSectionStart = t ∧
    (h.profilerActiveSection ≠ [] → ∀ k,
      (l_profiler_start h (LuaValue.string id) t t).2.profilerSections.lookup k =
        if k = h.profilerActiveSection then
          some ((h.profilerSections.lookup k).getD 0 + (t - h.profilerSectionStart))
        else if k = id then some ((h.profilerSections.lookup id).getD 0)
        else h.profilerSections.lookup k) ∧
    (h.profilerActiveSection = [] → ∀ k,
      (l_profiler_start h (LuaValue.string id) t t).2.profilerSections.lookup k =
        if k = id then some ((h.profilerSections.lookup id).getD 0)
        else h.profilerSections.lookup k) := by
  obtain ⟨r1, r2, r3, r4⟩ := l_profiler_start_string h id t t hid
  refine ⟨r1, r2, r3, ?_, ?_⟩
  · intro ha k
    obtain ⟨_, _, s3⟩ := profilerStopCurrentSection_active h t ha
    rw [r4 k, s3 id, s3 k]
    by_cases hk : k = h.profilerActiveSection
    · by_cases hi : k = id
      · subst hi
        simp [hk]
      · have hai : ¬ h.profilerActiveSection = id := fun e => hi (hk.trans e)
        simp [hk, hai]
    · by_cases hi : k = id
      · subst hi
        simp [hk]
      · simp [hk, hi]
  · intro ha k
    rw [r4 k, profilerStopCurrentSection_idle h t ha]

/-- Witness for `profiler_start_effect`: `start("b")` at time 3 while `a` has
been active since time 1. -/
theorem profiler_start_effect_witness :
    (l_profiler_start profilingHost (LuaValue.string "b".toList) 3 3).2.profilerActiveSection
      = "b".toList ∧
    (l_profiler_start profilingHost (LuaValue.string "b".toList) 3 3).2.profilerSections.lookup
      "a".toList = some (2 + (3 - 1)) :=
  ⟨(profiler_start_effect profilingHost "b".toList 3 (by decide)).2.1,
   ((profiler_start_effect profilingHost "b".toList 3 (by decide)).2.2.2.1 (by decide)
     "a".toList).trans (by simp [profilingHost, List.lookup])⟩

/-! ## Profiler: get -/

/-- C12: `get(id)` leaves the host, and with it every accumulator, the active id
and the start timestamp, exactly as it was and creates no entry; it returns 0
for an unknown id, the stored accumulator for a known id that is not the active
one, and stored + (now - start) when the id is the active one. -/
theorem profiler_get_pure (h : LuaHost) (id : Str) (now : Rat) :
    (l_profiler_get h id now).2 = h ∧
    (h.profilerSections.lookup id = none → (l_profiler_get h id now).1 = 0) ∧
    (∀ stored, h.profilerSections.lookup id = some stored → h.profilerActiveSection ≠ id →
      (l_profiler_get h id now).1 = stored) ∧
    (∀ stored, h.profilerSections.lookup id = some stored → h.profilerActiveSection = id →
      (l_profiler_get h id now).1 = stored + (now - h.profilerSectionStart)) := by
  unfold l_profiler_get
  refine ⟨?_, ?_, ?_, ?_⟩
  · split
    · rfl
    · split <;> rfl
  · intro hn
    rw [hn]
  · intro stored hs hne
    rw [hs]
    have : (h.profilerActiveSection == id) = false := by simpa using hne
    simp [this]
  · intro stored hs he
    rw [hs]
    simp [he]

/-- Witness for `profiler_get_pure`: reading the active section `a` of
`profilingHost` at time 4. -/
theorem profiler_get_pure_witness :
    (l_profiler_get profilingHost "a".toList 4).1 = 2 + (4 - 1) ∧
    (l_profiler_get profilingHost "zz".toList 4).1 = 0 :=
  ⟨(profiler_get_pure profilingHost "a".toList 4).2.2.2 2 (by simp [profilingHost, List.lookup]) rfl,
   (profiler_get_pure profilingHost "zz".toList 4).2.1 (by simp [profilingHost, List.lookup])⟩

/-! ## Profiler: accounting -/

theorem sectionsTotal_sectionSet (m : List (Str × Rat)) (id : Str) (v : Rat) :
    sectionsTotal (sectionSet m id v) = sectionsTotal m - (m.lookup id).getD 0 + v := by
  induction m with
  | nil => simp [sectionSet, sectionsTotal, List.lookup]
  | cons e rest ih =>
    obtain ⟨k, old⟩ := e
    by_cases hk : k = id
    · subst hk
      simp [sectionSet, sectionsTotal, List.lookup]
      ring
    · have hb : (id == k) = false := by simpa using (fun e : id = k => hk e.symm)
      simp only [sectionSet, beq_iff_eq, hk, if_false, List.lookup, hb]
      simp only [sectionsTotal, List.map_cons, List.sum_cons] at ih ⊢
      rw [ih]
      ring

theorem sectionsTotal_sectionAdd (m : List (Str × Rat)) (id : Str) (d : Rat) :
    sectionsTotal (sectionAdd m id d) = sectionsTotal m + d := by
  unfold sectionAdd
  rw [sectionsTotal_sectionSet]
  ring

/-- Stopping adds the time since the active section started, if one is active,
to the sum of the accumulators, and leaves no section active. -/
theorem profilerStopCurrentSection_total (h : LuaHost) (now : Rat) :
    sectionsTotal (profilerStopCurrentSection h now).profilerSections =
      sectionsTotal h.profilerSections +
        (match profilerSince h with
          | some s => now - s
          | none => 0) ∧
    (profilerStopCurrentSection h now).profilerActiveSection = [] := by
  unfold profilerStopCurrentSection profilerSince
  cases he : h.profilerActiveSection.isEmpty
  · simp only [Bool.false_eq_true, if_false]
    exact ⟨sectionsTotal_sectionAdd _ _ _, trivial⟩
  · simp only [if_true]
    exact ⟨by simp, by simpa using he⟩

theorem profilerStep_total (h : LuaHost) (c : ProfilerCall) (rest : List ProfilerCall) :
    sectionsTotal (profilerStep h c).profilerSections + activeTime (profilerSince (profilerStep h c)) rest
      = sectionsTotal h.profilerSections + activeTime (profilerSince h) (c :: rest) := by
  obtain ⟨⟩ := c
  · rename_i id now
    obtain ⟨s1, s2⟩ := profilerStopCurrentSection_total h now
    simp only [profilerStep, activeTime]
    by_cases hid : id = []
    · subst hid
      have hstep : (l_profiler_start h (LuaValue.string []) now now).2 =
          profilerStopCurrentSection h now := by
        simp [l_profiler_start, checkString]
      rw [hstep, s1]
      have : profilerSince (profilerStopCurrentSection h now) = none := by
        simp [profilerSince, s2]
      rw [this]
      simp only [List.isEmpty_nil, if_true]
      ring
    · obtain ⟨_, r2, r3, r4⟩ := l_profiler_start_string h id now now hid
      have he : id.isEmpty = false := by
        cases id with
        | nil => exact absurd rfl hid
        | cons c cs => rfl
      have hsince : profilerSince (l_profiler_start h (LuaValue.string id) now now).2 = some now := by
        simp [profilerSince, r2, r3, he]
      have htotal : sectionsTotal (l_profiler_start h (LuaValue.string id) now now).2.profilerSections
          = sectionsTotal (profilerStopCurrentSection h now).profilerSections := by
        have hn : (LuaValue.string id == LuaValue.nil) = false := by simp
        unfold l_profiler_start
        simp only [hn, Bool.false_eq_true, if_false, checkString, he]
        cases hl : (profilerStopCurrentSection h now).profilerSections.lookup id with
        | none =>
          simp only [Option.isNone_none, if_true]
          rw [sectionsTotal_sectionSet, hl]
          simp
        | some v => simp
      rw [hsince, htotal, s1]
      simp only [he, Bool.false_eq_true, if_false]
      ring
  · rename_i now
    obtain ⟨s1, s2⟩ := profilerStopCurrentSection_total h now
    simp only [profilerStep, activeTime, l_profiler_stop]
    rw [s1]
    have : profilerSince (profilerStopCurrentSection h now) = none := by
      simp [profilerSince, s2]
    rw [this]
    ring

theorem profilerRun_total (calls : List ProfilerCall) :
    ∀ h : LuaHost, sectionsTotal (profilerRun h calls).profilerSections =
      sectionsTotal h.profilerSections + activeTime (profilerSince h) calls := by
  induction calls with
  | nil => intro h; simp [profilerRun, activeTime]
  | cons c rest ih =>
    intro h
    have h1 := ih (profilerStep h c)
    have h2 := profilerStep_total h c rest
    simp only [profilerRun, List.foldl_cons] at h1 ⊢
    rw [h1]
    have h3 : activeTime (profilerSince (profilerStep h c)) [] = 0 := by
      cases profilerSince (profilerStep h c) <;> rfl
    linarith


/-- The profiler after `start("a")`, `start("b")`, `stop()` on an empty one. -/
theorem profilerRun_a_b (h : LuaHost) (hs : h.profilerSections = [])
    (ha : h.profilerActiveSection = []) (t0 t1 t2 : Rat) :
    (profilerRun h [ProfilerCall.start ['a'] t0, ProfilerCall.start ['b'] t1,
      ProfilerCall.stop t2]).profilerSections = [(['a'], 0 + (t1 - t0)), (['b'], 0 + (t2 - t1))] ∧
    (profilerRun h [ProfilerCall.start ['a'] t0, ProfilerCall.start ['b'] t1,
      ProfilerCall.stop t2]).profilerActiveSection = [] := by
  simp [profilerRun, profilerStep, l_profiler_start, checkString, profilerStopCurrentSection,
    sectionAdd, sectionSet, l_profiler_stop, List.lookup, hs, ha]

/-- C13: with exact timestamps and starting from an empty profiler, after
`start("a")` at `t0`, `start("b")` at `t1` and `stop()` at `t2`, `get("a")` is
`t1 - t0`, `get("b")` is `t2 - t1` and their sum is `t2 - t0`; and after every
sequence of `start` and `stop` calls the sum of all accumulators is the total
time during which some section was active. -/
theorem profiler_accounting (h : LuaHost) (hs : h.profilerSections = [])
    (ha : h.profilerActiveSection = []) :
    (∀ t0 t1 t2 later : Rat,
      (l_profiler_get (profilerRun h [ProfilerCall.start "a".toList t0,
        ProfilerCall.start "b".toList t1, ProfilerCall.stop t2]) "a".toList later).1 = t1 - t0 ∧
      (l_profiler_get (profilerRun h [ProfilerCall.start "a".toList t0,
        ProfilerCall.start "b".toList t1, ProfilerCall.stop t2]) "b".toList later).1 = t2 - t1 ∧
      (l_profiler_get (profilerRun h [ProfilerCall.start "a".toList t0,
        ProfilerCall.start "b".toList t1, ProfilerCall.stop t2]) "a".toList later).1 +
      (l_profiler_get (profilerRun h [ProfilerCall.start "a".toList t0,
        ProfilerCall.start "b".toList t1, ProfilerCall.stop t2]) "b".toList later).1 = t2 - t0) ∧
    (∀ calls : List ProfilerCall,
      sectionsTotal (profilerRun h calls).profilerSections = activeTime none calls) := by
  constructor
  · intro t0 t1 t2 later
    have ea : "a".toList = ['a'] := rfl
    have eb : "b".toList = ['b'] := rfl
    rw [ea, eb]
    obtain ⟨p1, p2⟩ := profilerRun_a_b h hs ha t0 t1 t2
    have ga : (l_profiler_get (profilerRun h [ProfilerCall.start ['a'] t0,
        ProfilerCall.start ['b'] t1, ProfilerCall.stop t2]) ['a'] later).1 = t1 - t0 := by
      unfold l_profiler_get
      rw [p1, p2]
      simp [List.lookup]
    have gb : (l_profiler_get (profilerRun h [ProfilerCall.start ['a'] t0,
        ProfilerCall.start ['b'] t1, ProfilerCall.stop t2]) ['b'] later).1 = t2 - t1 := by
      unfold l_profiler_get
      rw [p1, p2]
      simp [List.lookup]
    refine ⟨ga, gb, ?_⟩
    rw [ga, gb]
    ring
  · intro calls
    rw [profilerRun_total calls h, hs]
    simp [sectionsTotal, profilerSince, ha]

/-- Witness for `profiler_accounting`: the sequence run on `idleHost` with the
timestamps 10, 10.05 and 10.1 seconds. -/
theorem profiler_accounting_witness :
    (l_profiler_get (profilerRun idleHost [ProfilerCall.start "a".toList 10,
      ProfilerCall.start "b".toList (201 / 20), ProfilerCall.stop (101 / 10)])
      "a".toList 11).1 = 201 / 20 - 10 :=
  ((profiler_accounting idleHost rfl rfl).1 10 (201 / 20) (101 / 10) 11).1

/-! ## Profiler: reset -/

theorem lookup_map_zero (m : List (Str × Rat)) (k : Str) :
    (m.map (fun pair => (pair.1, (0 : Rat)))).lookup k = (m.lookup k).map (fun _ => 0) := by
  induction m with
  | nil => rfl
  | cons e rest ih =>
    obtain ⟨k0, v⟩ := e
    simp only [List.map_cons, List.lookup]
    cases hb : k == k0
    · simpa using ih
    · rfl

theorem profiler_reset_effect_aux (h : LuaHost) (t : Rat) :
    (l_profiler_reset h t).profilerSections.map (fun pair => pair.1)
      = h.profilerSections.map (fun pair => pair.1) ∧
    (l_profiler_reset h t).profilerActiveSection = h.profilerActiveSection ∧
    (∀ pair ∈ (l_profiler_reset h t).profilerSections, pair.2 = 0) ∧
    (h.profilerActiveSection ≠ [] → (l_profiler_reset h t).profilerSectionStart = t) ∧
    (profilerInv h = true → ∀ (id : Str) (later : Rat),
      (l_profiler_get (l_profiler_reset h t) id later).1 =
        if id = h.profilerActiveSection ∧ h.profilerActiveSection ≠ [] then later - t else 0) := by
  have hsec : (l_profiler_reset h t).profilerSections =
      h.profilerSections.map (fun pair => (pair.1, (0 : Rat))) := by
    unfold l_profiler_reset
    simp only
    split <;> rfl
  have hact : (l_profiler_reset h t).profilerActiveSection = h.profilerActiveSection := by
    unfold l_profiler_reset
    simp only
    split <;> rfl
  have hstart : h.profilerActiveSection ≠ [] → (l_profiler_reset h t).profilerSectionStart = t := by
    intro ha
    have he : h.profilerActiveSection.isEmpty = false := by
      cases hx : h.profilerActiveSection with
      | nil => exact absurd hx ha
      | cons c cs => rfl
    unfold l_profiler_reset
    simp [he]
  refine ⟨?_, hact, ?_, hstart, ?_⟩
  · rw [hsec]
    simp [List.map_map, Function.comp]
  · intro pair hp
    rw [hsec] at hp
    obtain ⟨q, _, hq⟩ := List.mem_map.mp hp
    rw [← hq]
  · intro hinv id later
    unfold profilerInv at hinv
    simp only [Bool.and_eq_true, Bool.or_eq_true, Option.isNone_iff_eq_none,
      List.isEmpty_iff] at hinv
    obtain ⟨hnil, hkey⟩ := hinv
    unfold l_profiler_get
    rw [hsec, lookup_map_zero, hact]
    cases hl : h.profilerSections.lookup id with
    | none =>
      simp only [Option.map_none']
      have : ¬ (id = h.profilerActiveSection ∧ h.profilerActiveSection ≠ []) := by
        rintro ⟨e, ne⟩
        rcases hkey with hk | hk
        · exact ne hk
        · rw [← e, hl] at hk
          simp at hk
      simp [this]
    | some v =>
      simp only [Option.map_some']
      by_cases he : h.profilerActiveSection = id
      · have hne : h.profilerActiveSection ≠ [] := by
          intro e0
          rw [← he, e0, hnil] at hl
          exact Option.noConfusion hl
        simp only [he, beq_self_eq_true, if_true]
        rw [hstart hne]
        have : (id = id ∧ id ≠ []) := ⟨rfl, he ▸ hne⟩
        simp [this]
      · have hb : (h.profilerActiveSection == id) = false := by simpa using he
        have : ¬ (id = h.profilerActiveSection ∧ h.profilerActiveSection ≠ []) :=
          fun x => he x.1.symm
        simp [hb, this]

/-- C14: `reset()` at time `t` keeps the section ids and the active section, sets
every accumulator to 0 and restarts the clock of the active section at `t`; in
a host the calls can reach, a `get(id)` at a later time then returns
`later - t` for the active section and 0 for every other id. -/
theorem profiler_reset_effect (h : LuaHost) (t : Rat) :
    (l_profiler_reset h t).profilerSections.map (fun pair => pair.1)
      = h.profilerSections.map (fun pair => pair.1) ∧
    (l_profiler_reset h t).profilerActiveSection = h.profilerActiveSection ∧
    (∀ pair ∈ (l_profiler_reset h t).profilerSections, pair.2 = 0) ∧
    (h.profilerActiveSection ≠ [] → (l_profiler_reset h t).profilerSectionStart = t) ∧
    (profilerInv h = true → ∀ (id : Str) (later : Rat),
      (l_profiler_get (l_profiler_reset h t) id later).1 =
        if id = h.profilerActiveSection ∧ h.profilerActiveSection ≠ [] then later - t else 0) :=
  profiler_reset_effect_aux h t

/-- Witness for `profiler_reset_effect`: `profilingHost` reset at time 5 and read
at time 7. -/
theorem profiler_reset_effect_witness :
    (l_profiler_get (l_profiler_reset profilingHost 5) "a".toList 7).1 = 7 - 5 :=
  ((profiler_reset_effect profilingHost 5).2.2.2.2 (by decide) "a".toList 7).trans
    (if_pos ⟨rfl, by decide⟩)


theorem profilerInv_iff (h : LuaHost) :
    profilerInv h = true ↔
      h.profilerSections.lookup [] = none ∧
      (h.profilerActiveSection = [] ∨
        (h.profilerSections.lookup h.profilerActiveSection).isSome = true) := by
  unfold profilerInv
  simp only [Bool.and_eq_true, Bool.or_eq_true, Option.isNone_iff_eq_none, List.isEmpty_iff]

theorem profilerInv_stop (h : LuaHost) (now : Rat) (hinv : profilerInv h = true) :
    profilerInv (profilerStopCurrentSection h now) = true := by
  rw [profilerInv_iff] at hinv ⊢
  by_cases ha : h.profilerActiveSection = []
  · rw [profilerStopCurrentSection_idle h now ha]
    exact hinv
  · obtain ⟨s1, _, s3⟩ := profilerStopCurrentSection_active h now ha
    refine ⟨?_, Or.inl s1⟩
    rw [s3 []]
    have : ¬ ([] = h.profilerActiveSection) := fun e => ha e.symm
    simp [this, hinv.1]

/-- Every profiler call keeps the host among the states `profilerInv` describes;
so does a script load. -/
theorem profilerInv_preserved (h : LuaHost) (hinv : profilerInv h = true) :
    (∀ (id : Str) (t1 t2 : Rat),
      profilerInv (l_profiler_start h (LuaValue.string id) t1 t2).2 = true) ∧
    (∀ now : Rat, profilerInv (l_profiler_stop h now) = true) ∧
    (∀ now : Rat, profilerInv (l_profiler_reset h now) = true) ∧
    profilerInv (l_profiler_clear h) = true ∧
    profilerInv (resetForLoad h) = true := by
  refine ⟨?_, fun now => profilerInv_stop h now hinv, ?_, ?_, ?_⟩
  · intro id t1 t2
    by_cases hid : id = []
    · subst hid
      have hstep : (l_profiler_start h (LuaValue.string []) t1 t2).2 =
          profilerStopCurrentSection h t1 := by
        simp [l_profiler_start, checkString]
      rw [hstep]
      exact profilerInv_stop h t1 hinv
    · obtain ⟨_, r2, _, r4⟩ := l_profiler_start_string h id t1 t2 hid
      have hstop := (profilerInv_iff _).mp (profilerInv_stop h t1 hinv)
      rw [profilerInv_iff]
      refine ⟨?_, Or.inr ?_⟩
      · rw [r4 []]
        have : ¬ ([] = id) := fun e => hid e.symm
        simp [this, hstop.1]
      · rw [r2, r4 id]
        simp
  · intro now
    obtain ⟨_, hact, _, _, _⟩ := profiler_reset_effect_aux h now
    have hsec : (l_profiler_reset h now).profilerSections =
        h.profilerSections.map (fun pair => (pair.1, (0 : Rat))) := by
      unfold l_profiler_reset
      simp only
      split <;> rfl
    rw [profilerInv_iff] at hinv ⊢
    rw [hsec, hact, lookup_map_zero, lookup_map_zero, hinv.1]
    refine ⟨rfl, ?_⟩
    rcases hinv.2 with h1 | h1
    · exact Or.inl h1
    · right
      cases hl : h.profilerSections.lookup h.profilerActiveSection with
      | none => rw [hl] at h1; exact Bool.noConfusion h1
      | some v => rfl
  · rfl
  · rfl

/-! ## Profiler: start without an identifier -/

/-- An absent or nil identifier is fatal: `start` ends the process and has
touched nothing by then. -/
theorem l_profiler_start_nil (h : LuaHost) (t1 t2 : Rat) :
    l_profiler_start h LuaValue.nil t1 t2 = (Outcome.exited 1, h) := by
  simp [l_profiler_start]

/-- C15 fails for the empty string: `start("")` while `a` has been active since
time 1 is not fatal - it returns normally to the script - and it stops `a`,
adding the elapsed 3 - 1 seconds to its accumulator; only the nil identifier
ends the process with the profiler untouched. -/
theorem profiler_start_empty_id_returns :
    (l_profiler_start profilingHost (LuaValue.string []) 3 3).1 = Outcome.returned () ∧
    profilingHost.profilerActiveSection = "a".toList ∧
    (l_profiler_start profilingHost (LuaValue.string []) 3 3).2.profilerActiveSection = [] ∧
    profilingHost.profilerSections.lookup "a".toList = some 2 ∧
    (l_profiler_start profilingHost (LuaValue.string []) 3 3).2.profilerSections.lookup
      "a".toList = some 4 ∧
    l_profiler_start profilingHost LuaValue.nil 3 3 = (Outcome.exited 1, profilingHost) := by
  have hstep : (l_profiler_start profilingHost (LuaValue.string []) 3 3) =
      (Outcome.returned (), profilerStopCurrentSection profilingHost 3) := by
    simp [l_profiler_start, checkString]
  rw [hstep]
  refine ⟨rfl, rfl, rfl, rfl, ?_, l_profiler_start_nil profilingHost 3 3⟩
  rw [(profilerStopCurrentSection_active profilingHost 3 (by decide)).2.2 "a".toList]
  simp [profilingHost, List.lookup]
  norm_num

/-! ## Module resolver: candidate path -/

theorem hasLuaExt_iff (n : Str) :
    (decide (4 ≤ n.length) && n.drop (n.length - 4) == ".lua".toList) = true ↔
      ".lua".toList <:+ n := by
  simp only [Bool.and_eq_true, decide_eq_true_eq, beq_iff_eq]
  constructor
  · rintro ⟨_, h2⟩
    exact ⟨n.take (n.length - 4), by rw [← h2, List.take_append_drop]⟩
  · rintro ⟨t, ht⟩
    have hl : n.length = t.length + 4 := by
      rw [← ht, List.length_append]
      rfl
    refine ⟨by omega, ?_⟩
    have : n.length - 4 = t.length := by omega
    rw [this, ← ht, List.drop_left]

/-- C16: the candidate relative path of a module name is the name itself when
the name is an absolute path, contains `/` or a backslash, or ends with `.lua`;
otherwise it is the name with every `.` replaced by `/`, followed by `.lua`;
so `a.b` gives `a/b.lua`. -/
theorem modulePath_cases (pf : Platform) (n : Str) :
    ((is_absolute pf n = true ∨ '/' ∈ n ∨ '\\' ∈ n ∨ ".lua".toList <:+ n) →
      modulePath pf n = n) ∧
    (¬ (is_absolute pf n = true ∨ '/' ∈ n ∨ '\\' ∈ n ∨ ".lua".toList <:+ n) →
      modulePath pf n = n.map (fun ch => if ch == '.' then '/' else ch) ++ ".lua".toList) ∧
    modulePath pf "a.b".toList = "a/b.lua".toList := by
  refine ⟨?_, ?_, ?_⟩
  · intro h
    unfold modulePath
    by_cases ha : is_absolute pf n = true
    · simp [ha]
    · simp only [ha, Bool.false_eq_true, if_false]
      rcases h with h | h | h | h
      · exact absurd h ha
      · simp [h]
      · simp [h]
      · have := (hasLuaExt_iff n).mpr h
        simp only [this, Bool.or_true, if_true]
  · intro h
    simp only [not_or] at h
    obtain ⟨h1, h2, h3, h4⟩ := h
    have h5 : (decide (4 ≤ n.length) && n.drop (n.length - 4) == ".lua".toList) = false := by
      cases hx : (decide (4 ≤ n.length) && n.drop (n.length - 4) == ".lua".toList)
      · rfl
      · exact absurd ((hasLuaExt_iff n).mp hx) h4
    unfold modulePath
    simp only [h1, Bool.false_eq_true, if_false, h5, Bool.or_false]
    simp [h2, h3]
  · cases pf <;> decide

/-- Witness for `modulePath_cases`: a name with a separator is taken as it is. -/
theorem modulePath_cases_witness :
    modulePath Platform.posix "lib/util".toList = "lib/util".toList :=
  (modulePath_cases Platform.posix "lib/util".toList).1 (Or.inr (Or.inl (by decide)))

/-! ## Module resolver: cyclic require -/

/-- C17 as stated fails: in the cycle of `cyclicSession`, `require("a")` does not
fail with "module not found" but with the engine's stack overflow, and the body
of `a` is compiled and executed again by the nested `require("a")` (here five
times in all, with eight nested calls allowed). -/
theorem cyclic_require_runs_body_again :
    (l_require demoEngine (memFs Platform.posix) posixEnv noArchive
      (demoApi posixEnv noArchive).require (demoApi posixEnv noArchive).windowQuit
      cyclicSession "a".toList).1 = Outcome.raised "stack overflow".toList ∧
    ((l_require demoEngine (memFs Platform.posix) posixEnv noArchive
      (demoApi posixEnv noArchive).require (demoApi posixEnv noArchive).windowQuit
      cyclicSession "a".toList).2.lua.log.take 6)
      = [EngineEvent.compiled "@demo/a.lua".toList, EngineEvent.executed "@demo/a.lua".toList,
         EngineEvent.compiled "@demo/b.lua".toList, EngineEvent.executed "@demo/b.lua".toList,
         EngineEvent.compiled "@demo/a.lua".toList, EngineEvent.executed "@demo/a.lua".toList] ∧
    ((l_require demoEngine (memFs Platform.posix) posixEnv noArchive
      (demoApi posixEnv noArchive).require (demoApi posixEnv noArchive).windowQuit
      cyclicSession "a".toList).2.lua.log.count (EngineEvent.executed "@demo/a.lua".toList)) = 5 := by
  decide


theorem cyclic_load (req : Session MemFs → Str → Outcome LuaValue × Session MemFs)
    (quit : Session MemFs → Int → Outcome Unit × Session MemFs)
    (this chunk : Str)
    (hm : is_absolute Platform.posix (modulePath Platform.posix this) = false)
    (hex : (memFs Platform.posix).pathExists cyclicFiles
      (pathAppend Platform.posix "demo".toList (modulePath Platform.posix this)) = (true, noError))
    (hreg : (memFs Platform.posix).is_regular_file cyclicFiles
      (pathAppend Platform.posix "demo".toList (modulePath Platform.posix this)) = (true, noError))
    (hne : (pathAppend Platform.posix "demo".toList (modulePath Platform.posix this)).isEmpty = false)
    (hrd : (memFs Platform.posix).readWholeFile cyclicFiles
      (pathAppend Platform.posix "demo".toList (modulePath Platform.posix this)) = some chunk)
    (s : Session MemFs) (h1 : s.world.fs = cyclicFiles) (h2 : s.lua.requireCache = [])
    (h3 : s.host = freshHost posixEnv) :
    ∃ w : World MemFs, w.fs = cyclicFiles ∧
      l_require demoEngine (memFs Platform.posix) posixEnv noArchive req quit s this =
        loadAndExecute demoEngine req quit { s with world := w } this chunk
          ('@' :: pathAppend Platform.posix "demo".toList (modulePath Platform.posix this)) := by
  have hpf : posixEnv.pf = Platform.posix := rfl
  have hdir : (freshHost posixEnv).mainScriptDir = "demo".toList := rfl
  have harch : ∀ fb, requireFromArchive Platform.posix noArchive fb this = ([], []) := by
    intro fb
    simp [requireFromArchive, noArchive, FusedArchive.isFused]
  refine ⟨{ fs := s.world.fs,
             calls := s.world.calls ++
               [FsCall.pathExists
                 (pathAppend Platform.posix "demo".toList (modulePath Platform.posix this))] ++
               [FsCall.is_regular_file
                 (pathAppend Platform.posix "demo".toList (modulePath Platform.posix this))] ++
               [FsCall.readWholeFile
                 (pathAppend Platform.posix "demo".toList (modulePath Platform.posix this))] },
    h1, ?_⟩
  · unfold l_require
    simp only [h2, cacheGet, List.lookup, Option.getD_none, bne_self_eq_false, Bool.false_eq_true,
      if_false]
    unfold resolveAndLoad
    simp only [hpf, harch, List.isEmpty_nil, if_true, h3, hdir]
    unfold findOnDisk isModuleFile callExists callIsRegularFile
    simp only [hpf, hm, Bool.false_eq_true, if_false, h1, hex, hreg, if_true, hne]
    unfold callReadWholeFile
    simp only [h1, hrd]


theorem cyclic_body (req : Session MemFs → Str → Outcome LuaValue × Session MemFs)
    (quit : Session MemFs → Int → Outcome Unit × Session MemFs)
    (this other chunk chunkname : Str) (k : Except Str LuaValue → Script)
    (hcomp : demoEngine.compile chunk chunkname = Except.ok (Script.require other k))
    (hk : ∀ err, k (Except.error err) = Script.raise err)
    (hreq : ∀ s : Session MemFs, s.world.fs = cyclicFiles → s.lua.requireCache = [] →
      s.host = freshHost posixEnv →
      (req s other).1 = Outcome.raised "stack overflow".toList ∧
      (req s other).2.world.fs = cyclicFiles ∧ (req s other).2.lua.requireCache = [] ∧
      (req s other).2.host = freshHost posixEnv)
    (s : Session MemFs) (h1 : s.world.fs = cyclicFiles) (h2 : s.lua.requireCache = [])
    (h3 : s.host = freshHost posixEnv) :
    (loadAndExecute demoEngine req quit s this chunk chunkname).1
      = Outcome.raised "stack overflow".toList ∧
    (loadAndExecute demoEngine req quit s this chunk chunkname).2.world.fs = cyclicFiles ∧
    (loadAndExecute demoEngine req quit s this chunk chunkname).2.lua.requireCache = [] ∧
    (loadAndExecute demoEngine req quit s this chunk chunkname).2.host = freshHost posixEnv := by
  obtain ⟨r1, r2, r3, r4⟩ := hreq
    ((s.record (EngineEvent.compiled chunkname)).record (EngineEvent.executed chunkname)) h1 h2 h3
  have hpair : req ((s.record (EngineEvent.compiled chunkname)).record
      (EngineEvent.executed chunkname)) other =
      (Outcome.raised "stack overflow".toList,
        (req ((s.record (EngineEvent.compiled chunkname)).record
          (EngineEvent.executed chunkname)) other).2) := Prod.ext r1 rfl
  have hrun : runScript req quit (Script.require other k)
      ((s.record (EngineEvent.compiled chunkname)).record (EngineEvent.executed chunkname)) =
      (Outcome.raised "stack overflow".toList,
        (req ((s.record (EngineEvent.compiled chunkname)).record
          (EngineEvent.executed chunkname)) other).2) := by
    simp only [runScript]
    rw [hpair]
    simp only [hk, runScript]
  unfold loadAndExecute
  simp only [hcomp, hrun]
  exact ⟨rfl, r2, r3, r4⟩

/-- In the two-module cycle every `require("a")` and every `require("b")`, at
whatever depth of nesting the engine allows, fails with the engine's stack
overflow and leaves the files, the empty cache and the host as they were. -/
theorem cyclic_require_overflows (depth : Nat) :
    ∀ (name : Str), (name = "a".toList ∨ name = "b".toList) →
    ∀ s : Session MemFs, s.world.fs = cyclicFiles → s.lua.requireCache = [] →
      s.host = freshHost posixEnv →
      ((hostApi demoEngine (memFs Platform.posix) posixEnv noArchive depth).require s name).1
        = Outcome.raised "stack overflow".toList ∧
      ((hostApi demoEngine (memFs Platform.posix) posixEnv noArchive depth).require s name).2.world.fs
        = cyclicFiles ∧
      ((hostApi demoEngine (memFs Platform.posix) posixEnv noArchive depth).require s
        name).2.lua.requireCache = [] ∧
      ((hostApi demoEngine (memFs Platform.posix) posixEnv noArchive depth).require s name).2.host
        = freshHost posixEnv := by
  induction depth with
  | zero =>
    intro name _ s h1 h2 h3
    exact ⟨rfl, h1, h2, h3⟩
  | succ d ih =>
    intro name hname s h1 h2 h3
    simp only [hostApi]
    rcases hname with hn | hn
    · subst hn
      obtain ⟨w, hw, hl⟩ := cyclic_load
        (hostApi demoEngine (memFs Platform.posix) posixEnv noArchive d).require
        (hostApi demoEngine (memFs Platform.posix) posixEnv noArchive d).windowQuit
        "a".toList "return require('b')".toList (by decide) (by decide) (by decide) (by decide)
        (by decide) s h1 h2 h3
      rw [hl]
      exact cyclic_body _ _ "a".toList "b".toList "return require('b')".toList _
        (fun r =>
          match r with
          | Except.ok v => Script.ret v
          | Except.error err => Script.raise err)
        rfl (fun _ => rfl) (ih "b".toList (Or.inr rfl)) _ hw h2 h3
    · subst hn
      obtain ⟨w, hw, hl⟩ := cyclic_load
        (hostApi demoEngine (memFs Platform.posix) posixEnv noArchive d).require
        (hostApi demoEngine (memFs Platform.posix) posixEnv noArchive d).windowQuit
        "b".toList "return require('a')".toList (by decide) (by decide) (by decide) (by decide)
        (by decide) s h1 h2 h3
      rw [hl]
      exact cyclic_body _ _ "b".toList "a".toList "return require('a')".toList _
        (fun r =>
          match r with
          | Except.ok v => Script.ret v
          | Except.error err => Script.raise err)
        rfl (fun _ => rfl) (ih "a".toList (Or.inl rfl)) _ hw h2 h3


/-- C17, amended: in a cyclic require (A requires B, B requires A) the nested
`require("A")` issued while the body of A is still running observes no partial
value - A has no cache entry, so the call misses the cache and goes through
resolution, compilation and execution of A again; nothing ends the recursion
but the engine's limit on nested calls, and at every such limit the requires of
the cycle fail with the engine's stack overflow and leave no cache entry. -/
theorem cyclic_require_recurses (depth : Nat) :
    ((hostApi demoEngine (memFs Platform.posix) posixEnv noArchive depth).require
      cyclicSession "a".toList).1 = Outcome.raised "stack overflow".toList ∧
    ((hostApi demoEngine (memFs Platform.posix) posixEnv noArchive depth).require
      cyclicSession "a".toList).2.lua.requireCache = [] ∧
    (∀ {Φ : Type} (E : Engine) (F : FileSystem Φ) (env : Env) (arch : FusedArchive)
      (req : Session Φ → Str → Outcome LuaValue × Session Φ)
      (quit : Session Φ → Int → Outcome Unit × Session Φ)
      (s : Session Φ) (n chunkname : Str),
      cacheGet s.lua.requireCache n = LuaValue.nil →
      l_require E F env arch req quit
          ((s.record (EngineEvent.compiled chunkname)).record (EngineEvent.executed chunkname)) n
        = resolveAndLoad E F env arch req quit
          ((s.record (EngineEvent.compiled chunkname)).record (EngineEvent.executed chunkname))
          n) := by
  obtain ⟨r1, _, r3, _⟩ := cyclic_require_overflows depth "a".toList (Or.inl rfl)
    cyclicSession rfl rfl rfl
  refine ⟨r1, r3, ?_⟩
  intro Φ E F env arch req quit s n chunkname hmiss
  unfold l_require
  have : cacheGet ((s.record (EngineEvent.compiled chunkname)).record
      (EngineEvent.executed chunkname)).lua.requireCache n = LuaValue.nil := hmiss
  rw [this]
  simp

/-- Witness for `cyclic_require_recurses`: the body of `a`, compiled from the
file `demo/a.lua`, starts in a session without an entry for `a`. -/
theorem cyclic_require_recurses_witness :
    l_require demoEngine (memFs Platform.posix) posixEnv noArchive
        (demoApi posixEnv noArchive).require (demoApi posixEnv noArchive).windowQuit
        ((cyclicSession.record (EngineEvent.compiled "@demo/a.lua".toList)).record
          (EngineEvent.executed "@demo/a.lua".toList)) "a".toList
      = resolveAndLoad demoEngine (memFs Platform.posix) posixEnv noArchive
        (demoApi posixEnv noArchive).require (demoApi posixEnv noArchive).windowQuit
        ((cyclicSession.record (EngineEvent.compiled "@demo/a.lua".toList)).record
          (EngineEvent.executed "@demo/a.lua".toList)) "a".toList :=
  (cyclic_require_recurses 8).2.2 demoEngine (memFs Platform.posix) posixEnv noArchive
    (demoApi posixEnv noArchive).require (demoApi posixEnv noArchive).windowQuit
    cyclicSession "a".toList "@demo/a.lua".toList rfl

/-! ## Script loading: what a load resets -/

/-- Counterexample to C18 as stated: a session that has already required `m`
loads the main script `demo/main.lua`; the load returns normally and the
RequireCache still holds the entry `m = 1` from before the load, which a later
`require("m")` hands out although no file of that module exists. -/
theorem load_keeps_require_cache :
    (loadAppScript demoEngine (memFs Platform.posix) posixEnv posixAbsolute
        (demoApi posixEnv noArchive).require (demoApi posixEnv noArchive).windowQuit
        reloadSession "demo/main.lua".toList).1 = Outcome.returned () ∧
    (loadAppScript demoEngine (memFs Platform.posix) posixEnv posixAbsolute
        (demoApi posixEnv noArchive).require (demoApi posixEnv noArchive).windowQuit
        reloadSession "demo/main.lua".toList).2.lua.requireCache
      = [("m".toList, LuaValue.number 1)] ∧
    ((demoApi posixEnv noArchive).require
        (loadAppScript demoEngine (memFs Platform.posix) posixEnv posixAbsolute
          (demoApi posixEnv noArchive).require (demoApi posixEnv noArchive).windowQuit
          reloadSession "demo/main.lua".toList).2 "m".toList).1
      = Outcome.returned (LuaValue.number 1) := by
  decide


theorem sanitizeIdentity_ne_nil (raw : Str) : sanitizeIdentity raw ≠ [] := by
  unfold sanitizeIdentity
  simp only
  generalize popTrailingUnderscores (raw.foldl sanitizeStep []) = r
  have hne : (if r.isEmpty then "unnamed".toList else r) ≠ [] := by
    split
    · decide
    · rename_i h; simpa using h
  generalize (if r.isEmpty then "unnamed".toList else r) = q at hne
  by_cases hlen : q.length > 64
  · rw [if_pos hlen]
    intro h
    rcases List.take_eq_nil_iff.mp h with h0 | h0
    · exact absurd h0 (by decide)
    · exact hne h0
  · rw [if_neg hlen]; exact hne

theorem initSaveDir_identity (env : Env) (h : LuaHost) (hne : h.appIdentity ≠ []) :
    (initSaveDir env h).appIdentity = h.appIdentity := by
  unfold initSaveDir
  have : h.appIdentity.isEmpty = false := by simpa using hne
  simp [this]

/-- The host state `loadAppScript` establishes before it reads the script. -/
theorem loadAppScriptBegin_host (env : Env) (absolute : Str → Str) (h : LuaHost) (path : Str) :
    (loadAppScriptBegin env absolute h path).profilerSections = [] ∧
    (loadAppScriptBegin env absolute h path).profilerActiveSection = [] ∧
    (loadAppScriptBegin env absolute h path).identityLocked = false ∧
    (loadAppScriptBegin env absolute h path).filesystemAccessed = false ∧
    (loadAppScriptBegin env absolute h path).mainScriptDir
      = parent_path env.pf (absolute path) ∧
    (loadAppScriptBegin env absolute h path).appIdentity
      = sanitizeIdentity (filename env.pf (parent_path env.pf (absolute path))) ∧
    (loadAppScriptBegin env absolute h path).L = h.L := by
  refine ⟨rfl, rfl, rfl, rfl, rfl, ?_, rfl⟩
  unfold loadAppScriptBegin
  simp only
  rw [initSaveDir_identity _ _ (sanitizeIdentity_ne_nil _)]

/-- The host state `loadFusedScript` establishes before it reads the script. -/
theorem loadFusedScriptBegin_host (env : Env) (h : LuaHost) (archivePath : Str) :
    (loadFusedScriptBegin env h archivePath).profilerSections = [] ∧
    (loadFusedScriptBegin env h archivePath).profilerActiveSection = [] ∧
    (loadFusedScriptBegin env h archivePath).identityLocked = false ∧
    (loadFusedScriptBegin env h archivePath).filesystemAccessed = false ∧
    (loadFusedScriptBegin env h archivePath).mainScriptDir = h.exeDir ∧
    (loadFusedScriptBegin env h archivePath).appIdentity
      = sanitizeIdentity (filename env.pf h.exeDir) ∧
    (loadFusedScriptBegin env h archivePath).L = h.L := by
  refine ⟨rfl, rfl, rfl, rfl, rfl, ?_, rfl⟩
  unfold loadFusedScriptBegin
  simp only
  rw [initSaveDir_identity _ _ (sanitizeIdentity_ne_nil _)]
  rfl

theorem cacheKept_refl (c : List (Str × LuaValue)) : cacheKept c c := fun _ _ => rfl

theorem cacheKept_trans {c1 c2 c3 : List (Str × LuaValue)} (h12 : cacheKept c1 c2)
    (h23 : cacheKept c2 c3) : cacheKept c1 c3 := by
  intro n hn
  have h2 := h12 n hn
  rw [← h2]
  exact h23 n (by rw [h2]; exact hn)

theorem cacheKept_set (c : List (Str × LuaValue)) (m : Str) (v : LuaValue)
    (hm : cacheGet c m = LuaValue.nil) : cacheKept c (cacheSet c m v) := by
  intro n hn
  have hne : n ≠ m := fun e => hn (e ▸ hm)
  have hb : (n == m) = false := by simpa using hne
  simp [cacheGet, cacheSet, List.lookup, hb]

theorem runScript_keeps_cache {Φ : Type}
    (req : Session Φ → Str → Outcome LuaValue × Session Φ)
    (quit : Session Φ → Int → Outcome Unit × Session Φ)
    (hreq : ∀ s n, cacheKept s.lua.requireCache (req s n).2.lua.requireCache)
    (hquit : ∀ s c, cacheKept s.lua.requireCache (quit s c).2.lua.requireCache) :
    ∀ (body : Script) (s : Session Φ),
      cacheKept s.lua.requireCache (runScript req quit body s).2.lua.requireCache := by
  intro body
  induction body with
  | ret v => intro s; exact cacheKept_refl _
  | raise err => intro s; exact cacheKept_refl _
  | require name k ih =>
    intro s
    have h1 := hreq s name
    simp only [runScript]
    split
    · rename_i v s1 heq
      rw [heq] at h1
      exact cacheKept_trans h1 (ih _ s1)
    · rename_i err s1 heq
      rw [heq] at h1
      exact cacheKept_trans h1 (ih _ s1)
    · rename_i code s1 heq
      rw [heq] at h1
      exact h1
  | windowQuit code k ih =>
    intro s
    have h1 := hquit s code
    simp only [runScript]
    split
    · rename_i v s1 heq
      rw [heq] at h1
      exact cacheKept_trans h1 (ih _ s1)
    · rename_i err s1 heq
      rw [heq] at h1
      exact cacheKept_trans h1 (ih _ s1)
    · rename_i c s1 heq
      rw [heq] at h1
      exact h1


theorem loadAndExecute_keeps_cache {Φ : Type} (E : Engine)
    (req : Session Φ → Str → Outcome LuaValue × Session Φ)
    (quit : Session Φ → Int → Outcome Unit × Session Φ)
    (hreq : ∀ s n, cacheKept s.lua.requireCache (req s n).2.lua.requireCache)
    (hquit : ∀ s c, cacheKept s.lua.requireCache (quit s c).2.lua.requireCache)
    (s : Session Φ) (modStr chunk chunkname : Str)
    (hm : cacheGet s.lua.requireCache modStr = LuaValue.nil) :
    cacheKept s.lua.requireCache
      (loadAndExecute E req quit s modStr chunk chunkname).2.lua.requireCache := by
  unfold loadAndExecute
  simp only
  split
  · exact cacheKept_refl _
  · rename_i body _
    have h1 := runScript_keeps_cache req quit hreq hquit body
      ((s.record (EngineEvent.compiled chunkname)).record (EngineEvent.executed chunkname))
    split
    · rename_i heq; rw [heq] at h1; exact h1
    · rename_i heq; rw [heq] at h1; exact h1
    · rename_i r s2 heq
      rw [heq] at h1
      intro n hn
      have hne : n ≠ modStr := fun e => hn (e ▸ hm)
      have hb : (n == modStr) = false := by simpa using hne
      have h2 := h1 n hn
      simpa [cacheGet, cacheSet, List.lookup, hb] using h2

theorem callQuit_keeps_cache {Φ : Type} (E : Engine)
    (req : Session Φ → Str → Outcome LuaValue × Session Φ)
    (quit : Session Φ → Int → Outcome Unit × Session Φ)
    (hreq : ∀ s n, cacheKept s.lua.requireCache (req s n).2.lua.requireCache)
    (hquit : ∀ s c, cacheKept s.lua.requireCache (quit s c).2.lua.requireCache)
    (s : Session Φ) :
    cacheKept s.lua.requireCache (callQuit E req quit s).2.lua.requireCache := by
  unfold callQuit
  split
  · exact cacheKept_refl _
  · split
    · exact cacheKept_refl _
    · rename_i body _
      have h1 := runScript_keeps_cache req quit hreq hquit body (s.record EngineEvent.quitCallback)
      split
      · rename_i heq; rw [heq] at h1; exact h1
      · rename_i heq; rw [heq] at h1; exact h1
      · rename_i heq; rw [heq] at h1; exact h1

theorem invokeQuitCallback_keeps_cache {Φ : Type} (E : Engine)
    (req : Session Φ → Str → Outcome LuaValue × Session Φ)
    (quit : Session Φ → Int → Outcome Unit × Session Φ)
    (hreq : ∀ s n, cacheKept s.lua.requireCache (req s n).2.lua.requireCache)
    (hquit : ∀ s c, cacheKept s.lua.requireCache (quit s c).2.lua.requireCache)
    (s : Session Φ) :
    cacheKept s.lua.requireCache (invokeQuitCallback E req quit s).2.lua.requireCache := by
  unfold invokeQuitCallback
  split
  · exact cacheKept_refl _
  · have h1 := callQuit_keeps_cache E req quit hreq hquit (s.setQuitCallbackActive true)
    split
    · rename_i heq; rw [heq] at h1; exact h1
    · rename_i heq; rw [heq] at h1; exact h1
    · rename_i heq; rw [heq] at h1; exact h1

/-- No host function a script can reach removes or changes an entry of the
RequireCache. -/
theorem hostApi_keeps_cache {Φ : Type} (E : Engine) (F : FileSystem Φ) (env : Env)
    (arch : FusedArchive) (depth : Nat) :
    (∀ (s : Session Φ) (n : Str),
      cacheKept s.lua.requireCache ((hostApi E F env arch depth).require s n).2.lua.requireCache) ∧
    (∀ (s : Session Φ) (c : Int),
      cacheKept s.lua.requireCache
        ((hostApi E F env arch depth).windowQuit s c).2.lua.requireCache) := by
  induction depth with
  | zero => exact ⟨fun s n => cacheKept_refl _, fun s c => cacheKept_refl _⟩
  | succ d ih =>
    obtain ⟨ihr, ihq⟩ := ih
    constructor
    · intro s n
      simp only [hostApi]
      unfold l_require
      split
      · exact cacheKept_refl _
      · rename_i hmiss
        have hm : cacheGet s.lua.requireCache n = LuaValue.nil := by simpa using hmiss
        unfold resolveAndLoad
        simp only
        split
        · split
          · exact cacheKept_refl _
          · split
            · exact cacheKept_refl _
            · exact loadAndExecute_keeps_cache E _ _ ihr ihq
                { s with world := (callReadWholeFile F
                  (findOnDisk F env s.host.mainScriptDir (modulePath env.pf n) s.world).2
                  (findOnDisk F env s.host.mainScriptDir (modulePath env.pf n) s.world).1).2 }
                n _ _ hm
        · exact loadAndExecute_keeps_cache E _ _ ihr ihq s n _ _ hm
    · intro s c
      simp only [hostApi]
      have h1 := invokeQuitCallback_keeps_cache E _ _ ihr ihq s
      unfold l_window_quit
      split
      · rename_i heq; rw [heq] at h1; split <;> exact h1
      · rename_i heq; rw [heq] at h1; split <;> exact h1
      · rename_i heq; rw [heq] at h1; exact h1

theorem runMainChunk_keeps_cache {Φ : Type} (E : Engine)
    (req : Session Φ → Str → Outcome LuaValue × Session Φ)
    (quit : Session Φ → Int → Outcome Unit × Session Φ)
    (hreq : ∀ s n, cacheKept s.lua.requireCache (req s n).2.lua.requireCache)
    (hquit : ∀ s c, cacheKept s.lua.requireCache (quit s c).2.lua.requireCache)
    (s : Session Φ) (chunk chunkname : Str) :
    cacheKept s.lua.requireCache (runMainChunk E req quit s chunk chunkname).2.lua.requireCache := by
  unfold runMainChunk
  simp only
  split
  · exact cacheKept_refl _
  · rename_i body _
    have h1 := runScript_keeps_cache req quit hreq hquit body
      ((s.record (EngineEvent.compiled chunkname)).record (EngineEvent.executed chunkname))
    split
    · rename_i heq; rw [heq] at h1; exact h1
    · rename_i heq; rw [heq] at h1; exact h1
    · rename_i heq; rw [heq] at h1; exact h1

theorem loadAppScript_keeps_cache {Φ : Type} (E : Engine) (F : FileSystem Φ) (env : Env)
    (absolute : Str → Str)
    (req : Session Φ → Str → Outcome LuaValue × Session Φ)
    (quit : Session Φ → Int → Outcome Unit × Session Φ)
    (hreq : ∀ s n, cacheKept s.lua.requireCache (req s n).2.lua.requireCache)
    (hquit : ∀ s c, cacheKept s.lua.requireCache (quit s c).2.lua.requireCache)
    (s : Session Φ) (path : Str) :
    cacheKept s.lua.requireCache
      (loadAppScript E F env absolute req quit s path).2.lua.requireCache := by
  unfold loadAppScript
  split
  · exact cacheKept_refl _
  · simp only
    split
    · exact cacheKept_refl _
    · exact runMainChunk_keeps_cache E req quit hreq hquit
        { host := loadAppScriptBegin env absolute s.host path, lua := s.lua,
          world := (callReadWholeFile F s.world path).2 } _ _

theorem loadFusedScript_keeps_cache {Φ : Type} (E : Engine) (env : Env) (arch : FusedArchive)
    (req : Session Φ → Str → Outcome LuaValue × Session Φ)
    (quit : Session Φ → Int → Outcome Unit × Session Φ)
    (hreq : ∀ s n, cacheKept s.lua.requireCache (req s n).2.lua.requireCache)
    (hquit : ∀ s c, cacheKept s.lua.requireCache (quit s c).2.lua.requireCache)
    (s : Session Φ) (archivePath : Str) :
    cacheKept s.lua.requireCache
      (loadFusedScript E env arch req quit s archivePath).2.lua.requireCache := by
  unfold loadFusedScript
  split
  · exact cacheKept_refl _
  · simp only
    split
    · exact cacheKept_refl _
    · exact runMainChunk_keeps_cache E req quit hreq hquit
        { host := loadFusedScriptBegin env s.host archivePath, lua := s.lua,
          world := s.world } _ _


/-- C18 (amended): on a host with an engine, `loadAppScript` and
`loadFusedScript` reset the host before the script body runs and leave the Lua
state alone. The session in which the script is compiled and run has the Lua
state from before the load (RequireCache included), a profiler with no sections
and no active section, neither `identityLocked` nor `filesystemAccessed` set, the
default identity `sanitizeIdentity` of the script directory's name (the
directory of the absolute script path, or the executable's directory in fused
mode), and the engine handle from before the load. The RequireCache is not
reset: once the load has run, every entry it held before the load is still
there with the same value. -/
theorem load_resets_host_keeps_cache {Φ : Type} (E : Engine) (F : FileSystem Φ) (env : Env)
    (arch : FusedArchive) (absolute : Str → Str) (depth : Nat) (s : Session Φ)
    (path archivePath : Str) (hL : s.host.L ≠ none) :
    (∃ s0 : Session Φ,
      s0.lua = s.lua ∧ s0.host.profilerSections = [] ∧ s0.host.profilerActiveSection = [] ∧
      s0.host.identityLocked = false ∧ s0.host.filesystemAccessed = false ∧
      s0.host.mainScriptDir = parent_path env.pf (absolute path) ∧
      s0.host.appIdentity = sanitizeIdentity (filename env.pf s0.host.mainScriptDir) ∧
      s0.host.L = s.host.L ∧
      (loadAppScript E F env absolute (hostApi E F env arch depth).require
          (hostApi E F env arch depth).windowQuit s path
        = (Outcome.raised ("Failed to open main script: ".toList ++ path), s0) ∨
       ∃ chunk, loadAppScript E F env absolute (hostApi E F env arch depth).require
          (hostApi E F env arch depth).windowQuit s path
        = runMainChunk E (hostApi E F env arch depth).require
            (hostApi E F env arch depth).windowQuit s0 chunk ('@' :: path))) ∧
    (∃ s0 : Session Φ,
      s0.lua = s.lua ∧ s0.host.profilerSections = [] ∧ s0.host.profilerActiveSection = [] ∧
      s0.host.identityLocked = false ∧ s0.host.filesystemAccessed = false ∧
      s0.host.mainScriptDir = s.host.exeDir ∧
      s0.host.appIdentity = sanitizeIdentity (filename env.pf s0.host.mainScriptDir) ∧
      s0.host.L = s.host.L ∧
      (loadFusedScript E env arch (hostApi E F env arch depth).require
          (hostApi E F env arch depth).windowQuit s archivePath
        = (Outcome.raised ("Failed to read fused script: ".toList ++ archivePath), s0) ∨
       ∃ chunk, loadFusedScript E env arch (hostApi E F env arch depth).require
          (hostApi E F env arch depth).windowQuit s archivePath
        = runMainChunk E (hostApi E F env arch depth).require
            (hostApi E F env arch depth).windowQuit s0 chunk ('@' :: archivePath))) ∧
    cacheKept s.lua.requireCache
      (loadAppScript E F env absolute (hostApi E F env arch depth).require
        (hostApi E F env arch depth).windowQuit s path).2.lua.requireCache ∧
    cacheKept s.lua.requireCache
      (loadFusedScript E env arch (hostApi E F env arch depth).require
        (hostApi E F env arch depth).windowQuit s archivePath).2.lua.requireCache := by
  have hN : s.host.L.isNone = false := by
    cases h : s.host.L with
    | none => exact absurd h hL
    | some _ => rfl
  obtain ⟨a1, a2, a3, a4, a5, a6, a7⟩ := loadAppScriptBegin_host env absolute s.host path
  obtain ⟨f1, f2, f3, f4, f5, f6, f7⟩ := loadFusedScriptBegin_host env s.host archivePath
  obtain ⟨hr, hq⟩ := hostApi_keeps_cache (Φ := Φ) E F env arch depth
  refine ⟨⟨{ host := loadAppScriptBegin env absolute s.host path, lua := s.lua,
             world := (callReadWholeFile F s.world path).2 },
            rfl, a1, a2, a3, a4, a5, ?_, a7, ?_⟩,
          ⟨{ host := loadFusedScriptBegin env s.host archivePath, lua := s.lua,
             world := s.world },
            rfl, f1, f2, f3, f4, f5, ?_, f7, ?_⟩,
          loadAppScript_keeps_cache E F env absolute _ _ hr hq s path,
          loadFusedScript_keeps_cache E env arch _ _ hr hq s archivePath⟩
  · show (loadAppScriptBegin env absolute s.host path).appIdentity
      = sanitizeIdentity (filename env.pf (loadAppScriptBegin env absolute s.host path).mainScriptDir)
    rw [a6, a5]
  · unfold loadAppScript
    simp only [hN, Bool.false_eq_true, if_false]
    cases (callReadWholeFile F s.world path).1 with
    | none => exact Or.inl rfl
    | some chunk => exact Or.inr ⟨chunk, rfl⟩
  · show (loadFusedScriptBegin env s.host archivePath).appIdentity
      = sanitizeIdentity (filename env.pf (loadFusedScriptBegin env s.host archivePath).mainScriptDir)
    rw [f6, f5]
  · unfold loadFusedScript
    simp only [hN, Bool.false_eq_true, if_false]
    cases arch.readFile archivePath with
    | none => exact Or.inl rfl
    | some chunk => exact Or.inr ⟨chunk, rfl⟩

/-- Witness for `load_resets_host_keeps_cache`: the session that has required `m`
loads `demo/main.lua`; its entry for `m` is kept. -/
theorem load_resets_host_keeps_cache_witness :
    reloadSession.host.L ≠ none ∧
    cacheKept reloadSession.lua.requireCache
      (loadAppScript demoEngine (memFs Platform.posix) posixEnv posixAbsolute
        (hostApi demoEngine (memFs Platform.posix) posixEnv noArchive 8).require
        (hostApi demoEngine (memFs Platform.posix) posixEnv noArchive 8).windowQuit
        reloadSession "demo/main.lua".toList).2.lua.requireCache :=
  ⟨by decide,
   (load_resets_host_keeps_cache demoEngine (memFs Platform.posix) posixEnv noArchive
      posixAbsolute 8 reloadSession "demo/main.lua".toList "main.lua".toList
      (by decide)).2.2.1⟩

/-! ## Fused archive: the table after a successful init -/

/-- Counterexample to C19 as stated: a container with the two file entries
`a.lua` (content `return 1`) and `./a.lua` (content `return 2`). The call
succeeds, the table has a single entry for the two of them, and `readFile` of
the first entry's name yields the content of the second. -/
theorem init_merges_colliding_names :
    (FusedArchive.init collidingParse (some demoZip)).1 = true ∧
    (FusedArchive.init collidingParse (some demoZip)).2.files_
      = [("a.lua".toList, "return 2".toList)] ∧
    (FusedArchive.init collidingParse (some demoZip)).2.readFile "a.lua".toList
      = some "return 2".toList := by
  decide


theorem lookup_filter_ne (files : List (Str × Str)) (name k : Str) (hk : k ≠ name) :
    (files.filter (fun e => e.1 != name)).lookup k = files.lookup k := by
  induction files with
  | nil => rfl
  | cons e rest ih =>
    obtain ⟨a, b⟩ := e
    by_cases ha : a = name
    · subst ha
      have hka : (k == a) = false := by simpa using hk
      simp [List.filter, List.lookup, hka, ih]
    · have hn : (a != name) = true := by simpa using ha
      simp only [List.filter, hn, List.lookup]
      split <;> simp [ih]

theorem lookup_tableSet (files : List (Str × Str)) (name content k : Str) :
    (tableSet files name content).lookup k
      = if k = name then some content else files.lookup k := by
  unfold tableSet
  by_cases hk : k = name
  · subst hk; simp [List.lookup]
  · have hb : (k == name) = false := by simpa using hk
    simp [List.lookup, hb, hk, lookup_filter_ne files name k hk]

theorem keys_tableSet_nodup (files : List (Str × Str)) (name content : Str)
    (h : (files.map Prod.fst).Nodup) : ((tableSet files name content).map Prod.fst).Nodup := by
  unfold tableSet
  simp only [List.map_cons, List.nodup_cons]
  constructor
  · intro hmem
    obtain ⟨e, he, hfst⟩ := List.mem_map.mp hmem
    have := (List.mem_filter.mp he).2
    simp [hfst] at this
  · exact h.sublist ((List.filter_sublist _).map Prod.fst)

theorem mem_tableSet (files : List (Str × Str)) (name content : Str) (p : Str × Str)
    (hp : p ∈ tableSet files name content) : p = (name, content) ∨ p ∈ files := by
  unfold tableSet at hp
  rcases List.mem_cons.mp hp with h | h
  · exact Or.inl h
  · exact Or.inr (List.mem_filter.mp h).1

theorem extractEntries_append (files : List (Str × Str)) (pre post : List ZipEntry) :
    extractEntries files (pre ++ post) = extractEntries (extractEntries files pre) post := by
  induction pre generalizing files with
  | nil => rfl
  | cons e rest ih =>
    simp only [List.cons_append, extractEntries]
    split
    · exact ih files
    · split
      · exact ih _
      · exact ih files

/-- Entries that are not stored under the key `k` leave the lookup of `k` as it
was. -/
theorem lookup_extractEntries_other (k : Str) (post : List ZipEntry)
    (hpost : ∀ e ∈ post, e.isDirectory = false → ∀ n c, e.filename = some n →
      e.content = some c → normalizePath n ≠ k) (files : List (Str × Str)) :
    (extractEntries files post).lookup k = files.lookup k := by
  induction post generalizing files with
  | nil => rfl
  | cons e rest ih =>
    have hrest : ∀ e ∈ rest, e.isDirectory = false → ∀ n c, e.filename = some n →
        e.content = some c → normalizePath n ≠ k :=
      fun e he => hpost e (List.mem_cons_of_mem _ he)
    simp only [extractEntries]
    split
    · exact ih hrest files
    · rename_i hdir
      split
      · rename_i n c hn hc
        rw [ih hrest, lookup_tableSet]
        have hne := hpost e (List.mem_cons_self _ _) (by simpa using hdir) n c hn hc
        rw [if_neg (fun e => hne e.symm)]
      · exact ih hrest files

theorem extractEntries_nodup (entries : List ZipEntry) (files : List (Str × Str))
    (h : (files.map Prod.fst).Nodup) : ((extractEntries files entries).map Prod.fst).Nodup := by
  induction entries generalizing files with
  | nil => exact h
  | cons e rest ih =>
    simp only [extractEntries]
    split
    · exact ih files h
    · split
      · exact ih _ (keys_tableSet_nodup files _ _ h)
      · exact ih files h

/-- Every pair of the table after the extraction loop was there before it or is
the normalized name and the content of a file entry. -/
theorem mem_extractEntries (entries : List ZipEntry) (files : List (Str × Str)) (p : Str × Str)
    (hp : p ∈ extractEntries files entries) :
    p ∈ files ∨ ∃ e ∈ entries, e.isDirectory = false ∧
      ∃ n, e.filename = some n ∧ p.1 = normalizePath n ∧ e.content = some p.2 := by
  induction entries generalizing files with
  | nil => exact Or.inl hp
  | cons e rest ih =>
    have lift : (∃ e' ∈ rest, e'.isDirectory = false ∧
        ∃ n, e'.filename = some n ∧ p.1 = normalizePath n ∧ e'.content = some p.2) →
        ∃ e' ∈ e :: rest, e'.isDirectory = false ∧
        ∃ n, e'.filename = some n ∧ p.1 = normalizePath n ∧ e'.content = some p.2 :=
      fun ⟨e', he', h⟩ => ⟨e', List.mem_cons_of_mem _ he', h⟩
    simp only [extractEntries] at hp
    split at hp
    · rcases ih files hp with h | h
      · exact Or.inl h
      · exact Or.inr (lift h)
    · rename_i hdir
      split at hp
      · rename_i n c hn hc
        rcases ih _ hp with h | h
        · rcases mem_tableSet files _ _ p h with h1 | h1
          · right
            refine ⟨e, List.mem_cons_self _ _, by simpa using hdir, n, hn, ?_, ?_⟩
            · rw [h1]
            · rw [h1]; exact hc
          · exact Or.inl h1
        · exact Or.inr (lift h)
      · rcases ih files hp with h | h
        · exact Or.inl h
        · exact Or.inr (lift h)

/-- The parts of a successful `FusedArchive::init`. -/
theorem init_success (parse : List Byte → Option (List ZipEntry)) (data zip : List Byte)
    (entries : List ZipEntry) (hz : zipSlice data = some zip) (hp : parse zip = some entries)
    (hs : (FusedArchive.init parse (some data)).1 = true) :
    FusedArchive.init parse (some data)
      = (true, { fused_ := true, files_ := extractEntries [] entries }) := by
  unfold FusedArchive.init at hs ⊢
  simp only [hz, hp] at hs ⊢
  split
  · rename_i h; simp [h] at hs
  · rfl


/-- C19 (amended): after a successful `FusedArchive::init` on a container whose
reader reports `entries`, the table is keyed by normalized entry names, one
entry per key, and a later entry replaces an earlier one with the same
normalized name. For each non-directory entry whose name `n` and content `c`
can be read and that is followed by no such entry with the same normalized
name, `readFile(n)` yields `c`; every pair of the table is the normalized name
(backslashes turned into `/`, leading `./` removed) and the content of some
non-directory entry; and no two entries of the table have the same key. -/
theorem init_stores_last_entry (parse : List Byte → Option (List ZipEntry)) (data zip : List Byte)
    (entries : List ZipEntry) (hz : zipSlice data = some zip) (hp : parse zip = some entries)
    (hs : (FusedArchive.init parse (some data)).1 = true) :
    (∀ (pre : List ZipEntry) (e : ZipEntry) (post : List ZipEntry) (n c : Str),
      entries = pre ++ e :: post → e.isDirectory = false →
      e.filename = some n → e.content = some c →
      (∀ e2 ∈ post, e2.isDirectory = false → ∀ n2 c2, e2.filename = some n2 →
        e2.content = some c2 → normalizePath n2 ≠ normalizePath n) →
      (FusedArchive.init parse (some data)).2.readFile n = some c) ∧
    (∀ p ∈ (FusedArchive.init parse (some data)).2.files_,
      ∃ e ∈ entries, e.isDirectory = false ∧
        ∃ n, e.filename = some n ∧ p.1 = normalizePath n ∧ e.content = some p.2) ∧
    ((FusedArchive.init parse (some data)).2.files_.map Prod.fst).Nodup := by
  rw [init_success parse data zip entries hz hp hs]
  refine ⟨?_, ?_, ?_⟩
  · intro pre e post n c hsplit hdir hn hc hlast
    show (if (!true) = true then none
      else (extractEntries [] entries).lookup (normalizePath n)) = some c
    rw [if_neg (by decide), hsplit, extractEntries_append]
    have hstep : extractEntries (extractEntries [] pre) (e :: post)
        = extractEntries (tableSet (extractEntries [] pre) (normalizePath n) c) post := by
      simp [extractEntries, hdir, hn, hc]
    rw [hstep, lookup_extractEntries_other (normalizePath n) post hlast, lookup_tableSet,
      if_pos rfl]
  · intro p hp2
    rcases mem_extractEntries entries [] p hp2 with h | h
    · exact absurd h (List.not_mem_nil _)
    · exact h
  · exact extractEntries_nodup entries [] List.nodup_nil

/-- Witness for `init_stores_last_entry`: of a directory, a file that cannot be
extracted and the file `.\lib\n.lua`, the last is read back. -/
theorem init_stores_last_entry_witness :
    zipSlice demoZip = some demoZip ∧
    (FusedArchive.init mixedParse (some demoZip)).1 = true ∧
    (FusedArchive.init mixedParse (some demoZip)).2.readFile ".\\lib\\n.lua".toList
      = some "return 2".toList :=
  ⟨by decide, by decide,
   (init_stores_last_entry mixedParse demoZip demoZip mixedEntries (by decide) rfl
      (by decide)).1
     [{ isDirectory := true, filename := some "lib/".toList, content := none },
      { isDirectory := false, filename := some "broken.lua".toList, content := none }]
     { isDirectory := false, filename := some ".\\lib\\n.lua".toList,
       content := some "return 2".toList }
     [] ".\\lib\\n.lua".toList "return 2".toList rfl rfl rfl rfl
     (fun _ h => absurd h (List.not_mem_nil _))⟩

/-! ## Fused archive: init clears first -/

theorem initFrom_eq_init (a : FusedArchive) (parse : List Byte → Option (List ZipEntry))
    (exeData : Option (List Byte)) :
    FusedArchive.initFrom a parse exeData = FusedArchive.init parse exeData := by
  unfold FusedArchive.initFrom FusedArchive.init
  cases exeData with
  | none => rfl
  | some data => simp only

/-- C20: `FusedArchive::init` gives the same result and the same table from every
prior state of the class. After it returns, every pair of the table is the
normalized name and the content of a non-directory entry of the container read
by that call, `isFused()` is the value returned and is true exactly when the
table is non-empty, and each way of failing (unreadable image, no container
found, parse failure, no stored entry) leaves an empty table and `isFused()`
false. `shutdown` leaves an empty table and `isFused()` false. -/
theorem init_clears_first (a : FusedArchive) (parse : List Byte → Option (List ZipEntry))
    (exeData : Option (List Byte)) :
    FusedArchive.initFrom a parse exeData = FusedArchive.init parse exeData ∧
    (∀ p ∈ (FusedArchive.initFrom a parse exeData).2.files_,
      ∃ data zip entries, exeData = some data ∧ zipSlice data = some zip ∧
        parse zip = some entries ∧
        ∃ e ∈ entries, e.isDirectory = false ∧
          ∃ n, e.filename = some n ∧ p.1 = normalizePath n ∧ e.content = some p.2) ∧
    (FusedArchive.initFrom a parse exeData).2.isFused = (FusedArchive.initFrom a parse exeData).1 ∧
    ((FusedArchive.initFrom a parse exeData).2.isFused = true ↔
      (FusedArchive.initFrom a parse exeData).2.files_ ≠ []) ∧
    ((FusedArchive.initFrom a parse exeData).1 = false →
      (FusedArchive.initFrom a parse exeData).2.files_ = [] ∧
      (FusedArchive.initFrom a parse exeData).2.isFused = false) ∧
    ((exeData = none ∨
      (∃ data, exeData = some data ∧ zipSlice data = none) ∨
      (∃ data zip, exeData = some data ∧ zipSlice data = some zip ∧ parse zip = none) ∨
      (∃ data zip entries, exeData = some data ∧ zipSlice data = some zip ∧
        parse zip = some entries ∧ extractEntries [] entries = [])) →
      (FusedArchive.initFrom a parse exeData).1 = false) ∧
    (a.shutdown.files_ = [] ∧ a.shutdown.isFused = false) := by
  refine ⟨initFrom_eq_init a parse exeData, ?_, ?_, ?_, ?_, ?_, rfl, rfl⟩
  all_goals rw [initFrom_eq_init a parse exeData]
  all_goals unfold FusedArchive.init
  all_goals cases exeData with
    | none => simp [FusedArchive.isFused]
    | some data =>
      simp only
      cases hz : zipSlice data with
      | none => simp [FusedArchive.isFused, hz]
      | some zip =>
        simp only
        cases hp : parse zip with
        | none => simp [FusedArchive.isFused, hz, hp]
        | some entries =>
          simp only
          by_cases hE : extractEntries [] entries = []
          · simp [FusedArchive.isFused, hz, hp, hE]
          · have hb : (extractEntries [] entries).isEmpty = false := by simpa using hE
            simp only [hb, Bool.false_eq_true, if_false]
            first
              | (intro p hp2
                 rcases mem_extractEntries entries [] p hp2 with h | h
                 · exact absurd h (List.not_mem_nil _)
                 · exact ⟨data, zip, entries, rfl, hz, hp, h⟩)
              | simp [FusedArchive.isFused, hz, hp, hE]

/-- Witness for `init_clears_first`: a class state that holds the two entries of
`demoArchive` is left empty and not fused by a call whose image cannot be
read. -/
theorem init_clears_first_witness :
    (FusedArchive.initFrom demoArchive collidingParse none).1 = false ∧
    (FusedArchive.initFrom demoArchive collidingParse none).2.files_ = [] ∧
    (FusedArchive.initFrom demoArchive collidingParse none).2.isFused = false :=
  ⟨by decide,
   (init_clears_first demoArchive collidingParse none).2.2.2.2.1 (by decide)⟩

/-! ## Sandbox store: what remove refuses -/

theorem pathAppend_ne_nil (pf : Platform) (p q : Str) (hq : q ≠ []) : pathAppend pf p q ≠ [] := by
  unfold pathAppend
  simp only
  split
  · exact hq
  · split
    · exact hq
    · rename_i h2
      split
      · rename_i h3
        have hlt : rootNameEnd pf q < q.length := by
          simp only [Bool.and_eq_true, decide_eq_true_eq] at h3
          exact h3.1
        intro he
        have := congrArg List.length he
        simp at this
        omega
      · by_cases hqr : rootNameEnd pf q = 0
        · have hd : q.drop (rootNameEnd pf q) = q := by rw [hqr]; rfl
          rw [hd]
          split <;> simp [hq]
        · have hp : p ≠ [] := by
            rintro rfl
            apply h2
            have hq2 : q.take (rootNameEnd pf q) ≠ [] := by
              intro he
              rcases List.take_eq_nil_iff.mp he with h0 | h0
              · exact hqr h0
              · exact hq h0
            simp [hqr, Ne.symm hq2]
          split <;> split <;> simp [hp]

theorem lexically_normal_ne_nil (pf : Platform) (p : Str) (hp : p ≠ []) :
    lexically_normal pf p ≠ [] := by
  unfold lexically_normal
  have : p.isEmpty = false := by simpa using hp
  simp only [this, Bool.false_eq_true, if_false]
  split
  · decide
  · rename_i h; simpa using h

theorem resolveSavePath_ne_nil (pf : Platform) (saveDir p : Str) (hp : p ≠ [])
    (hsafe : isPathSafe pf p = true) : resolveSavePath pf saveDir p ≠ [] := by
  unfold resolveSavePath
  have : p.isEmpty = false := by simpa using hp
  simp only [hsafe, this, Bool.not_true, Bool.false_eq_true, if_false]
  exact pathAppend_ne_nil pf saveDir _ (lexically_normal_ne_nil pf p hp)

/-- C21: `remove("")` fails with "cannot remove save directory root" without a
file-system call; and `remove(p)` for a non-empty safe path whose resolved
location exists, is a directory and lists at least one child fails with
"directory is not empty" after those three queries only. In both cases the
file-system state is what it was and no `remove` call was made. -/
theorem remove_refuses_root_and_nonempty {Φ : Type} (F : FileSystem Φ) (env : Env) (h : LuaHost)
    (w : World Φ) :
    ((l_fs_remove F env h w []).1
        = FsReturn.falseMsg "cannot remove save directory root".toList ∧
      (l_fs_remove F env h w []).2.2 = w) ∧
    (∀ p : Str, p ≠ [] → isPathSafe env.pf p = true →
      (F.pathExists w.fs (resolveSavePath env.pf (enterSandbox env h).saveDir p)).1 = true →
      (F.is_directory w.fs (resolveSavePath env.pf (enterSandbox env h).saveDir p)).1 = true →
      (F.is_directory w.fs
        (resolveSavePath env.pf (enterSandbox env h).saveDir p)).2.failed = false →
      (F.directory_iterator w.fs
        (resolveSavePath env.pf (enterSandbox env h).saveDir p)).1 ≠ [] →
      (F.directory_iterator w.fs
        (resolveSavePath env.pf (enterSandbox env h).saveDir p)).2.failed = false →
      (l_fs_remove F env h w p).1 = FsReturn.falseMsg "directory is not empty".toList ∧
      (l_fs_remove F env h w p).2.2.fs = w.fs ∧
      (l_fs_remove F env h w p).2.2.calls = w.calls ++
        [FsCall.pathExists (resolveSavePath env.pf (enterSandbox env h).saveDir p),
         FsCall.is_directory (resolveSavePath env.pf (enterSandbox env h).saveDir p),
         FsCall.directory_iterator (resolveSavePath env.pf (enterSandbox env h).saveDir p)]) := by
  constructor
  · have hs : isPathSafe env.pf [] = true := by cases hpf : env.pf <;> decide
    simp [l_fs_remove, hs]
  · intro p hp hsafe hex hdir hdirOk hlist hlistOk
    have hne := resolveSavePath_ne_nil env.pf (enterSandbox env h).saveDir p hp hsafe
    have he1 : p.isEmpty = false := by simpa using hp
    have he2 : (resolveSavePath env.pf (enterSandbox env h).saveDir p).isEmpty = false := by
      simpa using hne
    have he3 : (F.directory_iterator w.fs
        (resolveSavePath env.pf (enterSandbox env h).saveDir p)).1.isEmpty = false := by
      simpa using hlist
    simp [l_fs_remove, hsafe, he1, he2, callExists, callIsDirectory, callDirectoryIterator,
      hex, hdir, hdirOk, he3, hlistOk]

/-- Witness for `remove_refuses_root_and_nonempty`: `remove("d")` where `d` holds
the file `f`. -/
theorem remove_refuses_root_and_nonempty_witness :
    (l_fs_remove (memFs Platform.posix) posixEnv (freshHost posixEnv) nonEmptyDirWorld
        "d".toList).1 = FsReturn.falseMsg "directory is not empty".toList ∧
    (l_fs_remove (memFs Platform.posix) posixEnv (freshHost posixEnv) nonEmptyDirWorld
        "d".toList).2.2.fs = nonEmptyDirWorld.fs :=
  ⟨((remove_refuses_root_and_nonempty (memFs Platform.posix) posixEnv (freshHost posixEnv)
      nonEmptyDirWorld).2 "d".toList (by decide) (by decide) (by decide) (by decide) (by decide)
      (by decide) (by decide)).1,
   ((remove_refuses_root_and_nonempty (memFs Platform.posix) posixEnv (freshHost posixEnv)
      nonEmptyDirWorld).2 "d".toList (by decide) (by decide) (by decide) (by decide) (by decide)
      (by decide) (by decide)).2.1⟩

/-! ## Callback dispatch: absent callbacks -/

theorem get?_append_singleton_last (st : List Slot) (x : Slot) :
    (st ++ [x]).get? ((st ++ [x]).length - 1) = some x := by
  simp

theorem take_append_singleton (st : List Slot) (x : Slot) :
    (st ++ [x]).take ((st ++ [x]).length - 1) = st := by
  simp

theorem eraseIdx_append_two (st : List Slot) (x y : Slot) :
    (st ++ [x] ++ [y]).eraseIdx ((st ++ [x] ++ [y]).length - 2) = st ++ [y] := by
  have h : (st ++ [x] ++ [y]).length - 2 = st.length := by simp
  rw [h, List.append_assoc, List.eraseIdx_append_of_length_le (Nat.le_refl _)]
  simp

/-- Without a callback of that name, `pushLimeCallback` answers false and leaves
the engine as it found it. -/
theorem pushLimeCallback_absent {Φ : Type} (d : Dispatch Φ) (name : Str)
    (h : d.lime.hasCallback name = false) : pushLimeCallback d name = (false, d) := by
  obtain ⟨session, lime, stack⟩ := d
  cases lime with
  | notTable v =>
    simp [pushLimeCallback, lua_istable, stackPos, lua_pop]
  | table field =>
    simp only [LimeGlobal.hasCallback] at h
    cases hf : field name with
    | function body => rw [hf] at h; simp at h
    | notFunction v =>
      have e1 : stackPos (stack ++ [Slot.global (LimeGlobal.table field)]) (-1)
          = (stack ++ [Slot.global (LimeGlobal.table field)]).length - 1 := by
        simp [stackPos]
      have e2 : ∀ y, stackPos (stack ++ [Slot.global (LimeGlobal.table field)] ++ [y]) (-2)
          = (stack ++ [Slot.global (LimeGlobal.table field)] ++ [y]).length - 2 := by
        intro y; simp [stackPos]
      have e3 : ∀ y, stackPos (stack ++ [y]) (-1) = (stack ++ [y]).length - 1 := by
        intro y; simp [stackPos]
      simp only [pushLimeCallback, lua_istable, lua_getfield, e1, get?_append_singleton_last,
        Bool.not_true, Bool.false_eq_true, if_false, lua_remove, e2, eraseIdx_append_two,
        lua_isfunction, e3, hf, Bool.not_false, if_true, lua_pop, take_append_singleton]


/-- The dispatchers at work on `demoDispatch`: `callKeyPressed` calls the callback
with its three arguments and returns its result, `callUpdate` calls `update`
with the time step, `callOnSetActive` hands on the error of `init` with the
trace attached, and `callDraw` finds no callback; each leaves the stack as it
found it. -/
theorem dispatch_examples :
    (callKeyPressed demoEngine (demoApi posixEnv noArchive).require
      (demoApi posixEnv noArchive).windowQuit demoDispatch 65 38 false).1
      = Outcome.returned true ∧
    (callKeyPressed demoEngine (demoApi posixEnv noArchive).require
      (demoApi posixEnv noArchive).windowQuit demoDispatch 65 38 false).2.session.lua.log
      = [EngineEvent.callback "keypressed".toList
          [HostArg.integer 65, HostArg.integer 38, HostArg.boolean false]] ∧
    (callKeyPressed demoEngine (demoApi posixEnv noArchive).require
      (demoApi posixEnv noArchive).windowQuit demoDispatch 65 38 false).2.stack.length = 1 ∧
    (callUpdate demoEngine (demoApi posixEnv noArchive).require
      (demoApi posixEnv noArchive).windowQuit demoDispatch (1 / 60)).1 = Outcome.returned () ∧
    (callUpdate demoEngine (demoApi posixEnv noArchive).require
      (demoApi posixEnv noArchive).windowQuit demoDispatch (1 / 60)).2.session.lua.log
      = [EngineEvent.callback "update".toList [HostArg.number (1 / 60)]] ∧
    (callUpdate demoEngine (demoApi posixEnv noArchive).require
      (demoApi posixEnv noArchive).windowQuit demoDispatch (1 / 60)).2.stack.length = 1 ∧
    (callOnSetActive demoEngine (demoApi posixEnv noArchive).require
      (demoApi posixEnv noArchive).windowQuit demoDispatch true).1
      = Outcome.raised (demoEngine.traceback "boom".toList) ∧
    (callOnSetActive demoEngine (demoApi posixEnv noArchive).require
      (demoApi posixEnv noArchive).windowQuit demoDispatch true).2.stack.length = 1 ∧
    (callDraw demoEngine (demoApi posixEnv noArchive).require
      (demoApi posixEnv noArchive).windowQuit demoDispatch).2.session.lua.log = [] := by
  refine ⟨?_, ?_, ?_, ?_, ?_, ?_, ?_, ?_, ?_⟩ <;> rfl


theorem hasCallback_eq_false_iff (g : LimeGlobal) (name : Str) :
    g.hasCallback name = false ↔
      ((∃ v, g = LimeGlobal.notTable v) ∨
       (∃ field v, g = LimeGlobal.table field ∧ field name = LimeField.notFunction v)) := by
  cases g with
  | notTable v => exact ⟨fun _ => Or.inl ⟨v, rfl⟩, fun _ => rfl⟩
  | table field =>
    constructor
    · intro h
      cases hf : field name with
      | function body => simp [LimeGlobal.hasCallback, hf] at h
      | notFunction v => exact Or.inr ⟨field, v, rfl, hf⟩
    · rintro (⟨v, hv⟩ | ⟨f2, v, hg, hf⟩)
      · exact LimeGlobal.noConfusion hv
      · cases hg
        simp [LimeGlobal.hasCallback, hf]

/-- C22: on an existing engine, when the global `lime` is not a table or its
field for the callback is not a function, each of the seven dispatchers returns
normally with the engine exactly as it found it - the same stack, the same
session and engine record, so nothing was invoked - and the key, text and quit
dispatchers return false. -/
theorem dispatch_absent_callback {Φ : Type} (E : Engine)
    (req : Session Φ → Str → Outcome LuaValue × Session Φ)
    (quit : Session Φ → Int → Outcome Unit × Session Φ)
    (d : Dispatch Φ) (hL : d.session.host.L ≠ none) :
    (∀ name, d.lime.hasCallback name = false ↔
      ((∃ v, d.lime = LimeGlobal.notTable v) ∨
       (∃ field v, d.lime = LimeGlobal.table field ∧ field name = LimeField.notFunction v))) ∧
    (d.lime.hasCallback "init".toList = false →
      ∀ initial, callOnSetActive E req quit d initial = (Outcome.returned (), d)) ∧
    (d.lime.hasCallback "update".toList = false →
      ∀ dt, callUpdate E req quit d dt = (Outcome.returned (), d)) ∧
    (d.lime.hasCallback "draw".toList = false →
      callDraw E req quit d = (Outcome.returned (), d)) ∧
    (d.lime.hasCallback "keypressed".toList = false →
      ∀ key scancode isrepeat,
        callKeyPressed E req quit d key scancode isrepeat = (Outcome.returned false, d)) ∧
    (d.lime.hasCallback "keyreleased".toList = false →
      ∀ key scancode, callKeyReleased E req quit d key scancode = (Outcome.returned false, d)) ∧
    (d.lime.hasCallback "textinput".toList = false →
      ∀ c, callTextInput E req quit d c = (Outcome.returned false, d)) ∧
    (d.lime.hasCallback "quit".toList = false →
      Dispatch.callQuit E req quit d = (Outcome.returned false, d)) := by
  have hN : d.session.host.L.isNone = false := by
    cases h : d.session.host.L with
    | none => exact absurd h hL
    | some _ => rfl
  refine ⟨hasCallback_eq_false_iff d.lime, ?_, ?_, ?_, ?_, ?_, ?_, ?_⟩
  · intro h initial
    cases initial
    · rfl
    · simp only [callOnSetActive, pushLimeCallback_absent d _ h, Bool.not_true,
        Bool.false_eq_true, if_false]
  · intro h dt
    simp only [callUpdate, pushLimeCallback_absent d _ h]
  · intro h
    simp only [callDraw, pushLimeCallback_absent d _ h]
  · intro h key scancode isrepeat
    simp only [callKeyPressed, pushLimeCallback_absent d _ h]
  · intro h key scancode
    simp only [callKeyReleased, pushLimeCallback_absent d _ h]
  · intro h c
    simp only [callTextInput, pushLimeCallback_absent d _ h]
  · intro h
    simp only [Dispatch.callQuit, hN, Bool.false_eq_true, if_false,
      pushLimeCallback_absent d _ h]

/-- Witness for `dispatch_absent_callback`: with `lime` nil, a key press is
reported unhandled and the engine is untouched. -/
theorem dispatch_absent_callback_witness :
    bareDispatch.session.host.L ≠ none ∧
    callKeyPressed demoEngine (demoApi posixEnv noArchive).require
      (demoApi posixEnv noArchive).windowQuit bareDispatch 65 38 false
      = (Outcome.returned false, bareDispatch) :=
  ⟨by decide,
   (dispatch_absent_callback demoEngine (demoApi posixEnv noArchive).require
      (demoApi posixEnv noArchive).windowQuit bareDispatch (by decide)).2.2.2.2.1 rfl
      65 38 false⟩

/-! ## Callback dispatch: calls -/

theorem pushLimeCallback_present {Φ : Type} (d : Dispatch Φ) (name : Str)
    (field : Str → LimeField) (body : List HostArg → Script)
    (hl : d.lime = LimeGlobal.table field) (hf : field name = LimeField.function body) :
    pushLimeCallback d name
      = (true, { d with stack := d.stack ++ [Slot.field (LimeField.function body)] }) := by
  obtain ⟨session, lime, stack⟩ := d
  simp only at hl
  subst hl
  have e1 : stackPos (stack ++ [Slot.global (LimeGlobal.table field)]) (-1)
      = (stack ++ [Slot.global (LimeGlobal.table field)]).length - 1 := by
    simp [stackPos]
  have e2 : ∀ y, stackPos (stack ++ [Slot.global (LimeGlobal.table field)] ++ [y]) (-2)
      = (stack ++ [Slot.global (LimeGlobal.table field)] ++ [y]).length - 2 := by
    intro y; simp [stackPos]
  have e3 : ∀ y, stackPos (stack ++ [y]) (-1) = (stack ++ [y]).length - 1 := by
    intro y; simp [stackPos]
  simp only [pushLimeCallback, lua_istable, lua_getfield, e1, get?_append_singleton_last,
    Bool.not_true, Bool.false_eq_true, if_false, lua_remove, e2, eraseIdx_append_two,
    lua_isfunction, e3, hf]

theorem filterMap_toArg (args : List HostArg) :
    (args.map Slot.arg).filterMap Slot.toArg = args := by
  induction args with
  | nil => rfl
  | cons a rest ih => simp [List.filterMap_cons, Slot.toArg, ih]

/-- What `LuaHost::pcall` does with a function and its arguments on top of the
stack: the body runs on the arguments; on return the results replace function
and arguments, on an error both are gone and the message with the trace is
thrown. -/
theorem pcall_function {Φ : Type} (E : Engine)
    (req : Session Φ → Str → Outcome LuaValue × Session Φ)
    (quit : Session Φ → Int → Outcome Unit × Session Φ)
    (d : Dispatch Φ) (base : List Slot) (body : List HostArg → Script) (args : List HostArg)
    (nrets : Nat)
    (hst : d.stack = base ++ Slot.field (LimeField.function body) :: args.map Slot.arg) :
    pcall E req quit d args.length nrets =
      match runScript req quit (body args) d.session with
      | (Outcome.returned v, s1) =>
        (Outcome.returned (), { d with session := s1, stack := base ++ callResults nrets v })
      | (Outcome.raised err, s1) =>
        (Outcome.raised (E.traceback err), { d with session := s1, stack := base })
      | (Outcome.exited code, s1) =>
        (Outcome.exited code,
          { d with session := s1,
                   stack := base ++ Slot.traceback :: Slot.field (LimeField.function body) ::
                     args.map Slot.arg }) := by
  obtain ⟨session, lime, stack⟩ := d
  simp only at hst
  subst hst
  have hidx : ((lua_gettop (base ++ Slot.field (LimeField.function body) ::
      args.map Slot.arg) : Nat) : Int) - (args.length : Int) = ((base.length + 1 : Nat) : Int) := by
    simp [lua_gettop]; omega
  have hpos : ∀ st : List Slot, stackPos st ((base.length + 1 : Nat) : Int) = base.length := by
    intro st
    unfold stackPos
    have : (((base.length + 1 : Nat) : Int) > 0) := by omega
    rw [if_pos this]
    simp
  have hins : lua_insert ((base ++ Slot.field (LimeField.function body) ::
      args.map Slot.arg) ++ [Slot.traceback]) ((base.length + 1 : Nat) : Int)
      = base ++ Slot.traceback :: Slot.field (LimeField.function body) :: args.map Slot.arg := by
    unfold lua_insert
    rw [hpos, List.getLast?_concat, List.dropLast_concat]
    simp
  have hlen : (base ++ Slot.traceback :: Slot.field (LimeField.function body) ::
      args.map Slot.arg).length - args.length - 1 = base.length + 1 := by
    simp; omega
  have hlen2 : (base ++ Slot.traceback :: Slot.field (LimeField.function body) ::
      args.map Slot.arg).length - args.length = base.length + 2 := by
    simp; omega
  have hcallee : (base ++ Slot.traceback :: Slot.field (LimeField.function body) ::
      args.map Slot.arg).get? (base.length + 1)
      = some (Slot.field (LimeField.function body)) := by
    rw [List.get?_eq_getElem?, List.getElem?_append_right (by omega)]
    simp
  have hhandler : (base ++ Slot.traceback :: Slot.field (LimeField.function body) ::
      args.map Slot.arg).get? base.length = some Slot.traceback := by
    rw [List.get?_eq_getElem?, List.getElem?_append_right (by omega)]
    simp
  have hargs : ((base ++ Slot.traceback :: Slot.field (LimeField.function body) ::
      args.map Slot.arg).drop (base.length + 2)).filterMap Slot.toArg = args := by
    have : (base ++ Slot.traceback :: Slot.field (LimeField.function body) ::
        args.map Slot.arg).drop (base.length + 2) = args.map Slot.arg := by
      rw [List.drop_append_eq_append_drop]
      simp
    rw [this, filterMap_toArg]
  have hbase : (base ++ Slot.traceback :: Slot.field (LimeField.function body) ::
      args.map Slot.arg).take (base.length + 1) = base ++ [Slot.traceback] := by
    rw [List.take_append_eq_append_take]
    simp
  unfold pcall
  simp only [hidx, hins]
  unfold lua_pcall
  have h21 : base.length + 2 - 1 = base.length + 1 := rfl
  simp only [hlen2, h21, hcallee, hhandler, hargs, hbase, hpos]
  have herase : ∀ rest : List Slot,
      (base ++ [Slot.traceback] ++ rest).eraseIdx base.length = base ++ rest := by
    intro rest
    rw [List.append_assoc, List.eraseIdx_append_of_length_le (Nat.le_refl _)]
    simp
  rcases hr : runScript req quit (body args) session with ⟨o, s1⟩
  cases o with
  | returned v =>
    simp only [lua_remove, hpos, herase, Bool.not_true, Bool.false_eq_true, if_false]
  | raised err =>
    simp only [lua_remove, hpos, herase, Bool.not_false, if_true, List.getLast?_concat,
      Slot.toStr, Option.getD_some, lua_pop]
    simp
  | exited code => simp only


/-- The dispatcher `callQuit` on the engine's stack does what `callQuit` does on
the session, and leaves the stack as it found it unless the process exits
inside the callback. -/
theorem callQuit_on_stack {Φ : Type} (E : Engine)
    (req : Session Φ → Str → Outcome LuaValue × Session Φ)
    (quit : Session Φ → Int → Outcome Unit × Session Φ)
    (d : Dispatch Φ) (hq : d.session.lua.limeQuit = d.lime.quit) :
    (Dispatch.callQuit E req quit d).1 = (callQuit E req quit d.session).1 ∧
    (Dispatch.callQuit E req quit d).2.session = (callQuit E req quit d.session).2 ∧
    ((∀ code, (Dispatch.callQuit E req quit d).1 ≠ Outcome.exited code) →
      (Dispatch.callQuit E req quit d).2.stack = d.stack) := by
  unfold Dispatch.callQuit callQuit
  by_cases hN : d.session.host.L.isNone = true
  · simp [hN]
  · simp only [hN, Bool.false_eq_true, if_false]
    cases hl : d.lime with
    | notTable v =>
      have ha : d.lime.hasCallback "quit".toList = false := by rw [hl]; rfl
      have hnone : d.session.lua.limeQuit = none := by rw [hq, hl]; rfl
      rw [pushLimeCallback_absent d _ ha]
      simp only [hnone]
      exact ⟨trivial, trivial, fun _ => trivial⟩
    | table field =>
      cases hf : field "quit".toList with
      | notFunction v =>
        have ha : d.lime.hasCallback "quit".toList = false := by
          rw [hl]; simp only [LimeGlobal.hasCallback, hf]
        have hnone : d.session.lua.limeQuit = none := by
          rw [hq, hl]; simp only [LimeGlobal.quit, hf]
        rw [pushLimeCallback_absent d _ ha]
        simp only [hnone]
        exact ⟨trivial, trivial, fun _ => trivial⟩
      | function body =>
        have hsome : d.session.lua.limeQuit = some (body []) := by
          rw [hq, hl]; simp only [LimeGlobal.quit, hf]
        rw [pushLimeCallback_present d _ field body hl hf]
        simp only [hsome]
        unfold pcallHandled
        have hp := pcall_function E req quit
          (Dispatch.record { d with stack := d.stack ++ [Slot.field (LimeField.function body)] }
            EngineEvent.quitCallback) d.stack body [] 1 rfl
        simp only [List.length_nil] at hp
        rw [hp]
        simp only [Dispatch.record]
        rcases hr : runScript req quit (body []) (d.session.record EngineEvent.quitCallback)
          with ⟨o, s1⟩
        cases o with
        | returned v =>
          simp [takeHandled, callResults, lua_pop, Slot.toBoolean]
        | raised err => simp
        | exited code => simp

/-! ## Screen activation: the init callback -/

theorem wrapInt32_of_range (x : Int) (h1 : -2147483648 ≤ x) (h2 : x < 2147483648) :
    wrapInt32 x = x := by
  unfold wrapInt32
  norm_num
  omega

theorem setActive_later {Φ : Type} (E : Engine)
    (req : Session Φ → Str → Outcome LuaValue × Session Φ)
    (quit : Session Φ → Int → Outcome Unit × Session Φ)
    (scr : Screen) (d : Dispatch Φ) (h1 : 1 ≤ scr.set_active_count)
    (h2 : scr.set_active_count < 2147483647) :
    Screen.setActive E req quit scr d
      = (Outcome.returned (),
         { redraw := true, set_active_count := scr.set_active_count + 1 }, d) := by
  unfold Screen.setActive ScreenLua.onSetActive
  simp only
  rw [wrapInt32_of_range _ (by omega) (by omega)]
  have hne : (scr.set_active_count + 1 == 1) = false := by
    simp only [beq_eq_false_iff_ne, ne_eq]
    omega
  rw [hne]
  rfl

theorem activations_later {Φ : Type} (E : Engine)
    (req : Session Φ → Str → Outcome LuaValue × Session Φ)
    (quit : Session Φ → Int → Outcome Unit × Session Φ)
    (n : Nat) : ∀ (scr : Screen) (d : Dispatch Φ), 1 ≤ scr.set_active_count →
      scr.set_active_count + n < 2147483648 →
      activations E req quit n (scr, d)
        = ({ redraw := if n = 0 then scr.redraw else true,
             set_active_count := scr.set_active_count + n }, d) := by
  induction n with
  | zero => intro scr d _ _; simp [activations]
  | succ k ih =>
    intro scr d h1 h2
    simp only [activations]
    rw [setActive_later E req quit scr d h1 (by omega)]
    simp only
    rw [ih _ d (by simp only; omega) (by simp only; omega)]
    simp only [Nat.succ_ne_zero, if_false, Nat.cast_add, Nat.cast_one]
    congr 2
    · split <;> rfl
    · omega

/-- C23: over every sequence of fewer than 2^31 activations of a newly
constructed script screen - the range in which the `int` counter does not
overflow - the first activation dispatches the init callback
(`callOnSetActive(true)`), every later activation returns without touching the
engine, and so the whole sequence leaves the engine as the single dispatch of
the first activation left it. -/
theorem init_dispatched_once {Φ : Type} (E : Engine)
    (req : Session Φ → Str → Outcome LuaValue × Session Φ)
    (quit : Session Φ → Int → Outcome Unit × Session Φ)
    (d : Dispatch Φ) (n : Nat) (hn : n + 1 < 2 ^ 31) :
    Screen.setActive E req quit newScreen d
      = ((callOnSetActive E req quit d true).1,
         { redraw := true, set_active_count := 1 },
         (callOnSetActive E req quit d true).2) ∧
    (∀ (scr : Screen) (d2 : Dispatch Φ), 1 ≤ scr.set_active_count →
      scr.set_active_count < 2 ^ 31 - 1 →
      Screen.setActive E req quit scr d2
        = (Outcome.returned (),
           { redraw := true, set_active_count := scr.set_active_count + 1 }, d2)) ∧
    (activations E req quit (n + 1) (newScreen, d)).2 = (callOnSetActive E req quit d true).2 ∧
    (activations E req quit (n + 1) (newScreen, d)).1.set_active_count = n + 1 := by
  have hfirst : Screen.setActive E req quit newScreen d
      = ((callOnSetActive E req quit d true).1,
         { redraw := true, set_active_count := 1 },
         (callOnSetActive E req quit d true).2) := rfl
  have hn2 : (n : Int) + 1 < 2147483648 := by
    have : n + 1 < 2147483648 := by simpa using hn
    omega
  refine ⟨hfirst, ?_, ?_, ?_⟩
  · intro scr d2 h1 h2
    exact setActive_later E req quit scr d2 h1 (by norm_num at h2; omega)
  · simp only [activations]
    rw [hfirst]
    simp only
    rw [activations_later E req quit n _ _ (by simp) (by simp only; omega)]
  · simp only [activations]
    rw [hfirst]
    simp only
    rw [activations_later E req quit n _ _ (by simp) (by simp only; omega)]
    simp only
    omega

/-- Witness for `init_dispatched_once`: three activations of the screen of
`demoDispatch` record the call of `init` once. -/
theorem init_dispatched_once_witness :
    2 + 1 < 2 ^ 31 ∧
    (activations demoEngine (demoApi posixEnv noArchive).require
      (demoApi posixEnv noArchive).windowQuit (2 + 1) (newScreen, demoDispatch)).2
      = (callOnSetActive demoEngine (demoApi posixEnv noArchive).require
          (demoApi posixEnv noArchive).windowQuit demoDispatch true).2 ∧
    (activations demoEngine (demoApi posixEnv noArchive).require
      (demoApi posixEnv noArchive).windowQuit (2 + 1)
      (newScreen, demoDispatch)).2.session.lua.log = [EngineEvent.callback "init".toList []] :=
  ⟨by decide,
   (init_dispatched_once demoEngine (demoApi posixEnv noArchive).require
      (demoApi posixEnv noArchive).windowQuit demoDispatch 2 (by decide)).2.2.1,
   rfl⟩

/-! ## Fused archive: the scan and its reference -/

theorem byteAt_lt (D : List Byte) (i : Nat) : byteAt D i < 256 := (D.getD i 0).isLt

theorem byteAt_drop (D : List Byte) (i j : Nat) :
    byteAt D (i + j) = ((D.drop i).getD j 0).val := by
  unfold byteAt
  simp [List.getD_eq_getElem?_getD, List.getElem?_drop]

theorem hasEocdSignature_eq (D : List Byte) (i : Nat) :
    hasEocdSignature D i
      = (((D.drop i).take 4).map (fun b => b.val) == [0x50, 0x4B, 0x05, 0x06]) := by
  unfold hasEocdSignature
  have h0 := byteAt_drop D i 0
  rw [Nat.add_zero] at h0
  rw [h0, byteAt_drop D i 1, byteAt_drop D i 2, byteAt_drop D i 3]
  generalize D.drop i = L
  rcases L with _ | ⟨a, _ | ⟨b, _ | ⟨c, _ | ⟨d, rest⟩⟩⟩⟩
  · rfl
  · simp [List.getD]
  · simp [List.getD]
  · simp [List.getD]
  · simp only [List.getD_cons_zero, List.getD_cons_succ, List.take_succ_cons, List.take_zero,
      List.map_cons, List.map_nil]
    rw [Bool.eq_iff_iff]
    simp only [Bool.and_eq_true, beq_iff_eq, List.cons.injEq, and_true, and_assoc]

theorem lor_shift8 (a b : Nat) (ha : a < 256) : a ||| (b <<< 8) = a + 256 * b := by
  have h := Nat.mul_add_lt_is_or (i := 8) (b := a) (by simpa using ha) b
  rw [Nat.lor_comm, Nat.shiftLeft_eq, Nat.mul_comm b, ← h]
  norm_num
  omega

theorem lor_shift16 (a b : Nat) (ha : a < 65536) : a ||| (b <<< 16) = a + 65536 * b := by
  have h := Nat.mul_add_lt_is_or (i := 16) (b := a) (by simpa using ha) b
  rw [Nat.lor_comm, Nat.shiftLeft_eq, Nat.mul_comm b, ← h]
  norm_num
  omega

theorem lor_shift24 (a b : Nat) (ha : a < 16777216) : a ||| (b <<< 24) = a + 16777216 * b := by
  have h := Nat.mul_add_lt_is_or (i := 24) (b := a) (by simpa using ha) b
  rw [Nat.lor_comm, Nat.shiftLeft_eq, Nat.mul_comm b, ← h]
  norm_num
  omega

theorem le16_eq_leField (D : List Byte) (p : Nat) : le16 D p = leField D p 2 := by
  unfold le16
  simp only [leField]
  rw [lor_shift8 _ _ (byteAt_lt D p)]
  omega

theorem le32_eq_leField (D : List Byte) (p : Nat) : le32 D p = leField D p 4 := by
  unfold le32
  simp only [leField]
  have h0 := byteAt_lt D p
  have h1 := byteAt_lt D (p + 1)
  have h2 := byteAt_lt D (p + 2)
  rw [lor_shift8 _ _ h0, lor_shift16 _ _ (by omega), lor_shift24 _ _ (by omega)]
  have e2 : p + 1 + 1 = p + 2 := by omega
  have e3 : p + 1 + 1 + 1 = p + 3 := by omega
  rw [e2, e3]
  omega

/-- The body of the scan loop in the words of the reference. -/
theorem checkEocdAt_eq (D : List Byte) (i : Nat) :
    checkEocdAt D i =
      if eocdCandidate D i then
        some (if cdSizeAt D i > i ∨ cdOffsetAt D i > i - cdSizeAt D i then none
              else some (i - cdSizeAt D i - cdOffsetAt D i))
      else none := by
  unfold checkEocdAt eocdCandidate commentLenAt cdSizeAt cdOffsetAt
  rw [hasEocdSignature_eq, le16_eq_leField, le32_eq_leField, le32_eq_leField]
  by_cases hs : (((D.drop i).take 4).map (fun b => b.val) == [0x50, 0x4B, 0x05, 0x06]) = true
  · by_cases hc : (i + 22 + leField D (i + 20) 2 == D.length) = true
    · simp only [hs, hc, if_true, Bool.and_self]
      by_cases h1 : i < leField D (i + 12) 4
      · simp [h1]
      · by_cases h2 : i - leField D (i + 12) 4 < leField D (i + 16) 4
        · simp [h1, h2]
        · simp [h1, h2]
    · have hc2 := (Bool.not_eq_true _).mp hc
      simp only [hs, hc2, if_true, Bool.and_false, Bool.false_eq_true, if_false]
  · have hs2 := (Bool.not_eq_true _).mp hs
    simp only [hs2, Bool.false_and, Bool.false_eq_true, if_false]


theorem getLast?_filter_concat (p : Nat → Bool) (l : List Nat) (x : Nat) :
    ((l ++ [x]).filter p).getLast? = if p x then some x else (l.filter p).getLast? := by
  rw [List.filter_append]
  by_cases hx : p x = true
  · simp [List.filter, hx, List.getLast?_append]
  · have hx2 := (Bool.not_eq_true _).mp hx
    simp [List.filter, hx2]

/-- The scan loop from `searchFrom + k` down to `searchFrom` acts on the largest
candidate of that range. -/
theorem scanEocd_eq_last (D : List Byte) (sf : Nat) : ∀ k : Nat,
    scanEocd D sf k =
      match ((List.range (sf + k + 1)).filter
          (fun i => decide (sf ≤ i) && eocdCandidate D i)).getLast? with
      | none => none
      | some i =>
        if cdSizeAt D i > i ∨ cdOffsetAt D i > i - cdSizeAt D i then none
        else some (i - cdSizeAt D i - cdOffsetAt D i) := by
  intro k
  induction k with
  | zero =>
    simp only [scanEocd, Nat.add_zero]
    rw [List.range_succ, getLast?_filter_concat, checkEocdAt_eq]
    have hnil : (List.range sf).filter (fun i => decide (sf ≤ i) && eocdCandidate D i) = [] := by
      rw [List.filter_eq_nil_iff]
      intro a ha
      have : a < sf := List.mem_range.mp ha
      simp; omega
    rw [hnil]
    by_cases hc : eocdCandidate D sf = true
    · simp [hc]
    · have hc2 := (Bool.not_eq_true _).mp hc
      simp [hc2]
  | succ k ih =>
    simp only [scanEocd]
    have e : sf + (k + 1) + 1 = (sf + (k + 1)) + 1 := rfl
    rw [e, List.range_succ, getLast?_filter_concat, checkEocdAt_eq, ih]
    have e2 : sf + (k + 1) = sf + k + 1 := rfl
    rw [e2]
    by_cases hc : eocdCandidate D (sf + k + 1) = true
    · have hle : decide (sf ≤ sf + k + 1) = true := by simp; omega
      simp only [hc, hle, Bool.and_self, if_true]
    · have hc2 := (Bool.not_eq_true _).mp hc
      simp only [hc2, Bool.and_false, Bool.false_eq_true, if_false]

theorem findZipStartOffset_eq_ref (D : List Byte) :
    findZipStartOffset D = findZipStartOffsetRef D := by
  unfold findZipStartOffset findZipStartOffsetRef eocdCandidates
  by_cases hlen : D.length < 22
  · simp [hlen]
  · simp only [hlen, if_false]
    have hsf : (if D.length > 22 + 65535 then D.length - (22 + 65535) else 0)
        = D.length - 65557 := by
      split <;> omega
    rw [hsf, scanEocd_eq_last]
    have hk : D.length - 65557 + (D.length - 22 - (D.length - 65557)) + 1
        = D.length - 22 + 1 := by omega
    rw [hk, Nat.zero_max]


theorem scanEocd_skip (D : List Byte) (sf m : Nat) : ∀ k : Nat, m ≤ k →
    (∀ j, sf + m < j → j ≤ sf + k → checkEocdAt D j = none) →
    scanEocd D sf k = scanEocd D sf m := by
  intro k
  induction k with
  | zero =>
    intro hm _
    have : m = 0 := by omega
    rw [this]
  | succ k ih =>
    intro hm hno
    by_cases he : m = k + 1
    · rw [he]
    · have h1 : checkEocdAt D (sf + (k + 1)) = none := hno _ (by omega) (by omega)
      simp only [scanEocd, h1]
      exact ih (by omega) (fun j hj1 hj2 => hno j hj1 (by omega))

theorem scanEocd_none (D : List Byte) (sf : Nat) : ∀ k : Nat,
    (∀ j, sf ≤ j → j ≤ sf + k → checkEocdAt D j = none) → scanEocd D sf k = none := by
  intro k
  induction k with
  | zero =>
    intro hno
    simp only [scanEocd, hno sf (Nat.le_refl _) (by omega)]
  | succ k ih =>
    intro hno
    simp only [scanEocd, hno (sf + (k + 1)) (by omega) (Nat.le_refl _)]
    exact ih (fun j h1 h2 => hno j h1 (by omega))

/-- The result of the scan when `i` is the largest candidate of the window. -/
theorem findZipStartOffset_of_last (D : List Byte) (i : Nat) (hlen : 22 ≤ D.length)
    (hlo : D.length - 65557 ≤ i) (hhi : i ≤ D.length - 22)
    (hcand : eocdCandidate D i = true)
    (hlast : ∀ j, i < j → j ≤ D.length - 22 → eocdCandidate D j = false) :
    findZipStartOffset D =
      if cdSizeAt D i > i ∨ cdOffsetAt D i > i - cdSizeAt D i then none
      else some (i - cdSizeAt D i - cdOffsetAt D i) := by
  unfold findZipStartOffset
  have hl : ¬ D.length < 22 := by omega
  simp only [hl, if_false]
  have hsf : (if D.length > 22 + 65535 then D.length - (22 + 65535) else 0)
      = D.length - 65557 := by
    split <;> omega
  rw [hsf]
  rw [scanEocd_skip D (D.length - 65557) (i - (D.length - 65557)) _ (by omega)
    (fun j h1 h2 => by
      rw [checkEocdAt_eq, hlast j (by omega) (by omega)]
      simp)]
  have hchk : checkEocdAt D (D.length - 65557 + (i - (D.length - 65557))) =
      some (if cdSizeAt D i > i ∨ cdOffsetAt D i > i - cdSizeAt D i then none
        else some (i - cdSizeAt D i - cdOffsetAt D i)) := by
    have : D.length - 65557 + (i - (D.length - 65557)) = i := by omega
    rw [this, checkEocdAt_eq, hcand]
    simp
  exact scanEocd_of_check D _ _ _ hchk

/-- C24: on every buffer `findZipStartOffset` equals the reference. A buffer
shorter than 22 bytes gives NotFound; so does a window
`max(0, |D| - 65557) <= i <= |D| - 22` without a candidate (signature
`50 4B 05 06` at `i` and `i + 22 + commentLen(i) = |D|`); otherwise the largest
candidate `i` of the window alone decides: NotFound when `cdSize(i) > i` or
`cdOffset(i) > i - cdSize(i)`, else `i - cdSize(i) - cdOffset(i)`, whatever
candidates lie farther from the end. -/
theorem findZipStartOffset_reference (D : List Byte) :
    findZipStartOffset D = findZipStartOffsetRef D ∧
    (D.length < 22 → findZipStartOffset D = none) ∧
    (22 ≤ D.length →
      (∀ j, max 0 (D.length - 65557) ≤ j → j ≤ D.length - 22 → eocdCandidate D j = false) →
      findZipStartOffset D = none) ∧
    (∀ i, 22 ≤ D.length → max 0 (D.length - 65557) ≤ i → i ≤ D.length - 22 →
      eocdCandidate D i = true →
      (∀ j, i < j → j ≤ D.length - 22 → eocdCandidate D j = false) →
      findZipStartOffset D =
        if cdSizeAt D i > i ∨ cdOffsetAt D i > i - cdSizeAt D i then none
        else some (i - cdSizeAt D i - cdOffsetAt D i)) := by
  refine ⟨findZipStartOffset_eq_ref D, ?_, ?_, ?_⟩
  · intro h
    simp [findZipStartOffset, h]
  · intro hlen hno
    unfold findZipStartOffset
    have hl : ¬ D.length < 22 := by omega
    simp only [hl, if_false]
    have hsf : (if D.length > 22 + 65535 then D.length - (22 + 65535) else 0)
        = D.length - 65557 := by
      split <;> omega
    rw [hsf]
    apply scanEocd_none
    intro j h1 h2
    rw [checkEocdAt_eq, hno j (by rw [Nat.zero_max]; exact h1) (by omega)]
    simp
  · intro i hlen hlo hhi hcand hlast
    exact findZipStartOffset_of_last D i hlen (by rw [Nat.zero_max] at hlo; exact hlo) hhi
      hcand hlast

/-- Witness for `findZipStartOffset_reference`: in `hostPrefix ++ commentedZip` the
largest candidate is the record inside the comment, at 29; it decides the
result although the record at 7 is the container's. -/
theorem findZipStartOffset_reference_witness :
    eocdCandidate (hostPrefix ++ commentedZip) 7 = true ∧
    eocdCandidate (hostPrefix ++ commentedZip) 29 = true ∧
    findZipStartOffset (hostPrefix ++ commentedZip) = some 29 :=
  ⟨by decide, by decide,
   ((findZipStartOffset_reference (hostPrefix ++ commentedZip)).2.2.2 29 (by decide)
      (by decide) (by decide) (by decide)
      (fun j h1 h2 => absurd h2 (by
        have : (hostPrefix ++ commentedZip).length - 22 = 29 := by decide
        omega))).trans (by decide)⟩

/-! ## Fused archive: records with a comment -/

/-- Counterexample to C25 as stated: `commentedZip` has its end-of-directory
record at position 4, with comment length 22 = |Z| - 4 - 22 and
cdOffset + cdSize = 3 + 1 = 4; its comment bytes read as a record without
comment. Behind the three bytes of `hostPrefix` the backward scan stops at the
record inside the comment and returns 29, not the length 3 of the prefix. -/
theorem comment_record_shadows_container :
    eocdCandidate commentedZip 4 = true ∧
    commentLenAt commentedZip 4 = commentedZip.length - 4 - 22 ∧
    commentedZip.length - 4 - 22 ≤ 65535 ∧
    cdOffsetAt commentedZip 4 + cdSizeAt commentedZip 4 = 4 ∧
    hostPrefix.length = 3 ∧
    findZipStartOffset (hostPrefix ++ commentedZip) = some 29 := by
  decide

theorem leField_append_right (P Z : List Byte) (n : Nat) : ∀ j : Nat,
    leField (P ++ Z) (P.length + j) n = leField Z j n := by
  induction n with
  | zero => intro j; rfl
  | succ n ih =>
    intro j
    simp only [leField]
    rw [byteAt_append_right, Nat.add_assoc, ih]

theorem eocdCandidate_append_right (P Z : List Byte) (j : Nat) :
    eocdCandidate (P ++ Z) (P.length + j) = eocdCandidate Z j := by
  unfold eocdCandidate commentLenAt
  have hd : (P ++ Z).drop (P.length + j) = Z.drop j := by
    rw [List.drop_append]
  have hf : leField (P ++ Z) (P.length + j + 20) 2 = leField Z (j + 20) 2 := by
    rw [Nat.add_assoc, leField_append_right]
  rw [hd, hf]
  congr 1
  rw [Bool.eq_iff_iff]
  simp only [beq_iff_eq, List.length_append]
  omega

/-- C25 (amended): for every host prefix `P` and every container `Z` whose
end-of-directory record sits at position `e` of `Z` and carries a trailing
comment of any length `c <= 65535` (`c = |Z| - e - 22`) with
`cdOffset + cdSize = e`, provided no position inside the comment reads as a
record that ends at the end of the buffer (signature `50 4B 05 06` at `j > e`
with `j + 22 + commentLen(j) = |Z|`), the backward scan finds the record at `e`
and `findZipStartOffset(P ++ Z) = |P|`. -/
theorem findZipStartOffset_commented (P Z : List Byte) (e : Nat)
    (hfit : e + 22 ≤ Z.length) (hmax : Z.length - e - 22 ≤ 65535)
    (hsig : ((Z.drop e).take 4).map (fun b => b.val) = [0x50, 0x4B, 0x05, 0x06])
    (hcomment : commentLenAt Z e = Z.length - e - 22)
    (hcd : cdOffsetAt Z e + cdSizeAt Z e = e)
    (hclean : ∀ j, e < j → j + 22 ≤ Z.length → eocdCandidate Z j = false) :
    findZipStartOffset (P ++ Z) = some P.length := by
  have hcand : eocdCandidate Z e = true := by
    unfold eocdCandidate
    rw [hsig, hcomment]
    simp only [beq_self_eq_true, Bool.true_and, beq_iff_eq]
    omega
  have hlen : (P ++ Z).length = P.length + Z.length := List.length_append _ _
  have h := findZipStartOffset_of_last (P ++ Z) (P.length + e) (by omega) (by omega) (by omega)
    (by rw [eocdCandidate_append_right]; exact hcand)
    (fun j h1 h2 => by
      have hj : j = P.length + (j - P.length) := by omega
      rw [hj, eocdCandidate_append_right]
      exact hclean _ (by omega) (by omega))
  rw [h]
  have hs : cdSizeAt (P ++ Z) (P.length + e) = cdSizeAt Z e := by
    unfold cdSizeAt
    rw [Nat.add_assoc, leField_append_right]
  have ho : cdOffsetAt (P ++ Z) (P.length + e) = cdOffsetAt Z e := by
    unfold cdOffsetAt
    rw [Nat.add_assoc, leField_append_right]
  rw [hs, ho]
  have hno : ¬ (cdSizeAt Z e > P.length + e ∨
      cdOffsetAt Z e > P.length + e - cdSizeAt Z e) := by omega
  rw [if_neg hno]
  congr 1
  omega

/-- Witness for `findZipStartOffset_commented`: the container `plainCommentZip`,
whose comment is the text `hi`, behind `hostPrefix`. -/
theorem findZipStartOffset_commented_witness :
    commentLenAt plainCommentZip 4 = plainCommentZip.length - 4 - 22 ∧
    cdOffsetAt plainCommentZip 4 + cdSizeAt plainCommentZip 4 = 4 ∧
    findZipStartOffset (hostPrefix ++ plainCommentZip) = some hostPrefix.length :=
  ⟨by decide, by decide,
   findZipStartOffset_commented hostPrefix plainCommentZip 4 (by decide) (by decide)
     (by decide) (by decide) (by decide)
     (fun j h1 h2 => by
       have hl : plainCommentZip.length = 28 := rfl
       rw [hl] at h2
       have hj : j = 5 ∨ j = 6 := by omega
       rcases hj with rfl | rfl <;> decide)⟩

/-! ## Fused archive: the scan on a machine -/

theorem readByte_ok (data : List Byte) (k : Nat) (h : k < data.length) :
    readByte data k = Except.ok (byteAt data k) := by
  unfold readByte byteAt
  rw [List.get?_eq_getElem?, List.getElem?_eq_getElem h]
  simp [List.getD_eq_getElem?_getD, List.getElem?_eq_getElem h]

theorem readLe16_ok (data : List Byte) (k : Nat) (h : k + 2 ≤ data.length) :
    readLe16 data k = Except.ok (le16 data k) := by
  unfold readLe16 le16
  rw [readByte_ok data k (by omega), readByte_ok data (k + 1) (by omega)]
  rfl

theorem readLe32_ok (data : List Byte) (k : Nat) (h : k + 4 ≤ data.length) :
    readLe32 data k = Except.ok (le32 data k) := by
  unfold readLe32 le32
  rw [readByte_ok data k (by omega), readByte_ok data (k + 1) (by omega),
    readByte_ok data (k + 2) (by omega), readByte_ok data (k + 3) (by omega)]
  rfl

/-- At an index with 22 bytes of buffer from it on, the checked loop body reads
inside the buffer and gives what the loop body gives. -/
theorem checkEocdAtChecked_ok (data : List Byte) (i : Nat) (h : i + 22 ≤ data.length) :
    checkEocdAtChecked data i = Except.ok (checkEocdAt data i) := by
  unfold checkEocdAtChecked
  rw [readByte_ok data i (by omega), readByte_ok data (i + 1) (by omega),
    readByte_ok data (i + 2) (by omega), readByte_ok data (i + 3) (by omega),
    readLe16_ok data (i + 20) (by omega), readLe32_ok data (i + 12) (by omega),
    readLe32_ok data (i + 16) (by omega)]
  unfold checkEocdAt hasEocdSignature
  simp only [Except.bind]
  by_cases h0 : byteAt data i = 0x50
  · by_cases h1 : byteAt data (i + 1) = 0x4B
    · by_cases h2 : byteAt data (i + 2) = 0x05
      · by_cases h3 : byteAt data (i + 3) = 0x06
        · by_cases hc : i + 22 + le16 data (i + 20) = data.length
          · by_cases hs : i < le32 data (i + 12)
            · simp [h0, h1, h2, h3, hc, hs]
            · by_cases ho : i - le32 data (i + 12) < le32 data (i + 16)
              · simp [h0, h1, h2, h3, hc, hs, ho]
              · simp [h0, h1, h2, h3, hc, hs, ho]
          · simp [h0, h1, h2, h3, hc]
        · simp [h0, h1, h2, h3]
      · simp [h0, h1, h2]
    · simp [h0, h1]
  · simp [h0]

theorem decrSizeT_pos (i : Nat) (h0 : 0 < i) (h1 : i < 2 ^ 64) : decrSizeT i = i - 1 := by
  unfold decrSizeT
  norm_num at h1 ⊢
  omega


/-- The checked loop from `searchFrom + k` down: with more fuel than `k` it ends
without a fault, returns what the scan loop returns, and runs its body at
`searchFrom + k`, then at each predecessor in turn, never below `searchFrom`. -/
theorem scanChecked_ok (data : List Byte) (sf : Nat) (hsize : data.length < 2 ^ 64) :
    ∀ (k fuel : Nat) (seen : List Nat), sf + k + 22 ≤ data.length → k < fuel →
      ∃ tr : List Nat,
        scanChecked data sf fuel (sf + k) seen = Except.ok (scanEocd data sf k, seen ++ tr) ∧
        (∀ x ∈ tr, sf ≤ x ∧ x ≤ sf + k) ∧ tr.head? = some (sf + k) ∧
        tr.Chain' (fun a b => a = b + 1) ∧ tr.length ≤ k + 1 := by
  intro k
  induction k with
  | zero =>
    intro fuel seen hfit hfuel
    obtain ⟨f, rfl⟩ : ∃ f, fuel = f + 1 := ⟨fuel - 1, by omega⟩
    refine ⟨[sf], ?_, ?_, rfl, List.chain'_singleton _, by simp⟩
    · simp only [scanChecked, Nat.add_zero, scanEocd]
      rw [checkEocdAtChecked_ok data sf (by omega)]
      cases checkEocdAt data sf with
      | none => simp
      | some r => rfl
    · intro x hx
      simp only [List.mem_singleton] at hx
      omega
  | succ k ih =>
    intro fuel seen hfit hfuel
    obtain ⟨f, rfl⟩ : ∃ f, fuel = f + 1 := ⟨fuel - 1, by omega⟩
    simp only [scanChecked, scanEocd]
    rw [checkEocdAtChecked_ok data (sf + (k + 1)) (by omega)]
    cases checkEocdAt data (sf + (k + 1)) with
    | some r =>
      refine ⟨[sf + (k + 1)], rfl, ?_, rfl, List.chain'_singleton _, by simp⟩
      intro x hx
      simp only [List.mem_singleton] at hx
      omega
    | none =>
      have hne : (sf + (k + 1) == sf) = false := by
        simp only [beq_eq_false_iff_ne, ne_eq]
        omega
      have hdec : decrSizeT (sf + (k + 1)) = sf + k := by
        rw [decrSizeT_pos _ (by omega) (by omega)]
        omega
      simp only [hne, Bool.false_eq_true, if_false, hdec]
      obtain ⟨tr, h1, h2, h3, h4, h5⟩ := ih f (seen ++ [sf + (k + 1)]) (by omega) (by omega)
      refine ⟨(sf + (k + 1)) :: tr, ?_, ?_, rfl, ?_, ?_⟩
      · rw [h1]
        simp
      · intro x hx
        rcases List.mem_cons.mp hx with rfl | hx
        · omega
        · have := h2 x hx
          omega
      · cases tr with
        | nil => exact List.chain'_singleton _
        | cons t ts =>
          simp only [List.head?_cons, Option.some.injEq] at h3
          exact List.Chain'.cons (by omega) h4
      · simp only [List.length_cons]
        omega

/-- C27: for every buffer (of a size a `size_t` holds) `findZipStartOffset` ends
and reads inside the buffer: run with checked reads and 65536 rounds of fuel
or more, the scan raises no fault and returns the value of
`findZipStartOffset`; the loop body runs at `|D| - 22` first, then at each
predecessor in turn and at most 65536 times, and every index `i` it runs at
lies at or above the window start and has `i + 22 <= |D|`, so the bytes `i`
through `i + 21` it may read exist and the index never wraps around. -/
theorem findZipStartOffset_reads_inside (data : List Byte) (hsize : data.length < 2 ^ 64)
    (fuel : Nat) (hfuel : 65536 ≤ fuel) :
    ∃ seen : List Nat,
      findZipStartOffsetChecked fuel data = Except.ok (findZipStartOffset data, seen) ∧
      (∀ i ∈ seen, max 0 (data.length - 65557) ≤ i ∧ i + 22 ≤ data.length) ∧
      (22 ≤ data.length → seen.head? = some (data.length - 22)) ∧
      seen.Chain' (fun a b => a = b + 1) ∧ seen.length ≤ 65536 := by
  unfold findZipStartOffsetChecked findZipStartOffset
  by_cases hlen : data.length < 22
  · refine ⟨[], by simp [hlen], by simp, fun h => absurd hlen (by omega), List.chain'_nil,
      by simp⟩
  · simp only [hlen, if_false]
    have hsf : (if data.length > 22 + 65535 then data.length - (22 + 65535) else 0)
        = data.length - 65557 := by
      split <;> omega
    rw [hsf]
    have hi : data.length - 22
        = data.length - 65557 + (data.length - 22 - (data.length - 65557)) := by omega
    obtain ⟨tr, h1, h2, h3, h4, h5⟩ := scanChecked_ok data (data.length - 65557) hsize
      (data.length - 22 - (data.length - 65557)) fuel [] (by omega) (by omega)
    rw [← hi] at h1 h2 h3
    refine ⟨tr, by simpa using h1, ?_, fun _ => h3, h4, by omega⟩
    intro i hi2
    have := h2 i hi2
    rw [Nat.zero_max]
    omega

/-- Witness for `findZipStartOffset_reads_inside`: the scan of
`hostPrefix ++ plainCommentZip` runs its body at 9, 8 and 7. -/
theorem findZipStartOffset_reads_inside_witness :
    (hostPrefix ++ plainCommentZip).length < 2 ^ 64 ∧
    findZipStartOffsetChecked 65536 (hostPrefix ++ plainCommentZip)
      = Except.ok (some 3, [9, 8, 7]) ∧
    ∃ seen : List Nat,
      findZipStartOffsetChecked 65536 (hostPrefix ++ plainCommentZip)
        = Except.ok (findZipStartOffset (hostPrefix ++ plainCommentZip), seen) ∧
      (∀ i ∈ seen, max 0 ((hostPrefix ++ plainCommentZip).length - 65557) ≤ i ∧
        i + 22 ≤ (hostPrefix ++ plainCommentZip).length) ∧
      (22 ≤ (hostPrefix ++ plainCommentZip).length →
        seen.head? = some ((hostPrefix ++ plainCommentZip).length - 22)) ∧
      seen.Chain' (fun a b => a = b + 1) ∧ seen.length ≤ 65536 :=
  ⟨by decide, rfl,
   findZipStartOffset_reads_inside (hostPrefix ++ plainCommentZip) (by decide) 65536
     (Nat.le_refl _)⟩

/-! ## Identity sanitizing: truncation -/

/-- C28 fails for long inputs: of the 65 characters `a...a.b` the loop makes
`a...a_b`, which has no trailing underscore to strip; `resize(64)` then cuts
the `b` off and the identifier returned ends with `_`. -/
theorem sanitizeIdentity_truncation_leaves_underscore :
    longIdentity.length = 65 ∧
    sanitizeIdentity longIdentity = List.replicate 63 'a' ++ ['_'] ∧
    (sanitizeIdentity longIdentity).getLast? = some '_' := by
  set_option maxRecDepth 100000 in decide

theorem dropWhile_head_not (p : Char → Bool) (l : List Char) (c : Char)
    (h : (l.dropWhile p).head? = some c) : p c = false := by
  induction l with
  | nil => simp at h
  | cons x xs ih =>
    simp only [List.dropWhile] at h
    split at h
    · exact ih h
    · rename_i hx
      simp only [List.head?_cons, Option.some.injEq] at h
      rw [← h]
      simpa using hx

theorem popTrailingUnderscores_last (r : Str) :
    (popTrailingUnderscores r).getLast? ≠ some '_' := by
  unfold popTrailingUnderscores
  rw [List.getLast?_reverse]
  intro h
  have := dropWhile_head_not _ _ _ h
  simp at this

theorem sanitizeStep_length (acc : Str) (c : Char) :
    (sanitizeStep acc c).length ≤ acc.length + 1 := by
  unfold sanitizeStep
  split
  · simp
  · split
    · split <;> simp
    · simp

theorem foldl_sanitizeStep_length (raw : Str) : ∀ acc : Str,
    (raw.foldl sanitizeStep acc).length ≤ acc.length + raw.length := by
  induction raw with
  | nil => intro acc; simp
  | cons c cs ih =>
    intro acc
    simp only [List.foldl_cons, List.length_cons]
    have h1 := ih (sanitizeStep acc c)
    have h2 := sanitizeStep_length acc c
    omega

theorem popTrailingUnderscores_length (r : Str) : (popTrailingUnderscores r).length ≤ r.length := by
  unfold popTrailingUnderscores
  rw [List.length_reverse]
  have := (List.dropWhile_sublist (fun c => c == '_') (l := r.reverse)).length_le
  simpa using this

/-- What holds of C28: an input of at most 64 characters, and any input whose
sanitized text is not truncated, gives an identifier that does not end with
`_`. -/
theorem sanitizeIdentity_short_no_trailing_underscore (raw : Str) (h : raw.length ≤ 64) :
    (sanitizeIdentity raw).getLast? ≠ some '_' := by
  unfold sanitizeIdentity
  simp only
  have hlen : (popTrailingUnderscores (raw.foldl sanitizeStep [])).length ≤ 64 := by
    have h1 := popTrailingUnderscores_length (raw.foldl sanitizeStep [])
    have h2 := foldl_sanitizeStep_length raw []
    simp only [List.length_nil, Nat.zero_add] at h2
    omega
  have hlast := popTrailingUnderscores_last (raw.foldl sanitizeStep [])
  generalize popTrailingUnderscores (raw.foldl sanitizeStep []) = r at hlen hlast
  by_cases he : r.isEmpty = true
  · simp only [he, if_true]
    decide
  · simp only [he, Bool.false_eq_true, if_false]
    have : ¬ r.length > 64 := by omega
    rw [if_neg this]
    exact hlast

/-! ## Sandbox store: the path that names the root -/

/-- C26 fails for `.`: the paths `.` and `a/..` are not empty and pass
`isPathSafe`, their normal form is `.`, and `resolveSavePath` appends it to the
save directory; the result `<saveDir>\.` has the normal form `<saveDir>\` and
names the save directory itself, not a location below it. `remove(".")` is not
stopped by the test for the root, asks the file system to remove that path, and
on a file system that resolves the name the empty save directory is deleted. -/
theorem remove_dot_reaches_save_directory :
    isPathSafe Platform.windows ".".toList = true ∧
    isPathSafe Platform.windows "a/..".toList = true ∧
    (freshHost windowsEnv).saveDir = "C:\\Users\\u\\AppData\\Roaming\\Lime2D\\demo".toList ∧
    resolveSavePath Platform.windows (freshHost windowsEnv).saveDir ".".toList
      = "C:\\Users\\u\\AppData\\Roaming\\Lime2D\\demo\\.".toList ∧
    resolveSavePath Platform.windows (freshHost windowsEnv).saveDir "a/..".toList
      = "C:\\Users\\u\\AppData\\Roaming\\Lime2D\\demo\\.".toList ∧
    lexically_normal Platform.windows "C:\\Users\\u\\AppData\\Roaming\\Lime2D\\demo\\.".toList
      = "C:\\Users\\u\\AppData\\Roaming\\Lime2D\\demo\\".toList ∧
    resolveSavePath Platform.posix (freshHost posixEnv).saveDir ".".toList
      = "/home/u/.local/share/Lime2D/demo/.".toList ∧
    (l_fs_remove (resolvingFs Platform.windows) windowsEnv (freshHost windowsEnv)
      emptySaveDirWorld ".".toList).1 = FsReturn.bool true ∧
    (l_fs_remove (resolvingFs Platform.windows) windowsEnv (freshHost windowsEnv)
      emptySaveDirWorld ".".toList).2.2.calls
      = [FsCall.pathExists "C:\\Users\\u\\AppData\\Roaming\\Lime2D\\demo\\.".toList,
         FsCall.is_directory "C:\\Users\\u\\AppData\\Roaming\\Lime2D\\demo\\.".toList,
         FsCall.directory_iterator "C:\\Users\\u\\AppData\\Roaming\\Lime2D\\demo\\.".toList,
         FsCall.remove "C:\\Users\\u\\AppData\\Roaming\\Lime2D\\demo\\.".toList] ∧
    emptySaveDirWorld.fs.lookup "C:\\Users\\u\\AppData\\Roaming\\Lime2D\\demo".toList
      = some none ∧
    (l_fs_remove (resolvingFs Platform.windows) windowsEnv (freshHost windowsEnv)
      emptySaveDirWorld ".".toList).2.2.fs.lookup
        "C:\\Users\\u\\AppData\\Roaming\\Lime2D\\demo".toList = none := by
  decide

/-! ## Profiler: reachable states -/

theorem profilerConsistent_iff (h : LuaHost) :
    profilerConsistent h = true ↔
      ((h.profilerActiveSection = [] ∧ h.profilerSectionStart = 0) ∨
       (h.profilerActiveSection ≠ [] ∧
        (h.profilerSections.lookup h.profilerActiveSection).isSome = true)) := by
  unfold profilerConsistent
  simp [List.isEmpty_iff]

theorem profilerConsistent_of_idle (h : LuaHost) (ha : h.profilerActiveSection = [])
    (hs : h.profilerSectionStart = 0) : profilerConsistent h = true :=
  (profilerConsistent_iff h).mpr (Or.inl ⟨ha, hs⟩)

theorem profilerConsistent_stop (h : LuaHost) (now : Rat) (hc : profilerConsistent h = true) :
    (profilerStopCurrentSection h now).profilerActiveSection = [] ∧
    (profilerStopCurrentSection h now).profilerSectionStart = 0 := by
  by_cases ha : h.profilerActiveSection = []
  · rw [profilerStopCurrentSection_idle h now ha]
    rcases (profilerConsistent_iff h).mp hc with ⟨_, h2⟩ | ⟨h1, _⟩
    · exact ⟨ha, h2⟩
    · exact absurd ha h1
  · obtain ⟨r1, r2, _⟩ := profilerStopCurrentSection_active h now ha
    exact ⟨r1, r2⟩

theorem sectionSet_keys (m : List (Str × Rat)) (id : Str) (v : Rat)
    (h : (m.lookup id).isSome = true) :
    (sectionSet m id v).map (fun pair => pair.1) = m.map (fun pair => pair.1) := by
  induction m with
  | nil => simp [List.lookup] at h
  | cons e rest ih =>
    obtain ⟨k, old⟩ := e
    by_cases hk : k = id
    · subst hk
      simp [sectionSet]
    · have hb : (k == id) = false := by simpa using hk
      have hb2 : (id == k) = false := by simpa using (fun e : id = k => hk e.symm)
      simp only [List.lookup, hb2] at h
      simp only [sectionSet, hb, Bool.false_eq_true, if_false, List.map_cons, ih h]

theorem profilerOp_consistent (env : Env) (absolute : Str → Str) (h : LuaHost)
    (hc : profilerConsistent h = true) (op : ProfilerOp) :
    profilerConsistent (profilerOp env absolute h op) = true := by
  cases op with
  | start id t1 t2 =>
    simp only [profilerOp]
    obtain ⟨s1, s2⟩ := profilerConsistent_stop h t1 hc
    unfold l_profiler_start
    by_cases hn : (id == LuaValue.nil) = true
    · simp only [hn, if_true]; exact hc
    · simp only [hn, Bool.false_eq_true, if_false]
      cases hcs : checkString id with
      | none => exact profilerConsistent_of_idle _ s1 s2
      | some sid =>
        simp only
        by_cases he : sid.isEmpty = true
        · simp only [he, if_true]
          exact profilerConsistent_of_idle _ s1 s2
        · simp only [he, Bool.false_eq_true, if_false]
          rw [profilerConsistent_iff]
          right
          refine ⟨by simpa [List.isEmpty_iff] using he, ?_⟩
          simp only
          by_cases hl : ((profilerStopCurrentSection h t1).profilerSections.lookup sid).isNone
              = true
          · simp only [hl, if_true, lookup_sectionSet, if_true, Option.isSome_some]
          · simp only [hl, Bool.false_eq_true, if_false]
            simpa using hl
  | stop now =>
    obtain ⟨s1, s2⟩ := profilerConsistent_stop h now hc
    exact profilerConsistent_of_idle _ s1 s2
  | get id now =>
    simp only [profilerOp, l_profiler_get]
    split
    · exact hc
    · split <;> exact hc
  | list => exact hc
  | reset now =>
    simp only [profilerOp]
    rw [profilerConsistent_iff] at hc ⊢
    unfold l_profiler_reset
    rcases hc with ⟨h1, h2⟩ | ⟨h1, h2⟩
    · left
      simp [h1, h2]
    · right
      have he : h.profilerActiveSection.isEmpty = false := by simpa [List.isEmpty_iff] using h1
      simp only [he, Bool.not_false, if_true]
      refine ⟨h1, ?_⟩
      rw [lookup_map_zero]
      simpa using h2
  | clear => exact profilerConsistent_of_idle _ rfl rfl
  | loadApp path =>
    simp only [profilerOp]
    split
    · exact hc
    · exact profilerConsistent_of_idle _ rfl rfl
  | loadFused archivePath =>
    simp only [profilerOp]
    split
    · exact hc
    · exact profilerConsistent_of_idle _ rfl rfl
  | init handle =>
    simp only [profilerOp, LuaHost.init]
    split
    · exact hc
    · exact hc
  | shutdown =>
    simp only [profilerOp, LuaHost.shutdown]
    split
    · exact hc
    · exact profilerConsistent_of_idle _ rfl rfl

theorem profilerOps_consistent (env : Env) (absolute : Str → Str) (ops : List ProfilerOp) :
    ∀ h : LuaHost, profilerConsistent h = true →
      profilerConsistent (profilerOps env absolute h ops) = true := by
  induction ops with
  | nil => intro h hc; exact hc
  | cons op rest ih =>
    intro h hc
    exact ih _ (profilerOp_consistent env absolute h hc op)


/-- C29: in every profiler state reached from a newly constructed host by any
sequence of `start` (any argument), `stop`, `get`, `list`, `reset`, `clear`,
script loads, `init` and `shutdown`, either no section is active and the start
timestamp is 0, or the active id is non-empty and has an accumulator; hence
stopping the current section in such a state leaves the set of section ids as
it was. -/
theorem profiler_reachable_consistent (env : Env) (absolute : Str → Str)
    (ops : List ProfilerOp) :
    (((profilerOps env absolute constructedHost ops).profilerActiveSection = [] ∧
      (profilerOps env absolute constructedHost ops).profilerSectionStart = 0) ∨
     ((profilerOps env absolute constructedHost ops).profilerActiveSection ≠ [] ∧
      ∃ acc, (profilerOps env absolute constructedHost ops).profilerSections.lookup
        (profilerOps env absolute constructedHost ops).profilerActiveSection = some acc)) ∧
    (∀ now : Rat,
      (profilerStopCurrentSection (profilerOps env absolute constructedHost ops)
        now).profilerSections.map (fun pair => pair.1)
      = (profilerOps env absolute constructedHost ops).profilerSections.map
          (fun pair => pair.1)) := by
  have hc := profilerOps_consistent env absolute ops constructedHost rfl
  generalize profilerOps env absolute constructedHost ops = h at hc
  have hi := (profilerConsistent_iff h).mp hc
  constructor
  · rcases hi with h1 | ⟨h1, h2⟩
    · exact Or.inl h1
    · exact Or.inr ⟨h1, Option.isSome_iff_exists.mp h2⟩
  · intro now
    rcases hi with ⟨h1, _⟩ | ⟨h1, h2⟩
    · rw [profilerStopCurrentSection_idle h now h1]
    · have he : h.profilerActiveSection.isEmpty = false := by simpa [List.isEmpty_iff] using h1
      unfold profilerStopCurrentSection
      simp only [he, Bool.false_eq_true, if_false]
      exact sectionSet_keys _ _ _ h2

/-- The profiler after a run that loads a script, starts `a`, switches to `b`,
resets, reads `a` and shuts down, and the one after a run that stops in the
middle of section `b`. -/
theorem profiler_runs :
    (profilerOps posixEnv posixAbsolute constructedHost
      [ProfilerOp.init 1, ProfilerOp.loadApp "demo/main.lua".toList,
       ProfilerOp.start (LuaValue.string "a".toList) 1 1,
       ProfilerOp.start (LuaValue.string "b".toList) 2 2]).profilerActiveSection
      = "b".toList ∧
    (profilerOps posixEnv posixAbsolute constructedHost
      [ProfilerOp.init 1, ProfilerOp.loadApp "demo/main.lua".toList,
       ProfilerOp.start (LuaValue.string "a".toList) 1 1,
       ProfilerOp.start (LuaValue.string "b".toList) 2 2]).profilerSections.map
        (fun pair => pair.1) = ["a".toList, "b".toList] ∧
    (profilerOps posixEnv posixAbsolute constructedHost
      [ProfilerOp.init 1, ProfilerOp.loadApp "demo/main.lua".toList,
       ProfilerOp.start (LuaValue.string "a".toList) 1 1,
       ProfilerOp.start (LuaValue.string "b".toList) 2 2,
       ProfilerOp.reset 3, ProfilerOp.get "a".toList 4,
       ProfilerOp.shutdown]).profilerSections = [] := by
  refine ⟨?_, ?_, ?_⟩ <;> rfl

/-! ## Text input: UTF-8 encoding -/

theorem lor_high (k a b : Nat) (hb : b < 2 ^ k) : (2 ^ k * a) ||| b = 2 ^ k * a + b :=
  (Nat.mul_add_lt_is_or hb a).symm

theorem and_63 (c : Nat) : c &&& 0x3F = c % 64 := by
  have := Nat.and_pow_two_sub_one_eq_mod c 6
  simpa using this

theorem or_C0 (x : Nat) (h : x < 64) : 0xC0 ||| x = 0xC0 + x := by
  have := lor_high 6 3 x (by simpa using h)
  simpa using this

theorem or_E0 (x : Nat) (h : x < 32) : 0xE0 ||| x = 0xE0 + x := by
  have := lor_high 5 7 x (by simpa using h)
  simpa using this

theorem or_F0 (x : Nat) (h : x < 16) : 0xF0 ||| x = 0xF0 + x := by
  have := lor_high 4 15 x (by simpa using h)
  simpa using this

theorem or_80 (x : Nat) (h : x < 64) : 0x80 ||| x = 0x80 + x := by
  have := lor_high 6 2 x (by simpa using h)
  simpa using this

/-- The bytes `codepointToUtf8` writes for a code point up to 0x10FFFF are the
reference sequence and a zero. -/
theorem codepointToUtf8_eq (c : Nat) (hmax : c ≤ 0x10FFFF) :
    codepointToUtf8 c = utf8Reference c ++ [0] := by
  unfold codepointToUtf8 utf8Reference toCharByte
  simp only [Nat.shiftRight_eq_div_pow, and_63]
  by_cases h1 : c < 0x80
  · simp only [h1, if_true, List.cons_append, List.nil_append]
    congr 1
    omega
  · by_cases h2 : c < 0x800
    · simp only [h1, h2, if_true, if_false, List.cons_append, List.nil_append]
      rw [or_C0 _ (by omega), or_80 _ (by omega)]
      congr 1
      · omega
      · congr 1
        omega
    · by_cases h3 : c < 0x10000
      · simp only [h1, h2, h3, if_true, if_false, List.cons_append, List.nil_append]
        rw [or_E0 _ (by omega), or_80 _ (by omega), or_80 _ (by omega)]
        congr 1
        · omega
        · congr 1
          · omega
          · congr 1
            omega
      · simp only [h1, h2, h3, if_false, List.cons_append, List.nil_append]
        rw [or_F0 _ (by omega), or_80 _ (by omega), or_80 _ (by omega), or_80 _ (by omega)]
        congr 1
        · omega
        · congr 1
          · omega
          · congr 1
            · omega
            · congr 1
              omega


theorem utf8Reference_bytes (c : Nat) (hmin : 1 ≤ c) (hmax : c ≤ 0x10FFFF) :
    ∀ b ∈ utf8Reference c, 1 ≤ b ∧ b < 256 := by
  unfold utf8Reference
  intro b hb
  split at hb
  · simp only [List.mem_singleton] at hb; omega
  · split at hb
    · simp only [List.mem_cons, List.mem_singleton, List.not_mem_nil, or_false] at hb
      rcases hb with rfl | rfl <;> omega
    · split at hb
      · simp only [List.mem_cons, List.mem_singleton, List.not_mem_nil, or_false] at hb
        rcases hb with rfl | rfl | rfl <;> omega
      · simp only [List.mem_cons, List.mem_singleton, List.not_mem_nil, or_false] at hb
        rcases hb with rfl | rfl | rfl | rfl <;> omega

theorem utf8Reference_length (c : Nat) :
    (utf8Reference c).length =
      if c < 0x80 then 1 else if c < 0x800 then 2 else if c < 0x10000 then 3 else 4 := by
  unfold utf8Reference
  split
  · rfl
  · split
    · rfl
    · split <;> rfl

theorem utf8Decode_reference (c : Nat) (hmax : c ≤ 0x10FFFF) :
    utf8Decode (utf8Reference c) = some c := by
  unfold utf8Reference
  by_cases h1 : c < 0x80
  · simp only [h1, if_true, utf8Decode]
  · by_cases h2 : c < 0x800
    · simp only [h1, h2, if_true, if_false, utf8Decode, isContinuation]
      have e1 : decide (0xC0 ≤ 0xC0 + c / 64) = true := by simp
      have e2 : decide (0xC0 + c / 64 < 0xE0) = true := by simp; omega
      have e3 : decide (0x80 ≤ 0x80 + c % 64) = true := by simp
      have e4 : decide (0x80 + c % 64 < 0xC0) = true := by simp; omega
      simp only [e1, e2, e3, e4, Bool.and_self, if_true, Option.some.injEq]
      omega
    · by_cases h3 : c < 0x10000
      · simp only [h1, h2, h3, if_true, if_false, utf8Decode, isContinuation]
        have e1 : decide (0xE0 ≤ 0xE0 + c / 4096) = true := by simp
        have e2 : decide (0xE0 + c / 4096 < 0xF0) = true := by simp; omega
        have e3 : decide (0x80 ≤ 0x80 + c / 64 % 64) = true := by simp
        have e4 : decide (0x80 + c / 64 % 64 < 0xC0) = true := by simp; omega
        have e5 : decide (0x80 ≤ 0x80 + c % 64) = true := by simp
        have e6 : decide (0x80 + c % 64 < 0xC0) = true := by simp; omega
        simp only [e1, e2, e3, e4, e5, e6, Bool.and_self, if_true, Option.some.injEq]
        omega
      · simp only [h1, h2, h3, if_false, utf8Decode, isContinuation]
        have e1 : decide (0xF0 ≤ 0xF0 + c / 262144) = true := by simp
        have e2 : decide (0xF0 + c / 262144 < 0xF8) = true := by simp; omega
        have e3 : decide (0x80 ≤ 0x80 + c / 4096 % 64) = true := by simp
        have e4 : decide (0x80 + c / 4096 % 64 < 0xC0) = true := by simp; omega
        have e5 : decide (0x80 ≤ 0x80 + c / 64 % 64) = true := by simp
        have e6 : decide (0x80 + c / 64 % 64 < 0xC0) = true := by simp; omega
        have e7 : decide (0x80 ≤ 0x80 + c % 64) = true := by simp
        have e8 : decide (0x80 + c % 64 < 0xC0) = true := by simp; omega
        simp only [e1, e2, e3, e4, e5, e6, e7, e8, Bool.and_self, if_true, Option.some.injEq]
        omega

theorem takeWhile_nonzero_append_zero (bs rest : List Nat) (h : ∀ b ∈ bs, 1 ≤ b) :
    (bs ++ 0 :: rest).takeWhile (fun b => b != 0) = bs := by
  induction bs with
  | nil => simp [List.takeWhile]
  | cons b tl ih =>
    have hb : (b != 0) = true := by
      have := h b (List.mem_cons_self _ _)
      simp; omega
    rw [List.cons_append, List.takeWhile_cons, hb]
    simp only [if_true]
    rw [ih (fun x hx => h x (List.mem_cons_of_mem _ hx))]

theorem cString_utf8Buffer (c : Nat) (hmin : 1 ≤ c) (hmax : c ≤ 0x10FFFF) :
    cString (utf8Buffer c) = utf8Reference c := by
  unfold cString utf8Buffer
  rw [codepointToUtf8_eq c hmax, List.append_assoc]
  exact takeWhile_nonzero_append_zero _ _ (fun b hb => (utf8Reference_bytes c hmin hmax b hb).1)

theorem toNat_ofNat_byte : ∀ b : Fin 256, (Char.ofNat b.val).toNat = b.val := by
  set_option maxRecDepth 100000 in decide

theorem strToBytes_bytesToStr (bs : List Nat) (h : ∀ b ∈ bs, b < 256) :
    strToBytes (bytesToStr bs) = bs := by
  unfold strToBytes bytesToStr
  induction bs with
  | nil => rfl
  | cons b tl ih =>
    simp only [List.map_cons, List.map_map] at ih ⊢
    rw [ih (fun x hx => h x (List.mem_cons_of_mem _ hx))]
    congr 1
    exact toNat_ofNat_byte ⟨b, h b (List.mem_cons_self _ _)⟩


theorem codepointToUtf8_length (c : Nat) :
    (codepointToUtf8 c).length ≤ 5 ∧ (utf8Buffer c).length = 5 := by
  unfold utf8Buffer codepointToUtf8
  split
  · exact ⟨by simp, rfl⟩
  · split
    · exact ⟨by simp, rfl⟩
    · split
      · exact ⟨by simp, rfl⟩
      · exact ⟨by simp, rfl⟩

/-- C30: for every input `codepointToUtf8` writes at most 5 bytes, into a buffer
of 5. For every code point `c` with `1 <= c <= 0x10FFFF` the bytes written are
the UTF-8 byte sequence of `c` (1, 2, 3 or 4 bytes for `c < 0x80`, `< 0x800`,
`< 0x10000` and above) followed by a zero; the C string in the buffer is that
sequence, it is the string `callTextInput` hands to the `textinput` callback,
and decoding its bytes gives back `c`. -/
theorem codepointToUtf8_standard (c : Nat) :
    ((codepointToUtf8 c).length ≤ 5 ∧ (utf8Buffer c).length = 5) ∧
    (1 ≤ c → c ≤ 0x10FFFF →
      codepointToUtf8 c = utf8Reference c ++ [0] ∧
      (utf8Reference c).length =
        (if c < 0x80 then 1 else if c < 0x800 then 2 else if c < 0x10000 then 3 else 4) ∧
      cString (utf8Buffer c) = utf8Reference c ∧
      utf8Decode (strToBytes (bytesToStr (cString (utf8Buffer c)))) = some c ∧
      (∀ {Φ : Type} (E : Engine) (req : Session Φ → Str → Outcome LuaValue × Session Φ)
        (quit : Session Φ → Int → Outcome Unit × Session Φ) (d : Dispatch Φ)
        (field : Str → LimeField) (body : List HostArg → Script),
        d.lime = LimeGlobal.table field →
        field "textinput".toList = LimeField.function body →
        callTextInput E req quit d c =
          pcallHandled E req quit
            ((pushArgs { d with stack := d.stack ++ [Slot.field (LimeField.function body)] }
                [HostArg.string (bytesToStr (utf8Reference c))]).record
              (EngineEvent.callback "textinput".toList
                [HostArg.string (bytesToStr (utf8Reference c))])) 1)) := by
  refine ⟨codepointToUtf8_length c, ?_⟩
  intro hmin hmax
  have hs := cString_utf8Buffer c hmin hmax
  refine ⟨codepointToUtf8_eq c hmax, utf8Reference_length c, hs, ?_, ?_⟩
  · rw [hs, strToBytes_bytesToStr _ (fun b hb => (utf8Reference_bytes c hmin hmax b hb).2)]
    exact utf8Decode_reference c hmax
  · intro Φ E req quit d field body hl hf
    unfold callTextInput
    simp only [hs]
    rw [pushLimeCallback_present d _ field body hl hf]

/-- Witness for `codepointToUtf8_standard`: the euro sign, U+20AC. -/
theorem codepointToUtf8_standard_witness :
    codepointToUtf8 0x20AC = [0xE2, 0x82, 0xAC, 0] ∧
    utf8Decode (strToBytes (bytesToStr (cString (utf8Buffer 0x20AC)))) = some 0x20AC :=
  ⟨by decide,
   ((codepointToUtf8_standard 0x20AC).2 (by decide) (by decide)).2.2.2.1⟩

/-- The text dispatcher on `textDispatch` for U+00E9: the callback is called with
the two bytes C3 A9 and its answer is returned. -/
theorem callTextInput_example :
    (callTextInput demoEngine (demoApi posixEnv noArchive).require
      (demoApi posixEnv noArchive).windowQuit textDispatch 0xE9).1 = Outcome.returned true ∧
    (callTextInput demoEngine (demoApi posixEnv noArchive).require
      (demoApi posixEnv noArchive).windowQuit textDispatch 0xE9).2.session.lua.log
      = [EngineEvent.callback "textinput".toList
          [HostArg.string [Char.ofNat 0xC3, Char.ofNat 0xA9]]] ∧
    (callTextInput demoEngine (demoApi posixEnv noArchive).require
      (demoApi posixEnv noArchive).windowQuit textDispatch 0xE9).2.stack = [] := by
  refine ⟨?_, ?_, ?_⟩ <;> rfl

end Lime
